import Mathlib

/-!
BreezeFS: the placement and metadata protocol of the manager node.

A shallow embedding of `internal/server/manager_node.go`.

* A Go `map[K]V` is a finite map with unique keys: `GoMap K V`, an association list
  without duplicate keys.  Only lookups and key membership are observable in Go, so the
  position of an entry inside the association list carries no meaning.
* Go leaves the iteration order of `range` over a map unspecified, and it may differ from
  one loop to the next.  Every function that ranges over a map therefore takes the order
  in which that particular loop visits the map as an explicit argument (`order`), and the
  predicates `KeyOrder` / `EntryOrder` say which orders Go may pick.
* `int32` values are integers; the conversion `int32(i)` is `toInt32`, which wraps
  modulo `2 ^ 32`.
* A run-time panic (index out of range, write into a nil map) is the result `none`.
* A Go result pair `(resp, err)` is `Except String resp`.
* The mutex `mu` makes every handler atomic; a handler is a function on the state.
-/

namespace BreezeFS

/-! ## Go maps -/

/-- A Go `map[K]V`. -/
abbrev GoMap (K V : Type) := AList (fun _ : K => V)

/-- The orders in which `for k := range m` may visit the keys of `m`: every key exactly
once, in any order. -/
def KeyOrder {K V : Type} (m : GoMap K V) (order : List K) : Prop :=
  order.Perm m.keys

instance {K V : Type} [DecidableEq K] (m : GoMap K V) (order : List K) :
    Decidable (KeyOrder m order) := by
  unfold KeyOrder
  infer_instance

/-- The key/value pairs stored in a Go map. -/
def GoMap.pairs {K V : Type} (m : GoMap K V) : List (K × V) :=
  m.entries.map (fun e => (e.1, e.2))

/-- The orders in which `for k, v := range m` may visit the entries of `m`: every entry
exactly once, in any order. -/
def EntryOrder {K V : Type} (m : GoMap K V) (order : List (K × V)) : Prop :=
  order.Perm m.pairs

instance {K V : Type} [DecidableEq K] [DecidableEq V] (m : GoMap K V)
    (order : List (K × V)) : Decidable (EntryOrder m order) := by
  unfold EntryOrder
  infer_instance

/-- The conversion `int32(i)` of a Go `int`: two's complement wrap-around to 32 bits. -/
def toInt32 (i : Int) : Int :=
  (i + 2 ^ 31) % 2 ^ 32 - 2 ^ 31

/-- The values of Go's type `int32`. -/
def IsInt32 (i : Int) : Prop :=
  -(2 ^ 31) ≤ i ∧ i < 2 ^ 31

instance (i : Int) : Decidable (IsInt32 i) := by
  unfold IsInt32
  infer_instance

/-! ## Protocol messages (`breezeFS/proto/filesystem.pb.go`) -/

structure RegisterNodeRequest where
  NodeAddress : String
  deriving DecidableEq

structure RegisterNodeResponse where
  Message : String
  deriving DecidableEq

/-- The request of `GetNodesForChunks`; `TotalChunks` is an `int32`. -/
structure GetNodesForChunksRequest where
  FileId : String
  TotalChunks : Int
  FileType : String
  deriving DecidableEq

/-- One `(chunk, node)` pair of a placement plan; `ChunkId` is an `int32`. -/
structure ChunkNodeInfo where
  ChunkId : Int
  NodeAddress : String
  deriving DecidableEq

structure GetNodesForChunksResponse where
  Nodes : List ChunkNodeInfo
  deriving DecidableEq

structure GetChunkLocationsRequest where
  FileId : String
  deriving DecidableEq

/-- One chunk of a file with its replica list; `ChunkId` is an `int32`. -/
structure ChunkLocationInfo where
  ChunkId : Int
  Nodes : List String
  deriving DecidableEq

structure GetChunkLocationsResponse where
  Chunks : List ChunkLocationInfo
  FileType : String
  deriving DecidableEq

/-! ## The manager node -/

/-- The state of `ManagerNode` (the mutex and the embedded gRPC stub carry no data). -/
structure ManagerNode where
  /-- Registered nodes. -/
  nodes : GoMap String Bool
  /-- List of node addresses (a field no handler reads or writes). -/
  nodeAddresses : List String
  /-- FileID -> ChunkID -> []NodeAddresses. -/
  chunkMapping : GoMap String (GoMap Int (List String))
  /-- Map to store file types by file ID. -/
  fileTypes : GoMap String String

/-- `NewManagerNode`: three empty maps, `nodeAddresses` is nil. -/
def NewManagerNode : ManagerNode :=
  { nodes := ∅, nodeAddresses := [], chunkMapping := ∅, fileTypes := ∅ }

/-- `ManagerNode.RegisterNode`: `m.nodes[req.NodeAddress] = true`. -/
def ManagerNode.RegisterNode (m : ManagerNode) (req : RegisterNodeRequest) :
    ManagerNode × Except String RegisterNodeResponse :=
  ({ m with nodes := m.nodes.insert req.NodeAddress true },
    .ok { Message := "Node registered successfully" })

/-- The body of the placement loop of `GetNodesForChunks` for loop counter `i`, on the
manager state and the response list built so far. -/
def assignChunk (nodeAddresses : List String) (req : GetNodesForChunksRequest)
    (st : ManagerNode × List ChunkNodeInfo) (i : Nat) :
    Option (ManagerNode × List ChunkNodeInfo) :=
  match nodeAddresses[i % nodeAddresses.length]? with
  | none => none
  | some firstNode =>
    match (if nodeAddresses.length > 1 then
        nodeAddresses[(i + 1) % nodeAddresses.length]? else some firstNode) with
    | none => none
    | some secondNode =>
      match st.1.chunkMapping.lookup req.FileId with
      | none => none
      | some chunks =>
        let replicas :=
          if firstNode ≠ secondNode then [firstNode, secondNode] else [firstNode]
        let m1 : ManagerNode :=
          { st.1 with
            chunkMapping :=
              st.1.chunkMapping.insert req.FileId (chunks.insert (toInt32 i) replicas) }
        let m2 : ManagerNode :=
          { m1 with fileTypes := m1.fileTypes.insert req.FileId req.FileType }
        some (m2, st.2 ++ [{ ChunkId := toInt32 i, NodeAddress := firstNode },
                           { ChunkId := toInt32 i, NodeAddress := secondNode }])

/-- `ManagerNode.GetNodesForChunks`; `order` is the order in which the loop
`for address := range m.nodes` visits the registered addresses. -/
def ManagerNode.GetNodesForChunks (m : ManagerNode) (order : List String)
    (req : GetNodesForChunksRequest) :
    Option (ManagerNode × Except String GetNodesForChunksResponse) :=
  let nodeAddresses := order.foldl (fun acc address => acc ++ [address]) []
  if nodeAddresses.length = 0 then
    some (m, .error "no registered nodes available")
  else
    let m1 : ManagerNode :=
      if (m.chunkMapping.lookup req.FileId).isNone then
        { m with chunkMapping := m.chunkMapping.insert req.FileId ∅ }
      else m
    match (List.range req.TotalChunks.toNat).foldlM (assignChunk nodeAddresses req)
        (m1, []) with
    | none => none
    | some (m2, chunkNodes) => some (m2, .ok { Nodes := chunkNodes })

/-- `ManagerNode.GetChunkLocations`; `order` is the order in which the loop
`for chunkID, nodes := range chunkLocations` visits the chunk map of the file. -/
def ManagerNode.GetChunkLocations (m : ManagerNode) (order : List (Int × List String))
    (req : GetChunkLocationsRequest) :
    ManagerNode × Except String GetChunkLocationsResponse :=
  match m.chunkMapping.lookup req.FileId with
  | none => (m, .error "file not found")
  | some _ =>
    let chunkInfos := order.foldl
      (fun acc e => acc ++ [({ ChunkId := e.1, Nodes := e.2 } : ChunkLocationInfo)]) []
    (m, .ok { Chunks := chunkInfos,
              FileType := (m.fileTypes.lookup req.FileId).getD "" })

/-! ## Closed forms of what one pass of the placement loop computes -/

/-- The value of `firstNode` in the pass with loop counter `i`. -/
def firstNodeAt (nodeAddresses : List String) (i : Nat) : String :=
  nodeAddresses.getD (i % nodeAddresses.length) ""

/-- The value of `secondNode` in the pass with loop counter `i`. -/
def secondNodeAt (nodeAddresses : List String) (i : Nat) : String :=
  if nodeAddresses.length > 1 then
    nodeAddresses.getD ((i + 1) % nodeAddresses.length) ""
  else firstNodeAt nodeAddresses i

/-- The replica list written to the chunk map in the pass with loop counter `i`. -/
def replicasAt (nodeAddresses : List String) (i : Nat) : List String :=
  if firstNodeAt nodeAddresses i ≠ secondNodeAt nodeAddresses i then
    [firstNodeAt nodeAddresses i, secondNodeAt nodeAddresses i]
  else [firstNodeAt nodeAddresses i]

/-- The response list after `k` passes of the loop. -/
def planOf (nodeAddresses : List String) (k : Nat) : List ChunkNodeInfo :=
  (List.range k).flatMap fun i =>
    [{ ChunkId := (i : Int), NodeAddress := firstNodeAt nodeAddresses i },
     { ChunkId := (i : Int), NodeAddress := secondNodeAt nodeAddresses i }]

/-- What `k` passes of the placement loop, started in manager state `m0` where the file
of the request has chunk map `c0`, have done to the state and to the response list. -/
structure LoopInv (nodeAddresses : List String) (req : GetNodesForChunksRequest)
    (m0 : ManagerNode) (c0 : GoMap Int (List String)) (k : Nat)
    (st : ManagerNode × List ChunkNodeInfo) : Prop where
  nodes_eq : st.1.nodes = m0.nodes
  nodeAddresses_eq : st.1.nodeAddresses = m0.nodeAddresses
  chunk_other : ∀ g, g ≠ req.FileId →
    st.1.chunkMapping.lookup g = m0.chunkMapping.lookup g
  chunk_file : ∃ c, st.1.chunkMapping.lookup req.FileId = some c ∧
    ∀ j : Int, c.lookup j =
      if 0 ≤ j ∧ j < (k : Int) then some (replicasAt nodeAddresses j.toNat)
      else c0.lookup j
  type_other : ∀ g, g ≠ req.FileId → st.1.fileTypes.lookup g = m0.fileTypes.lookup g
  type_file : st.1.fileTypes.lookup req.FileId =
    if k = 0 then m0.fileTypes.lookup req.FileId else some req.FileType
  plan : st.2 = planOf nodeAddresses k

/-! ## Runs of the manager node -/

/-- What a client observes of one call. -/
inductive Event where
  /-- `RegisterNode` returned its confirmation. -/
  | registered (address : String)
  /-- `GetNodesForChunks` for the file returned a placement plan. -/
  | assigned (fileId : String)
  /-- `GetNodesForChunks` for the file returned an error. -/
  | assignFailed (fileId : String)
  /-- `GetChunkLocations` for the file returned (with or without an error). -/
  | lookedUp (fileId : String)
  deriving DecidableEq

/-- The event of a `GetNodesForChunks` call with the given result. -/
def assignEvent (fileId : String) :
    Except String GetNodesForChunksResponse → Event
  | .ok _ => .assigned fileId
  | .error _ => .assignFailed fileId

/-- `Trace es m`: starting from `NewManagerNode`, the calls whose events are `es` (oldest
first) lead to manager state `m`.  Each handler runs atomically (under `mu`), each `range`
loop visits its map in an order Go may pick, and requests carry `int32` chunk counts. -/
inductive Trace : List Event → ManagerNode → Prop where
  | init : Trace [] NewManagerNode
  | registerNode {es : List Event} {m : ManagerNode} (req : RegisterNodeRequest) :
      Trace es m →
      Trace (es ++ [.registered req.NodeAddress]) (m.RegisterNode req).1
  | getNodesForChunks {es : List Event} {m m' : ManagerNode} (order : List String)
      (req : GetNodesForChunksRequest)
      (res : Except String GetNodesForChunksResponse) :
      Trace es m → KeyOrder m.nodes order → IsInt32 req.TotalChunks →
      m.GetNodesForChunks order req = some (m', res) →
      Trace (es ++ [assignEvent req.FileId res]) m'
  | getChunkLocations {es : List Event} {m : ManagerNode}
      (order : List (Int × List String)) (req : GetChunkLocationsRequest) :
      Trace es m →
      (∀ c, m.chunkMapping.lookup req.FileId = some c → EntryOrder c order) →
      Trace (es ++ [.lookedUp req.FileId]) (m.GetChunkLocations order req).1

/-- The manager states reachable from `NewManagerNode`. -/
def Reachable (m : ManagerNode) : Prop :=
  ∃ es, Trace es m

/-! ## Example states -/

/-- A manager whose registry is `{A}`. -/
def managerA : ManagerNode :=
  (NewManagerNode.RegisterNode { NodeAddress := "A" }).1

/-- A manager whose registry is `{A, B}`. -/
def managerAB : ManagerNode :=
  (managerA.RegisterNode { NodeAddress := "B" }).1

/-- The manager state after a call on `m` returned without a panic (`m` itself
otherwise). -/
def stateAfter {α : Type} (m : ManagerNode) (r : Option (ManagerNode × α)) : ManagerNode :=
  match r with
  | some (m', _) => m'
  | none => m

/-- The chunk map of `f1` in the scenario of the specification: registry snapshot
`[A, B]`, three chunks. -/
def scenarioChunks : GoMap Int (List String) :=
  AList.insert 2 ["A", "B"] (AList.insert 1 ["B", "A"] (AList.insert 0 ["A", "B"] ∅))

/-- The manager state of the scenario of the specification: `A` and `B` registered, then
`GetNodesForChunks("f1", 3, "txt")` with registry snapshot `[A, B]`. -/
def scenarioManager : ManagerNode :=
  stateAfter managerAB (managerAB.GetNodesForChunks ["A", "B"]
    { FileId := "f1", TotalChunks := 3, FileType := "txt" })

/-- A manager with registry `{A}` after `GetNodesForChunks("f", 0, "txt")`. -/
def zeroChunkManager : ManagerNode :=
  stateAfter managerA (managerA.GetNodesForChunks ["A"]
    { FileId := "f", TotalChunks := 0, FileType := "txt" })

/-- A manager with registry `{A}` after `GetNodesForChunks("f", 1, "txt")`. -/
def oneChunkManager : ManagerNode :=
  stateAfter managerA (managerA.GetNodesForChunks ["A"]
    { FileId := "f", TotalChunks := 1, FileType := "txt" })

/-! ## The client (`internal/client/client.go`)

* Go's `int` and `int64` are 64-bit integers; arithmetic wraps (`wrapInt`).
* The storage nodes are reached over HTTP.  What they answer is a parameter: a
  `Payload σ` gives, for a state `σ` of the storage nodes, the outcome of a `POST /upload`
  (with the state it leaves) and of a `GET /download`.
* The local file to upload is a regular file, given by its content or by the error with
  which `os.Open` fails.  A `file.Read(buffer)` returns the next `len(buffer)` bytes, but
  never more than 1 GiB (`os.File.Read` cuts every read to `1 << 30` bytes), and fewer
  only at the end of the file.  The output file is created and written without I/O
  errors.
* The manager is reached by gRPC; an error it returns reaches the client as an RPC error.
  A message above 4 MiB is refused by the side that receives it.  For `UploadFile` the
  fate of the call beyond that (the 5 s deadline of the call, a broken connection) is an
  input, `UploadEnv.rpc`; `DownloadFile` is modelled with a call that is answered.
* `make([]byte, chunkSize)` panics for a negative size and for a size the machine cannot
  allocate; the largest size it can is an input, `UploadEnv.maxAlloc`.
* The functions return, next to the Go result, the requests they sent to storage nodes.
-/

/-- An integer result as a Go `int` / `int64`: two's complement wrap-around to 64 bits. -/
def wrapInt (x : Int) : Int :=
  (x + 2 ^ 63) % 2 ^ 64 - 2 ^ 63

/-- A `[]byte`. -/
abbrev Bytes := List UInt8

/-- A Go `string` as the bytes it consists of, each a number below 256. -/
abbrev GoString := List Nat

/-- The UTF-8 encoding of a character. -/
def utf8 (c : Char) : GoString :=
  if c.toNat < 0x80 then [c.toNat]
  else if c.toNat < 0x800 then [0xC0 + c.toNat / 0x40, 0x80 + c.toNat % 0x40]
  else if c.toNat < 0x10000 then
    [0xE0 + c.toNat / 0x1000, 0x80 + c.toNat / 0x40 % 0x40, 0x80 + c.toNat % 0x40]
  else
    [0xF0 + c.toNat / 0x40000, 0x80 + c.toNat / 0x1000 % 0x40,
      0x80 + c.toNat / 0x40 % 0x40, 0x80 + c.toNat % 0x40]

/-- The Go string with the given text. -/
def goString (s : String) : GoString :=
  s.data.flatMap utf8

/-- The largest message a gRPC client or server accepts by default
(`defaultClientMaxReceiveMessageSize`, `defaultServerMaxReceiveMessageSize`): 4 MiB. -/
def maxReceiveMessageSize : Nat :=
  4194304

/-- The number of bytes of the protobuf varint of `n` (`n < 2 ^ 64`). -/
def varintSize (n : Nat) : Nat :=
  if n < 2 ^ 7 then 1 else if n < 2 ^ 14 then 2 else if n < 2 ^ 21 then 3
  else if n < 2 ^ 28 then 4 else if n < 2 ^ 35 then 5 else if n < 2 ^ 42 then 6
  else if n < 2 ^ 49 then 7 else if n < 2 ^ 56 then 8 else if n < 2 ^ 63 then 9 else 10

/-- The bytes an `int32` field takes in a proto3 message (field number below 16): none
for 0, a tag and a varint otherwise, the varint of a negative value having 10 bytes. -/
def int32FieldSize (v : Int) : Nat :=
  if v = 0 then 0 else if v < 0 then 11 else 1 + varintSize v.toNat

/-- The bytes a `string` field takes in a proto3 message (field number below 16): none
for the empty string, otherwise a tag, the varint of the length and the text. -/
def stringFieldSize (s : String) : Nat :=
  if (goString s).length = 0 then 0
  else 1 + varintSize (goString s).length + (goString s).length

/-- The size of a `GetNodesForChunksRequest` on the wire. -/
def GetNodesForChunksRequest.wireSize (req : GetNodesForChunksRequest) : Nat :=
  stringFieldSize req.FileId + int32FieldSize req.TotalChunks + stringFieldSize req.FileType

/-- The size of a `ChunkNodeInfo` on the wire. -/
def ChunkNodeInfo.wireSize (node : ChunkNodeInfo) : Nat :=
  int32FieldSize node.ChunkId + stringFieldSize node.NodeAddress

/-- The size of a `GetNodesForChunksResponse` on the wire: every entry of the repeated
field `nodes` with its tag and its length. -/
def GetNodesForChunksResponse.wireSize (resp : GetNodesForChunksResponse) : Nat :=
  (resp.Nodes.map (fun node => 1 + varintSize node.wireSize + node.wireSize)).sum

/-- The status error of gRPC for a message above the receive limit. -/
def resourceExhausted (size : Nat) : String :=
  "rpc error: code = ResourceExhausted desc = grpc: received message larger than max (" ++
    toString size ++ " vs. " ++ toString maxReceiveMessageSize ++ ")"

/-- What can end the placement call of `UploadFile` apart from the manager's answer; `err`
is the text of the status error (for the two cases of the source: `DeadlineExceeded`
after the 5 s of `context.WithTimeout`, `Unavailable` for a broken connection). -/
inductive RpcFault where
  /-- The call fails before the manager handles it. -/
  | lost (err : String)
  /-- The manager handles the call, but its answer does not reach the client. -/
  | late (err : String)
  deriving DecidableEq

/-- What the machine and the network give to one `UploadFile` call. -/
structure UploadEnv where
  /-- The fault of the placement call, if any. -/
  rpc : Option RpcFault
  /-- The largest `n` for which `make([]byte, n)` succeeds. -/
  maxAlloc : Nat

/-- A machine that can allocate buffers of 1 GiB, and no fault of the placement call. -/
def calmEnv : UploadEnv :=
  { rpc := none, maxAlloc := 2 ^ 30 }

/-- A machine that can allocate buffers of 2 GiB, and no fault of the placement call. -/
def roomyEnv : UploadEnv :=
  { rpc := none, maxAlloc := 2 ^ 31 }

/-- `Client.GetNodesForChunks`: the gRPC call to the manager as the client sees it.
Returns the manager state and the Go result `(resp.Nodes, err)`; `none` is a panic of the
manager. -/
def Client.GetNodesForChunks (m : ManagerNode) (order : List String) (rpc : Option RpcFault)
    (fileID : String) (totalChunks : Int) (fileType : String) :
    Option (ManagerNode × Except String (List ChunkNodeInfo)) :=
  match rpc with
  | some (.lost e) => some (m, .error ("failed to get nodes for chunks: " ++ e))
  | _ =>
    if maxReceiveMessageSize <
        GetNodesForChunksRequest.wireSize ⟨fileID, toInt32 totalChunks, fileType⟩ then
      some (m, .error ("failed to get nodes for chunks: " ++
        resourceExhausted
          (GetNodesForChunksRequest.wireSize ⟨fileID, toInt32 totalChunks, fileType⟩)))
    else
      match m.GetNodesForChunks order
          { FileId := fileID, TotalChunks := toInt32 totalChunks, FileType := fileType } with
      | none => none
      | some (m1, res) =>
        match rpc with
        | some (.late e) => some (m1, .error ("failed to get nodes for chunks: " ++ e))
        | _ =>
          match res with
          | .error e =>
            some (m1, .error ("failed to get nodes for chunks: " ++
              "rpc error: code = Unknown desc = " ++ e))
          | .ok resp =>
            if maxReceiveMessageSize < resp.wireSize then
              some (m1, .error ("failed to get nodes for chunks: " ++
                resourceExhausted resp.wireSize))
            else some (m1, .ok resp.Nodes)

/-- The outcome of the `POST` request of `UploadChunk`. -/
inductive PostResult where
  /-- `http.NewRequest` returned an error. -/
  | requestError (err : String)
  /-- `http.DefaultClient.Do` returned an error. -/
  | transportError (err : String)
  /-- The node answered with a status code and a body. -/
  | status (code : Nat) (body : String)
  deriving DecidableEq

/-- The outcome of the `GET` request of `downloadChunkFromAvailableNodes`. -/
inductive GetResult where
  /-- `http.Get` returned an error. -/
  | transportError (err : String)
  /-- The node answered with a status code; `body` is what `io.ReadAll` returns
  (`none`: reading the body failed). -/
  | status (code : Nat) (body : Option Bytes)
  deriving DecidableEq

/-- The behaviour of the storage nodes towards the client, over node states `σ`.  The
arguments of `post` and `get` are the node address, the `file_id` and the `chunk_id` of
the URL; `post` also takes the request body. -/
structure Payload (σ : Type) where
  post : σ → String → String → String → Bytes → σ × PostResult
  get : σ → String → String → String → GetResult

/-- The manager together with the storage nodes. -/
structure Cluster (σ : Type) where
  manager : ManagerNode
  nodes : σ

/-- One `POST /upload` request sent by the client, and whether `UploadChunk` took its
outcome as a success. -/
structure PushRecord where
  nodeAddress : String
  fileID : String
  chunkID : String
  chunk : Bytes
  ok : Bool
  deriving DecidableEq

/-- One `GET /download` request sent by the client. -/
structure GetRecord where
  nodeAddress : String
  fileID : String
  chunkID : String
  deriving DecidableEq

/-- The error `UploadChunk` returns for the outcome of a `POST` (`none`: status 200). -/
def postError : PostResult → Option String
  | .requestError err => some ("failed to create request: " ++ err)
  | .transportError err => some ("failed to upload chunk: " ++ err)
  | .status code body =>
    if code ≠ 200 then some ("error response from server: " ++ body) else none

/-- `Client.UploadChunk`: pushes the chunk to the node addresses in order and returns at
the first failure.  Returns the node state, the requests sent and the Go error. -/
def UploadChunk {σ : Type} (P : Payload σ) (chunk : Bytes) (fileID chunkID : String) :
    List String → σ → σ × List PushRecord × Option String
  | [], s => (s, [], none)
  | nodeAddress :: rest, s =>
    match postError (P.post s nodeAddress fileID chunkID chunk).2 with
    | some e =>
      ((P.post s nodeAddress fileID chunkID chunk).1,
        [{ nodeAddress := nodeAddress, fileID := fileID, chunkID := chunkID,
           chunk := chunk, ok := false }], some e)
    | none =>
      match UploadChunk P chunk fileID chunkID rest
          (P.post s nodeAddress fileID chunkID chunk).1 with
      | (s2, log, r) =>
        (s2, { nodeAddress := nodeAddress, fileID := fileID, chunkID := chunkID,
               chunk := chunk, ok := true } :: log, r)

/-- Scanning a path backwards from its end for `filepath.Ext`: `acc` holds the characters
already passed. -/
def extScan : List Char → List Char → List Char
  | [], _ => []
  | c :: rest, acc =>
    if c = '/' then [] else if c = '.' then '.' :: acc else extScan rest (c :: acc)

/-- `filepath.Ext`: the suffix beginning at the final dot in the final element of the
path, empty if there is no dot. -/
def Ext (path : String) : String :=
  String.mk (extScan path.data.reverse [])

/-- The file type `UploadFile` derives from the path: the extension without its dot. -/
def fileTypeOf (filePath : String) : String :=
  if (Ext filePath).length > 0 then String.mk ((Ext filePath).data.drop 1)
  else Ext filePath

/-- The chunk count `(int(fileInfo.Size()) + chunkSize - 1) / chunkSize` of `UploadFile`,
in 64-bit `int` arithmetic with truncating division. -/
def totalChunksOf (size chunkSize : Int) : Int :=
  wrapInt (Int.tdiv (wrapInt (wrapInt (size + chunkSize) - 1)) chunkSize)

/-- The chunk loop of `UploadFile`: `k` passes are left, `i` is the loop counter, `rest`
is the unread part of the file, `nodes` the plan returned by the manager.  `readSize` is
the number of bytes a `file.Read(buffer)` returns while that many are left: the length of
the buffer, but at most 1 GiB. -/
def uploadLoop {σ : Type} (P : Payload σ) (nodes : List ChunkNodeInfo) (fileID : String)
    (readSize : Nat) : Nat → Nat → Bytes → σ → σ × List PushRecord × Option String
  | 0, _, _, s => (s, [], none)
  | k + 1, i, rest, s =>
    if (rest.take readSize).length = 0 then (s, [], none)
    else
      match UploadChunk P (rest.take readSize) fileID (toString i)
          ((nodes.filter (fun node => node.ChunkId = toInt32 i)).map
            (fun node => node.NodeAddress)) s with
      | (s1, log, some e) => (s1, log, some ("failed to upload chunk: " ++ e))
      | (s1, log, none) =>
        match uploadLoop P nodes fileID readSize k (i + 1) (rest.drop readSize) s1 with
        | (s2, log2, r) => (s2, log ++ log2, r)

/-- The number of bytes a `file.Read` into a buffer of `chunkSize` bytes returns while
that many are left: `os.File.Read` reads at most `1 << 30` bytes at a time. -/
def readSize (chunkSize : Nat) : Nat :=
  min chunkSize (2 ^ 30)

/-- `Client.UploadFile`.  `file` is the content of the file at `filePath`, or the error of
`os.Open`; `order` is the order in which the manager ranges over its registry in this
call.  Returns the cluster state, the pushes sent and the Go error; `none` is a panic
(division by zero, a buffer size that is negative or cannot be allocated, a panic of the
manager). -/
def UploadFile {σ : Type} (P : Payload σ) (w : Cluster σ) (order : List String)
    (env : UploadEnv) (file : Except String Bytes) (filePath fileID : String)
    (chunkSize : Int) : Option (Cluster σ × List PushRecord × Option String) :=
  match file with
  | .error e => some (w, [], some ("failed to open file: " ++ e))
  | .ok content =>
    if chunkSize = 0 then none
    else
      match Client.GetNodesForChunks w.manager order env.rpc fileID
          (totalChunksOf content.length chunkSize) (fileTypeOf filePath) with
      | none => none
      | some (m1, .error e) =>
        some ({ manager := m1, nodes := w.nodes }, [],
          some ("failed to get nodes for chunks: " ++ e))
      | some (m1, .ok nodes) =>
        if chunkSize < 0 ∨ (env.maxAlloc : Int) < chunkSize then none
        else
          match uploadLoop P nodes fileID (readSize chunkSize.toNat)
              (totalChunksOf content.length chunkSize).toNat 0 content w.nodes with
          | (s1, log, r) => some ({ manager := m1, nodes := s1 }, log, r)

/-- The body a `GET` yields for `downloadChunkFromAvailableNodes`: status 200 and a body
that could be read. -/
def getBody : GetResult → Option Bytes
  | .transportError _ => none
  | .status code body => if code = 200 then body else none

/-- The replica loop of `downloadChunkFromAvailableNodes` over the node addresses still
to try.  Returns the requests sent and the Go result. -/
def tryReplicas {σ : Type} (P : Payload σ) (s : σ) (fileID : String) (chunkId : Int) :
    List String → List GetRecord × Except String Bytes
  | [] => ([], .error ("all nodes failed to provide chunk " ++ toString chunkId))
  | nodeAddress :: rest =>
    match getBody (P.get s nodeAddress fileID (toString chunkId)) with
    | some data =>
      ([{ nodeAddress := nodeAddress, fileID := fileID, chunkID := toString chunkId }],
        .ok data)
    | none =>
      ({ nodeAddress := nodeAddress, fileID := fileID, chunkID := toString chunkId } ::
          (tryReplicas P s fileID chunkId rest).1,
        (tryReplicas P s fileID chunkId rest).2)

/-- `Client.downloadChunkFromAvailableNodes`. -/
def downloadChunkFromAvailableNodes {σ : Type} (P : Payload σ) (s : σ) (fileID : String)
    (chunkInfo : ChunkLocationInfo) : List GetRecord × Except String Bytes :=
  tryReplicas P s fileID chunkInfo.ChunkId chunkInfo.Nodes

/-- `Seek(offset, io.SeekStart)` followed by `Write(data)` on a file with content `out`:
the bytes of `data` replace or extend the content from `offset` on, a gap between the
old end of the file and `offset` reads as zeros, and writing no bytes changes nothing. -/
def writeAt (out : Bytes) (offset : Nat) (data : Bytes) : Bytes :=
  if data.length = 0 then out
  else
    (out ++ List.replicate (offset - out.length) 0).take offset ++ data ++
      out.drop (offset + data.length)

/-- The chunk loop of `DownloadFile` over the entries still to process, `out` being the
content of the output file.  Returns the content, the requests sent and the Go error. -/
def downloadLoop {σ : Type} (P : Payload σ) (s : σ) (fileID : String) (chunkSize : Int) :
    List ChunkLocationInfo → Bytes → Bytes × List GetRecord × Option String
  | [], out => (out, [], none)
  | chunkInfo :: rest, out =>
    match downloadChunkFromAvailableNodes P s fileID chunkInfo with
    | (gets, .error e) =>
      (out, gets,
        some ("failed to download chunk " ++ toString chunkInfo.ChunkId ++ ": " ++ e))
    | (gets, .ok chunkData) =>
      if wrapInt (chunkInfo.ChunkId * chunkSize) < 0 then
        (out, gets,
          some ("failed to seek to offset " ++
            toString (wrapInt (chunkInfo.ChunkId * chunkSize)) ++ " for chunk " ++
            toString chunkInfo.ChunkId ++ ": invalid argument"))
      else
        match downloadLoop P s fileID chunkSize rest
            (writeAt out (wrapInt (chunkInfo.ChunkId * chunkSize)).toNat chunkData) with
        | (out2, gets2, r) => (out2, gets ++ gets2, r)

/-- What a `DownloadFile` call leaves behind. -/
structure DownloadResult where
  /-- The output file, if it was created: its name and its content. -/
  outFile : Option (String × Bytes)
  /-- The requests sent to storage nodes. -/
  gets : List GetRecord
  /-- The Go error. -/
  err : Option String
  deriving DecidableEq

/-- `Client.DownloadFile`; `order` is the order in which the manager ranges over the
chunk map of the file in this call. -/
def DownloadFile {σ : Type} (P : Payload σ) (w : Cluster σ)
    (order : List (Int × List String)) (fileID : String) (chunkSize : Int) :
    DownloadResult :=
  match (w.manager.GetChunkLocations order { FileId := fileID }).2 with
  | .error e =>
    { outFile := none, gets := [],
      err := some ("failed to get chunk locations: failed to get chunk locations: " ++
        "rpc error: code = Unknown desc = " ++ e) }
  | .ok resp =>
    match downloadLoop P w.nodes fileID chunkSize resp.Chunks [] with
    | (out, gets, r) =>
      { outFile := some ("output." ++ resp.FileType, out), gets := gets, err := r }

/-! ## The way of a request to a storage node

The client writes the node address, the file identifier and the chunk identifier into
the URL as they are (`fmt.Sprintf`, no escaping), so what a storage node reads as
`file_id` and `chunk_id` is what `net/url` and `net/http` make of that text:

* `url.Parse` cuts the URL at the first `#`, rejects control characters before it and an
  ill-formed `%` escape after it; the query is what follows the first `?`;
* the server reads a request head of 1 MiB (`DefaultMaxHeaderBytes`) and little more,
  taken here as a query of at most 1 MiB (otherwise it answers 431), and it cannot read
  a request line with a space in the URL (answer 400);
* `r.URL.Query()` splits the query at `&`, drops the settings that contain `;` or that
  do not unescape, and `Get` returns the first value of a key.

Node addresses are taken to be the `host:port` on which the nodes listen, each address
reaching its own node.
-/

/-- `ishex` of `net/url`. -/
def ishex (b : Nat) : Bool :=
  (48 ≤ b && b ≤ 57) || (97 ≤ b && b ≤ 102) || (65 ≤ b && b ≤ 70)

/-- `unhex` of `net/url`. -/
def unhex (b : Nat) : Nat :=
  if 48 ≤ b ∧ b ≤ 57 then b - 48
  else if 97 ≤ b ∧ b ≤ 102 then b - 97 + 10
  else if 65 ≤ b ∧ b ≤ 70 then b - 65 + 10
  else 0

/-- The scan of `unescape` of `net/url` in query-component mode.  `pending` says where
the scan stands: `0` outside an escape, `1` after `%`, `2` after `%` and a first
hexadecimal digit of value `hi`. -/
def unescapeFrom : Nat → Nat → GoString → Option GoString
  | pending, _, [] => if pending = 0 then some [] else none
  | pending, hi, b :: rest =>
    if pending = 0 then
      if b = 37 then unescapeFrom 1 0 rest
      else if b = 43 then (unescapeFrom 0 0 rest).map (fun t => 32 :: t)
      else (unescapeFrom 0 0 rest).map (fun t => b :: t)
    else if pending = 1 then
      if ishex b then unescapeFrom 2 (unhex b) rest else none
    else
      if ishex b then (unescapeFrom 0 0 rest).map (fun t => (hi * 16 + unhex b) :: t)
      else none

/-- `url.QueryUnescape`: `%XX` becomes the byte `XX` and `+` a space; `none` is the
`EscapeError` for a `%` that two hexadecimal digits do not follow. -/
def QueryUnescape (s : GoString) : Option GoString :=
  unescapeFrom 0 0 s

/-- `strings.Split(s, sep)` for a one-byte separator; `cur` holds, reversed, the bytes of
the piece being read. -/
def splitBytes (sep : Nat) : GoString → GoString → List GoString
  | [], cur => [cur.reverse]
  | b :: rest, cur =>
    if b = sep then cur.reverse :: splitBytes sep rest [] else splitBytes sep rest (b :: cur)

/-- `strings.Cut(s, sep)` for a one-byte separator: the text before the first `sep` and,
where there is one, the text after it. -/
def cutBytes (sep : Nat) : GoString → GoString × Option GoString
  | [] => ([], none)
  | b :: rest =>
    if b = sep then ([], some rest)
    else (b :: (cutBytes sep rest).1, (cutBytes sep rest).2)

/-- One `key=value` setting of a query in `url.ParseQuery`: a setting that is empty,
contains a semicolon or does not unescape is skipped. -/
def parsePair (piece : GoString) : Option (GoString × GoString) :=
  if 59 ∈ piece ∨ piece = [] then none
  else
    match QueryUnescape (cutBytes 61 piece).1,
        QueryUnescape ((cutBytes 61 piece).2.getD []) with
    | some key, some value => some (key, value)
    | _, _ => none

/-- `url.ParseQuery`, which gives `r.URL.Query()`: the settings in the order of the
query. -/
def ParseQuery (query : GoString) : List (GoString × GoString) :=
  (splitBytes 38 query []).filterMap parsePair

/-- `Values.Get`: the first value set for the key, the empty string if there is none. -/
def Get (values : List (GoString × GoString)) (key : GoString) : GoString :=
  match values.find? (fun kv => kv.1 = key) with
  | some kv => kv.2
  | none => []

/-- Two hexadecimal digits, as `%02x` prints them. -/
def hex2 (n : Nat) : String :=
  String.mk [Nat.digitChar (n / 16), Nat.digitChar (n % 16)]

/-- A character inside `strconv.Quote` (characters beyond ASCII are taken as
printable). -/
def quoteChar (c : Char) : String :=
  if c.toNat = 34 ∨ c.toNat = 92 then String.mk [Char.ofNat 92, c]
  else if c.toNat = 7 then String.mk [Char.ofNat 92, 'a']
  else if c.toNat = 8 then String.mk [Char.ofNat 92, 'b']
  else if c.toNat = 12 then String.mk [Char.ofNat 92, 'f']
  else if c.toNat = 10 then String.mk [Char.ofNat 92, 'n']
  else if c.toNat = 13 then String.mk [Char.ofNat 92, 'r']
  else if c.toNat = 9 then String.mk [Char.ofNat 92, 't']
  else if c.toNat = 11 then String.mk [Char.ofNat 92, 'v']
  else if c.toNat < 32 ∨ c.toNat = 127 then String.mk [Char.ofNat 92, 'x'] ++ hex2 c.toNat
  else String.singleton c

/-- `strconv.Quote`, as `%q` prints a string. -/
def goQuote (s : String) : String :=
  String.singleton (Char.ofNat 34) ++ String.join (s.data.map quoteChar) ++
    String.singleton (Char.ofNat 34)

/-- A byte that is no valid UTF-8 on its own inside `strconv.Quote`. -/
def quoteByte (b : Nat) : String :=
  String.mk [Char.ofNat 92, 'x'] ++ hex2 b

/-- The text of an `EscapeError`, quoted: the `%` that two hexadecimal digits do not
follow and the (at most two) bytes after it. -/
def escapeErrorText : List Char → String
  | [] => ""
  | c :: rest =>
    if c = '%' then
      match rest with
      | [] => quoteChar c
      | c1 :: rest1 =>
        if (utf8 c1).length = 1 then
          match rest1 with
          | [] => quoteChar c ++ quoteChar c1
          | c2 :: rest2 =>
            if ishex c1.toNat ∧ ishex c2.toNat ∧ (utf8 c2).length = 1 then
              escapeErrorText rest2
            else if (utf8 c2).length = 1 then quoteChar c ++ quoteChar c1 ++ quoteChar c2
            else quoteChar c ++ quoteChar c1 ++ quoteByte ((utf8 c2).headD 0)
        else if (utf8 c1).length = 2 then quoteChar c ++ quoteChar c1
        else quoteChar c ++ quoteByte ((utf8 c1).headD 0) ++ quoteByte ((utf8 c1).getD 1 0)
    else escapeErrorText rest

/-- What becomes of a request of the client. -/
inductive Delivery where
  /-- `url.Parse` rejects the URL with this error: no request is sent. -/
  | parseError (err : String)
  /-- The server answers without running the handler. -/
  | refused (code : Nat) (body : String)
  /-- The handler runs and reads these values of `file_id` and `chunk_id`. -/
  | handled (fileID chunkID : GoString)
  deriving DecidableEq

/-- What becomes of the request for the URL `<base>?file_id=<fileID>&chunk_id=<chunkID>`,
where `base` is `http://<nodeAddress>/upload` or `http://<nodeAddress>/download`. -/
def deliver (base fileID chunkID : String) : Delivery :=
  if ((cutBytes 35 (goString (base ++ "?file_id=" ++ fileID ++ "&chunk_id=" ++ chunkID))).1.any
      (fun b => b < 32 ∨ b = 127)) then
    .parseError ("parse " ++
      goQuote (String.mk ((base ++ "?file_id=" ++ fileID ++ "&chunk_id=" ++ chunkID).data.takeWhile
        (fun c => c ≠ '#'))) ++
      ": net/url: invalid control character in URL")
  else if (QueryUnescape
      ((cutBytes 35 (goString ("file_id=" ++ fileID ++ "&chunk_id=" ++ chunkID))).2.getD
        [])).isNone then
    .parseError ("parse " ++
      goQuote (base ++ "?file_id=" ++ fileID ++ "&chunk_id=" ++ chunkID) ++
      ": invalid URL escape " ++ String.singleton (Char.ofNat 34) ++
      escapeErrorText (((base ++ "?file_id=" ++ fileID ++ "&chunk_id=" ++ chunkID).data.dropWhile
        (fun c => c ≠ '#')).drop 1) ++
      String.singleton (Char.ofNat 34))
  else if 1048576 <
      (cutBytes 35 (goString ("file_id=" ++ fileID ++ "&chunk_id=" ++ chunkID))).1.length then
    .refused 431 "431 Request Header Fields Too Large"
  else if
      32 ∈ (cutBytes 35 (goString ("file_id=" ++ fileID ++ "&chunk_id=" ++ chunkID))).1 then
    .refused 400 "400 Bad Request"
  else
    .handled
      (Get (ParseQuery
        (cutBytes 35 (goString ("file_id=" ++ fileID ++ "&chunk_id=" ++ chunkID))).1)
        (goString "file_id"))
      (Get (ParseQuery
        (cutBytes 35 (goString ("file_id=" ++ fileID ++ "&chunk_id=" ++ chunkID))).1)
        (goString "chunk_id"))

/-! ## Storage nodes that store and serve verbatim -/

/-- What is stored on the nodes: node address, file id and chunk id give the bytes.  The
identifiers are those a node reads from a request. -/
abbrev Store := String → GoString → GoString → Option Bytes

/-- Storage nodes as the specification describes them at their interface: a push that
reaches its node succeeds and stores the bytes verbatim under the `(fileId, chunkId)` the
node reads from the request; a fetch serves what is stored under the pair the node reads
and answers "not found" if nothing is. -/
def idealNodes : Payload Store where
  post s nodeAddress fileID chunkID chunk :=
    match deliver ("http://" ++ nodeAddress ++ "/upload") fileID chunkID with
    | .parseError err => (s, .requestError err)
    | .refused code body => (s, .status code body)
    | .handled f c =>
      (fun a f1 c1 => if a = nodeAddress ∧ f1 = f ∧ c1 = c then some chunk else s a f1 c1,
        .status 200 "stored")
  get s nodeAddress fileID chunkID :=
    match deliver ("http://" ++ nodeAddress ++ "/download") fileID chunkID with
    | .parseError err => .transportError err
    | .refused code _ => .status code none
    | .handled f c =>
      match s nodeAddress f c with
      | some chunk => .status 200 (some chunk)
      | none => .status 404 none

/-- Storage nodes holding nothing. -/
def emptyStore : Store :=
  fun _ _ _ => none

/-- The entry of a `GetChunkLocations` response built from a pair of the chunk map. -/
def chunkInfoOf (e : Int × List String) : ChunkLocationInfo :=
  { ChunkId := e.1, Nodes := e.2 }

/-- The `GET` request for a chunk of a file on a node. -/
def getRecordOf (fileID : String) (chunkId : Int) (nodeAddress : String) : GetRecord :=
  { nodeAddress := nodeAddress, fileID := fileID, chunkID := toString chunkId }

/-- The state of the storage nodes after they handled the given pushes, oldest first. -/
def replayPushes {σ : Type} (P : Payload σ) (s : σ) (log : List PushRecord) : σ :=
  log.foldl (fun s p => (P.post s p.nodeAddress p.fileID p.chunkID p.chunk).1) s

/-- A run of pushes as `UploadChunk` and `UploadFile` produce it: started with the nodes
in state `s`, the pushes `log` were sent, the nodes are left in state `s1` and the Go
error is `r`.  The nodes handled exactly the logged pushes; a push is marked `ok` exactly
when its outcome was no error; a push that failed is the last one and makes the run
return an error. -/
structure PushRun {σ : Type} (P : Payload σ) (s : σ) (log : List PushRecord) (s1 : σ)
    (r : Option String) : Prop where
  replay : s1 = replayPushes P s log
  all_ok : r = none → ∀ p ∈ log, p.ok = true
  faithful : ∀ pre p post, log = pre ++ p :: post →
    (p.ok = true ↔
      postError (P.post (replayPushes P s pre) p.nodeAddress p.fileID p.chunkID
        p.chunk).2 = none)
  abort : ∀ pre p post, log = pre ++ p :: post → p.ok = false → post = [] ∧ r.isSome

/-- A store in which node `B` holds chunk 0 of file `f` and node `A` holds nothing. -/
def storeOnlyB : Store :=
  (idealNodes.post emptyStore "B" "f" "0" [7, 8]).1

/-- A store in which node `A` holds chunk 0 of file `f` and nothing else. -/
def storeChunk0 : Store :=
  (idealNodes.post emptyStore "A" "f" "0" [5]).1

/-- The replica a push addresses: the node address, the file identifier and the chunk
identifier of its URL. -/
def PushRecord.key (p : PushRecord) : String × String × String :=
  (p.nodeAddress, p.fileID, p.chunkID)

/-- A byte that reaches a storage node unchanged inside a query value: no control
character, no space, and none of `#`, `%`, `&`, `+`, `;`. -/
def plainByte (b : Nat) : Bool :=
  decide (32 < b) && b != 35 && b != 37 && b != 38 && b != 43 && b != 59 && b != 127

/-- An identifier that reaches a storage node as it is: made of plain bytes, and short
enough for the request head. -/
def PlainId (s : String) : Prop :=
  (goString s).all plainByte = true ∧ (goString s).length ≤ 1000000

instance (s : String) : Decidable (PlainId s) := by
  unfold PlainId
  infer_instance

/-- A byte of a host name: a letter, a digit, a dot or a hyphen. -/
def hostByte (b : Nat) : Bool :=
  (decide (48 ≤ b) && decide (b ≤ 57)) || (decide (65 ≤ b) && decide (b ≤ 90)) ||
    (decide (97 ≤ b) && decide (b ≤ 122)) || b == 45 || b == 46

/-- A node address of the form `host` or `host:port`: a host name, then possibly a colon
and the digits of a port. -/
def PlainAddr (a : String) : Prop :=
  (cutBytes 58 (goString a)).1 ≠ [] ∧ (cutBytes 58 (goString a)).1.all hostByte = true ∧
    ((cutBytes 58 (goString a)).2.getD []).all
      (fun b => decide (48 ≤ b) && decide (b ≤ 57)) = true

instance (a : String) : Decidable (PlainAddr a) := by
  unfold PlainAddr
  infer_instance

/-- The bytes `downloadChunkFromAvailableNodes` yields for an entry of the chunk map
(no bytes if it fails). -/
def fetchedData {σ : Type} (P : Payload σ) (s : σ) (fileID : String)
    (e : Int × List String) : Bytes :=
  match (downloadChunkFromAvailableNodes P s fileID (chunkInfoOf e)).2 with
  | .ok data => data
  | .error _ => []

/-- The positional write `DownloadFile` performs for an entry of the chunk map: the
offset it seeks to and the bytes it writes there. -/
def writeOf {σ : Type} (P : Payload σ) (s : σ) (fileID : String) (chunkSize : Int)
    (e : Int × List String) : Nat × Bytes :=
  ((wrapInt (e.1 * chunkSize)).toNat, fetchedData P s fileID e)

/-- The content of a file after the given positional writes, oldest first. -/
def writeAll (out : Bytes) (ws : List (Nat × Bytes)) : Bytes :=
  ws.foldl (fun o x => writeAt o x.1 x.2) out

/-- Two positional writes touch disjoint byte ranges. -/
def DisjointWrites (x y : Nat × Bytes) : Prop :=
  x.1 + x.2.length ≤ y.1 ∨ y.1 + y.2.length ≤ x.1

/-- The bytes of chunk `i` of a file read in windows of `chunkSize` bytes: the range
`[i * chunkSize, min ((i + 1) * chunkSize, size))` of its content. -/
def chunkAt (content : Bytes) (chunkSize : Nat) (i : Nat) : Bytes :=
  (content.drop (i * chunkSize)).take chunkSize

/-- The value of a decimal digit character. -/
def digitVal (c : Char) : Nat :=
  c.toNat - 48

/-- The number a list of decimal digit characters denotes. -/
def decodeDigits (cs : List Char) : Nat :=
  cs.foldl (fun acc c => acc * 10 + digitVal c) 0

/-- The outcome of uploading the 5-byte file `dir/hello.txt` as `hello` in chunks of
2 bytes to the registry `{A, B}` with storage nodes that store and serve verbatim. -/
def smallUpload : Cluster Store × List PushRecord × Option String :=
  match UploadFile idealNodes { manager := managerAB, nodes := emptyStore } ["A", "B"]
      calmEnv (.ok [1, 2, 3, 4, 5]) "dir/hello.txt" "hello" 2 with
  | some x => x
  | none => ({ manager := managerAB, nodes := emptyStore }, [], none)

/-- The outcome of uploading the 5-byte file `dir/a#b.txt` as `a#b` in chunks of 2 bytes
to the registry `{A, B}` with storage nodes that store and serve verbatim. -/
def mangledUpload : Cluster Store × List PushRecord × Option String :=
  match UploadFile idealNodes { manager := managerAB, nodes := emptyStore } ["A", "B"]
      calmEnv (.ok [1, 2, 3, 4, 5]) "dir/a#b.txt" "a#b" 2 with
  | some x => x
  | none => ({ manager := managerAB, nodes := emptyStore }, [], none)

/-- The chunk map of `a#b` after `mangledUpload`. -/
def mangledRecord : GoMap Int (List String) :=
  AList.insert 2 ["A", "B"] (AList.insert 1 ["B", "A"] (AList.insert 0 ["A", "B"] ∅))

/-- A manager whose registry holds one address, with a tab character in it. -/
def tabManager : ManagerNode :=
  (NewManagerNode.RegisterNode { NodeAddress := "A\tB" }).1

/-- The outcome of uploading the 1-byte file `x.txt` as `f` in chunks of 1 byte to the
registry of `tabManager`. -/
def tabUpload : Cluster Store × List PushRecord × Option String :=
  match UploadFile idealNodes { manager := tabManager, nodes := emptyStore } ["A\tB"]
      calmEnv (.ok [1]) "x.txt" "f" 1 with
  | some x => x
  | none => ({ manager := tabManager, nodes := emptyStore }, [], none)

/-! ## The storage node (`internal/server/data_node.go`)

The two HTTP handlers of a storage node keep a chunk in a file whose path they compute
from the `file_id` and `chunk_id` query parameters of the request.  `filepath.Join` and
`filepath.Clean` are those of Go's `path/filepath` with the separator `/`.
-/

/-- The elements of a path between its separators `/`; `cur` holds, reversed, the
characters of the element being read. -/
def splitPath : List Char → List Char → List (List Char)
  | [], cur => [cur.reverse]
  | c :: rest, cur =>
    if c = '/' then cur.reverse :: splitPath rest [] else splitPath rest (c :: cur)

/-- The element loop of `filepath.Clean`: `out` holds, last first, the elements kept so
far.  Empty elements and `.` are dropped; `..` removes the element before it, is dropped
at the root, and is kept where nothing precedes it but `..` elements. -/
def cleanElems (rooted : Bool) : List (List Char) → List (List Char) → List (List Char)
  | [], out => out.reverse
  | e :: rest, out =>
    if e = [] ∨ e = ['.'] then cleanElems rooted rest out
    else if e = ['.', '.'] then
      match out with
      | top :: below =>
        if top = ['.', '.'] then cleanElems rooted rest (e :: out)
        else cleanElems rooted rest below
      | [] => if rooted then cleanElems rooted rest [] else cleanElems rooted rest [e]
    else cleanElems rooted rest (e :: out)

/-- `filepath.Clean` (with separator `/`): the shortest path name equivalent to `path` by
purely lexical processing; the empty result is `.`. -/
def Clean (path : String) : String :=
  let rooted : Bool := path.data.head? = some '/'
  let out := cleanElems rooted (splitPath path.data []) []
  let s := (if rooted then ['/'] else []) ++ List.intercalate ['/'] out
  if s = [] then "." else String.mk s

/-- `filepath.Join`: the elements from the first non-empty one on, joined by `/` and
cleaned; the empty string if all are empty. -/
def Join (elem : List String) : String :=
  match elem.dropWhile (fun e => e = "") with
  | [] => ""
  | es => Clean (String.intercalate "/" es)

/-- The path under which `uploadChunkHandler` stores the chunk of a request:
`fmt.Sprintf("data/%s_%s.chunk", fileID, chunkID)`. -/
def uploadChunkHandler.filePath (fileID chunkID : String) : String :=
  "data/" ++ fileID ++ "_" ++ chunkID ++ ".chunk"

/-- The path from which `downloadChunkHandler` serves the chunk of a request:
`filepath.Join("data", fmt.Sprintf("%s_%s.chunk", fileID, chunkID))`. -/
def downloadChunkHandler.filePath (fileID chunkID : String) : String :=
  Join ["data", fileID ++ "_" ++ chunkID ++ ".chunk"]

/-- Well-formedness of the registry and of the recorded replica lists: every registered
address is stored with the value `true`, and every replica list in the chunk map is
non-empty, has at most two entries, repeats no address and names registered addresses
only. -/
def WellFormedRecords (m : ManagerNode) : Prop :=
  (∀ a, a ∈ m.nodes → m.nodes.lookup a = some true) ∧
  ∀ f c, m.chunkMapping.lookup f = some c → ∀ (i : Int) l, c.lookup i = some l →
    l ≠ [] ∧ l.length ≤ 2 ∧ l.Nodup ∧ ∀ a ∈ l, a ∈ m.nodes

/-! ## Helper lemmas -/

theorem foldl_snoc_eq_map {α β : Type} (f : α → β) (l : List α) (init : List β) :
    l.foldl (fun acc a => acc ++ [f a]) init = init ++ l.map f := by
  induction l generalizing init with
  | nil => simp
  | cons x xs ih => simp [List.foldl_cons, ih]

theorem snapshot_eq (order : List String) :
    order.foldl (fun acc address => acc ++ [address]) [] = order := by
  have h := foldl_snoc_eq_map (fun a : String => a) order []
  simpa using h

theorem toInt32_natCast {i : Nat} (h : (i : Int) < 2 ^ 31) : toInt32 i = i := by
  unfold toInt32
  omega

theorem getElem?_mod_eq {N : List String} (hN : N ≠ []) (i : Nat) :
    N[i % N.length]? = some (N.getD (i % N.length) "") := by
  have hpos : 0 < N.length := List.length_pos.mpr hN
  have hlt : i % N.length < N.length := Nat.mod_lt _ hpos
  simp [List.getD, List.getElem?_eq_getElem hlt]

/-- One pass of the loop never panics when the address list is non-empty and the file
already has a chunk map, and it performs the three updates below. -/
theorem assignChunk_eq {N : List String} (hN : N ≠ []) (req : GetNodesForChunksRequest)
    (st : ManagerNode × List ChunkNodeInfo) (i : Nat) (c : GoMap Int (List String))
    (hc : st.1.chunkMapping.lookup req.FileId = some c) :
    assignChunk N req st i =
      some ({ nodes := st.1.nodes, nodeAddresses := st.1.nodeAddresses,
              chunkMapping :=
                st.1.chunkMapping.insert req.FileId
                  (c.insert (toInt32 i) (replicasAt N i)),
              fileTypes := st.1.fileTypes.insert req.FileId req.FileType },
            st.2 ++ [{ ChunkId := toInt32 i, NodeAddress := firstNodeAt N i },
                     { ChunkId := toInt32 i, NodeAddress := secondNodeAt N i }]) := by
  unfold assignChunk
  rw [getElem?_mod_eq hN i]
  by_cases h1 : N.length > 1
  · simp only [h1, if_true, getElem?_mod_eq hN (i + 1), hc, replicasAt, firstNodeAt,
      secondNodeAt]
  · simp only [h1, if_false, hc, replicasAt, firstNodeAt, secondNodeAt]

theorem planOf_succ (N : List String) (k : Nat) :
    planOf N (k + 1) = planOf N k ++
      [{ ChunkId := (k : Int), NodeAddress := firstNodeAt N k },
       { ChunkId := (k : Int), NodeAddress := secondNodeAt N k }] := by
  simp [planOf, List.range_succ, List.flatMap_append]

/-- The placement loop runs to completion without a panic and establishes `LoopInv`. -/
theorem loop_spec {N : List String} (hN : N ≠ []) (req : GetNodesForChunksRequest)
    (m0 : ManagerNode) (c0 : GoMap Int (List String))
    (h0 : m0.chunkMapping.lookup req.FileId = some c0) (k : Nat)
    (hk : (k : Int) ≤ 2 ^ 31) :
    ∃ st, (List.range k).foldlM (assignChunk N req) (m0, []) = some st ∧
      LoopInv N req m0 c0 k st := by
  induction k with
  | zero =>
    refine ⟨(m0, []), by simp, ?_⟩
    exact
      { nodes_eq := rfl
        nodeAddresses_eq := rfl
        chunk_other := fun _ _ => rfl
        chunk_file := ⟨c0, h0, fun j => by
          have : ¬ (0 ≤ j ∧ j < (0 : Int)) := by omega
          simp [this]⟩
        type_other := fun _ _ => rfl
        type_file := by simp
        plan := by simp [planOf] }
  | succ k ih =>
    have hk1 : (k : Int) < 2 ^ 31 := by push_cast at hk; omega
    obtain ⟨st, hst, inv⟩ := ih (by omega)
    obtain ⟨c, hc, hlook⟩ := inv.chunk_file
    have hstep := assignChunk_eq hN req st k c hc
    rw [toInt32_natCast hk1] at hstep
    have hfold : (List.range (k + 1)).foldlM (assignChunk N req) (m0, []) =
        assignChunk N req st k := by
      rw [List.range_succ, List.foldlM_append, hst]
      simp
    rw [hstep] at hfold
    refine ⟨_, hfold, ?_⟩
    · exact
        { nodes_eq := inv.nodes_eq
          nodeAddresses_eq := inv.nodeAddresses_eq
          chunk_other := fun g hg => by
            simp only
            rw [AList.lookup_insert_ne hg]
            exact inv.chunk_other g hg
          chunk_file := ⟨_, AList.lookup_insert _, fun j => by
            by_cases hj : j = (k : Int)
            · subst hj
              have : (0 : Int) ≤ (k : Int) ∧ (k : Int) < ((k + 1 : Nat) : Int) := by
                constructor <;> omega
              simp [AList.lookup_insert, this]
            · rw [AList.lookup_insert_ne hj, hlook j]
              have : (0 ≤ j ∧ j < ((k + 1 : Nat) : Int)) ↔ (0 ≤ j ∧ j < (k : Int)) := by
                constructor <;> intro h <;> constructor <;> omega
              simp only [this]⟩
          type_other := fun g hg => by
            simp only
            rw [AList.lookup_insert_ne hg]
            exact inv.type_other g hg
          type_file := by simp [AList.lookup_insert]
          plan := by
            simp only
            rw [inv.plan, planOf_succ] }

theorem GetNodesForChunks_nil (m : ManagerNode) (req : GetNodesForChunksRequest) :
    m.GetNodesForChunks [] req = some (m, .error "no registered nodes available") := by
  simp [ManagerNode.GetNodesForChunks]

/-- With a non-empty address list `GetNodesForChunks` returns the plan `planOf` and leaves
the state described by `LoopInv` (relative to the state before the call). -/
theorem GetNodesForChunks_ok (m : ManagerNode) {N : List String} (hN : N ≠ [])
    (req : GetNodesForChunksRequest) (ht : req.TotalChunks < 2 ^ 31) :
    ∃ m', m.GetNodesForChunks N req =
        some (m', .ok { Nodes := planOf N req.TotalChunks.toNat }) ∧
      LoopInv N req m ((m.chunkMapping.lookup req.FileId).getD ∅) req.TotalChunks.toNat
        (m', planOf N req.TotalChunks.toNat) := by
  have hlen : N.length ≠ 0 := fun h => hN (List.length_eq_zero.mp h)
  have hk : ((req.TotalChunks.toNat : Nat) : Int) ≤ 2 ^ 31 := by omega
  unfold ManagerNode.GetNodesForChunks
  simp only [snapshot_eq, hlen, if_false]
  cases hlook : m.chunkMapping.lookup req.FileId with
  | none =>
    obtain ⟨st, hst, inv⟩ := loop_spec hN req
      { m with chunkMapping := m.chunkMapping.insert req.FileId ∅ } ∅
      (AList.lookup_insert _) _ hk
    obtain ⟨m', plan⟩ := st
    have hp : plan = planOf N req.TotalChunks.toNat := inv.plan
    subst hp
    refine ⟨m', by simp [hst], ?_⟩
    exact
      { nodes_eq := inv.nodes_eq
        nodeAddresses_eq := inv.nodeAddresses_eq
        chunk_other := fun g hg => by
          rw [inv.chunk_other g hg]
          exact AList.lookup_insert_ne hg
        chunk_file := by simpa using inv.chunk_file
        type_other := inv.type_other
        type_file := inv.type_file
        plan := rfl }
  | some c0 =>
    obtain ⟨st, hst, inv⟩ := loop_spec hN req m c0 hlook _ hk
    obtain ⟨m', plan⟩ := st
    have hp : plan = planOf N req.TotalChunks.toNat := inv.plan
    subst hp
    refine ⟨m', by simp [hst], ?_⟩
    simpa using inv

theorem keyOrder_nodup {K V : Type} {m : GoMap K V} {order : List K}
    (h : KeyOrder m order) : order.Nodup :=
  (List.Perm.nodup_iff h).mpr m.keys_nodup

theorem keyOrder_nil_iff {K V : Type} {m : GoMap K V} {order : List K}
    (h : KeyOrder m order) : order = [] ↔ m.keys = [] := by
  unfold KeyOrder at h
  constructor
  · intro h0
    subst h0
    exact (List.nil_perm.mp h)
  · intro h0
    rw [h0] at h
    exact List.perm_nil.mp h

theorem succ_mod_ne (i : Nat) {n : Nat} (hn : 1 < n) : i % n ≠ (i + 1) % n := by
  intro h
  have hmod : i ≡ i + 1 [MOD n] := h
  have hdvd : n ∣ (i + 1) - i := (Nat.modEq_iff_dvd' (Nat.le_succ i)).mp hmod
  have h1 : n ∣ 1 := by simpa using hdvd
  have := Nat.le_of_dvd Nat.one_pos h1
  omega

theorem getD_eq_getElem {N : List String} {k : Nat} (h : k < N.length) :
    N.getD k "" = N[k] := by
  simp [List.getD, List.getElem?_eq_getElem h]

/-- With one address every replica list is that single address. -/
theorem replicasAt_one {N : List String} (hn : N.length = 1) (i : Nat) :
    replicasAt N i = [N.getD 0 ""] := by
  simp [replicasAt, firstNodeAt, secondNodeAt, hn, Nat.mod_one]

/-- With several pairwise different addresses every replica list has the round-robin
primary and its successor, and the two differ. -/
theorem replicasAt_many {N : List String} (hnd : N.Nodup) (hn : 1 < N.length) (i : Nat) :
    replicasAt N i = [N.getD (i % N.length) "", N.getD ((i + 1) % N.length) ""] ∧
      N.getD (i % N.length) "" ≠ N.getD ((i + 1) % N.length) "" := by
  have hpos : 0 < N.length := by omega
  have h1 : i % N.length < N.length := Nat.mod_lt _ hpos
  have h2 : (i + 1) % N.length < N.length := Nat.mod_lt _ hpos
  have hne : N.getD (i % N.length) "" ≠ N.getD ((i + 1) % N.length) "" := by
    rw [getD_eq_getElem h1, getD_eq_getElem h2]
    intro h
    exact succ_mod_ne i hn ((hnd.getElem_inj_iff).mp h)
  refine ⟨?_, hne⟩
  unfold replicasAt secondNodeAt firstNodeAt
  rw [if_pos hn, if_pos hne]

theorem GetChunkLocations_state (m : ManagerNode) (order : List (Int × List String))
    (req : GetChunkLocationsRequest) : (m.GetChunkLocations order req).1 = m := by
  unfold ManagerNode.GetChunkLocations
  cases m.chunkMapping.lookup req.FileId <;> rfl

/-- A `GetNodesForChunks` call that returns changes the chunk map only at the file of the
request, where it leaves a record exactly when it returns a plan. -/
theorem GetNodesForChunks_chunkMapping {m m' : ManagerNode} {N : List String}
    {req : GetNodesForChunksRequest} {res : Except String GetNodesForChunksResponse}
    (ht : IsInt32 req.TotalChunks) (h : m.GetNodesForChunks N req = some (m', res)) :
    (∀ g, g ≠ req.FileId → m'.chunkMapping.lookup g = m.chunkMapping.lookup g) ∧
    (assignEvent req.FileId res = .assigned req.FileId →
      (m'.chunkMapping.lookup req.FileId).isSome) ∧
    (assignEvent req.FileId res = .assignFailed req.FileId → m' = m) := by
  by_cases hnil : N = []
  · subst hnil
    rw [GetNodesForChunks_nil] at h
    obtain ⟨hm, hres⟩ := Prod.mk.inj (Option.some.inj h)
    subst hm
    subst hres
    refine ⟨fun _ _ => rfl, ?_, fun _ => rfl⟩
    intro he
    simp [assignEvent] at he
  · obtain ⟨m1, hcall, inv⟩ := GetNodesForChunks_ok m hnil req ht.2
    rw [hcall] at h
    obtain ⟨hm, hres⟩ := Prod.mk.inj (Option.some.inj h)
    subst hm
    subst hres
    refine ⟨inv.chunk_other, ?_, ?_⟩
    · intro _
      obtain ⟨c, hc, _⟩ := inv.chunk_file
      simp only at hc
      simp [hc]
    · intro he
      simp [assignEvent] at he

/-- Along every run, a file has a chunk-map record exactly when some `GetNodesForChunks`
call for it has returned a plan. -/
theorem trace_record_iff {es : List Event} {m : ManagerNode} (h : Trace es m) (f : String) :
    m.chunkMapping.lookup f = none ↔ Event.assigned f ∉ es := by
  induction h with
  | init => simp [NewManagerNode]
  | registerNode req _ ih =>
    simp only [ManagerNode.RegisterNode, List.mem_append, List.mem_singleton]
    rw [ih]
    constructor
    · rintro h (h1 | h1)
      · exact h h1
      · cases h1
    · intro h h1
      exact h (Or.inl h1)
  | @getNodesForChunks es m m' order req res _ _ ht hcall ih =>
    obtain ⟨hother, hok, hfail⟩ := GetNodesForChunks_chunkMapping ht hcall
    simp only [List.mem_append, List.mem_singleton]
    by_cases hf : f = req.FileId
    · subst hf
      cases res with
      | error e =>
        have hm : m' = m := hfail rfl
        subst hm
        rw [ih]
        simp [assignEvent]
      | ok r =>
        have hs := hok rfl
        constructor
        · intro hnone
          rw [hnone] at hs
          cases hs
        · intro hno
          exact absurd (Or.inr rfl) hno
    · rw [hother f hf, ih]
      have hne : Event.assigned f ≠ assignEvent req.FileId res := by
        cases res <;> simp [assignEvent, hf]
      constructor
      · rintro h (h1 | h1)
        · exact h h1
        · exact hne h1
      · intro h h1
        exact h (Or.inl h1)
  | getChunkLocations order req _ _ ih =>
    rw [GetChunkLocations_state]
    simp only [List.mem_append, List.mem_singleton]
    rw [ih]
    constructor
    · rintro h (h1 | h1)
      · exact h h1
      · cases h1
    · intro h h1
      exact h (Or.inl h1)

theorem keys_eq_map_fst_pairs {K V : Type} (c : GoMap K V) :
    c.keys = c.pairs.map Prod.fst := by
  simp [GoMap.pairs, AList.keys, List.keys, Function.comp_def]

theorem mem_pairs_iff {K V : Type} [DecidableEq K] (c : GoMap K V) (k : K) (v : V) :
    (k, v) ∈ c.pairs ↔ c.lookup k = some v := by
  rw [← Option.mem_def, AList.mem_lookup_iff]
  simp only [GoMap.pairs, List.mem_map, Prod.mk.injEq]
  constructor
  · rintro ⟨⟨k', v'⟩, hmem, hk, hv⟩
    simp only at hk hv
    subst hk
    subst hv
    exact hmem
  · intro h
    exact ⟨⟨k, v⟩, h, rfl, rfl⟩

/-! ## The claims -/

/-- C1: for a registry snapshot `N` of size `n ≥ 1` and an `int32` chunk count `t`,
`GetNodesForChunks` succeeds and the replica list it records for every chunk index
`i` in `[0, t)` starts with `N[i mod n]`; it is `[N[i mod n], N[(i+1) mod n]]` when
`n > 1` and the single entry `[N[0]]` when `n = 1`. -/
theorem C1_recorded_replicas_round_robin (m : ManagerNode) (N : List String)
    (req : GetNodesForChunksRequest) (hN : KeyOrder m.nodes N) (hn : 1 ≤ N.length)
    (ht : IsInt32 req.TotalChunks) :
    ∃ m' resp chunks, m.GetNodesForChunks N req = some (m', .ok resp) ∧
      m'.chunkMapping.lookup req.FileId = some chunks ∧
      ∀ i : Nat, (i : Int) < req.TotalChunks →
        ∃ l, chunks.lookup (i : Int) = some l ∧
          l.head? = N[i % N.length]? ∧
          (1 < N.length → l.map some = [N[i % N.length]?, N[(i + 1) % N.length]?]) ∧
          (N.length = 1 → l.map some = [N[0]?]) := by
  have hne : N ≠ [] := by
    intro h
    simp [h] at hn
  obtain ⟨m', hcall, inv⟩ := GetNodesForChunks_ok m hne req ht.2
  obtain ⟨c, hc, hlook⟩ := inv.chunk_file
  refine ⟨m', _, c, hcall, hc, fun i hi => ?_⟩
  have hcond : (0 : Int) ≤ (i : Int) ∧ (i : Int) < ((req.TotalChunks.toNat : Nat) : Int) := by
    constructor <;> omega
  refine ⟨replicasAt N i, ?_, ?_, ?_, ?_⟩
  · rw [hlook, if_pos hcond]
    simp
  · rw [getElem?_mod_eq hne i]
    by_cases h1 : N.length = 1
    · simp [replicasAt_one h1, h1, Nat.mod_one]
    · rw [(replicasAt_many (keyOrder_nodup hN) (by omega) i).1]
      simp
  · intro h1
    rw [(replicasAt_many (keyOrder_nodup hN) h1 i).1, getElem?_mod_eq hne i,
      getElem?_mod_eq hne (i + 1)]
    simp
  · intro h1
    have h0 := getElem?_mod_eq hne 0
    rw [h1, Nat.mod_one] at h0
    rw [replicasAt_one h1, h0]
    simp

/-- Witness of C1 and the scenario of the specification: registry snapshot `[A, B]` and
three chunks give chunk 0 -> `[A, B]`, chunk 1 -> `[B, A]`, chunk 2 -> `[A, B]`. -/
theorem C1_witness :
    (KeyOrder managerAB.nodes ["A", "B"] ∧ 1 ≤ ["A", "B"].length ∧ IsInt32 3) ∧
    (∃ m' resp chunks,
      managerAB.GetNodesForChunks ["A", "B"]
        { FileId := "f1", TotalChunks := 3, FileType := "txt" } = some (m', .ok resp) ∧
      m'.chunkMapping.lookup "f1" = some chunks ∧
      ∀ i : Nat, (i : Int) < 3 →
        ∃ l, chunks.lookup (i : Int) = some l ∧
          l.head? = ["A", "B"][i % 2]? ∧
          (1 < 2 → l.map some = [["A", "B"][i % 2]?, ["A", "B"][(i + 1) % 2]?]) ∧
          (2 = 1 → l.map some = [["A", "B"][0]?])) ∧
    ((stateAfter managerAB (managerAB.GetNodesForChunks ["A", "B"]
        { FileId := "f1", TotalChunks := 3, FileType := "txt" })).chunkMapping.lookup
          "f1").map (fun c => [c.lookup 0, c.lookup 1, c.lookup 2]) =
      some [some ["A", "B"], some ["B", "A"], some ["A", "B"]] :=
  ⟨⟨by decide, by decide, by decide⟩,
   C1_recorded_replicas_round_robin managerAB ["A", "B"]
     { FileId := "f1", TotalChunks := 3, FileType := "txt" }
     (by decide) (by decide) (by decide),
   by decide⟩

/-- C2: for a registry of size `n ≥ 1`, an `int32` chunk count `t` and a file without a
prior record, one `GetNodesForChunks` call succeeds and afterwards the chunk indices
recorded for the file are exactly `0, ..., t-1` (`t` of them, none for `t ≤ 0`); every
recorded replica list has exactly 1 entry if `n = 1` and otherwise exactly 2 entries
that are different addresses. -/
theorem C2_fresh_file_indices_and_replica_counts (m : ManagerNode) (N : List String)
    (req : GetNodesForChunksRequest) (hN : KeyOrder m.nodes N) (hn : 1 ≤ N.length)
    (ht : IsInt32 req.TotalChunks) (hnew : m.chunkMapping.lookup req.FileId = none) :
    ∃ m' resp chunks, m.GetNodesForChunks N req = some (m', .ok resp) ∧
      m'.chunkMapping.lookup req.FileId = some chunks ∧
      (∀ j : Int, j ∈ chunks.keys ↔ 0 ≤ j ∧ j < req.TotalChunks) ∧
      chunks.keys.length = req.TotalChunks.toNat ∧
      ∀ (j : Int) (l : List String), chunks.lookup j = some l →
        (N.length = 1 → l.length = 1) ∧
        (N.length ≠ 1 → l.length = 2 ∧ l.Nodup) := by
  have hne : N ≠ [] := by
    intro h
    simp [h] at hn
  obtain ⟨m', hcall, inv⟩ := GetNodesForChunks_ok m hne req ht.2
  obtain ⟨c, hc, hlook⟩ := inv.chunk_file
  rw [hnew] at hlook
  have hlook' : ∀ j : Int, c.lookup j =
      if 0 ≤ j ∧ j < req.TotalChunks then some (replicasAt N j.toNat) else none := by
    intro j
    rw [hlook j]
    have : (0 ≤ j ∧ j < ((req.TotalChunks.toNat : Nat) : Int)) ↔
        (0 ≤ j ∧ j < req.TotalChunks) := by
      constructor <;> intro h <;> constructor <;> omega
    simp only [this]
    simp
  have hmem : ∀ j : Int, j ∈ c.keys ↔ 0 ≤ j ∧ j < req.TotalChunks := by
    intro j
    rw [← AList.mem_keys, ← AList.lookup_isSome, hlook' j]
    by_cases h : 0 ≤ j ∧ j < req.TotalChunks <;> simp [h]
  refine ⟨m', _, c, hcall, hc, hmem, ?_, ?_⟩
  · have hperm : c.keys.Perm ((List.range req.TotalChunks.toNat).map Int.ofNat) := by
      refine (List.perm_ext_iff_of_nodup c.keys_nodup ?_).mpr ?_
      · exact (List.nodup_range _).map (fun a b h => Int.ofNat.inj h)
      · intro j
        rw [hmem j]
        simp only [List.mem_map, List.mem_range]
        constructor
        · intro h
          exact ⟨j.toNat, by omega, by simp [Int.toNat_of_nonneg h.1]⟩
        · rintro ⟨k, hk, rfl⟩
          constructor
          · exact Int.ofNat_nonneg k
          · have : ((k : Nat) : Int) < req.TotalChunks := by omega
            exact this
    simpa using hperm.length_eq
  · intro j l hl
    rw [hlook' j] at hl
    by_cases h : 0 ≤ j ∧ j < req.TotalChunks
    · rw [if_pos h] at hl
      have hl' : replicasAt N j.toNat = l := Option.some.inj hl
      subst hl'
      constructor
      · intro h1
        simp [replicasAt_one h1]
      · intro h1
        obtain ⟨heq, hdiff⟩ := replicasAt_many (keyOrder_nodup hN) (by omega) j.toNat
        rw [heq]
        exact ⟨rfl, by simpa using hdiff⟩
    · rw [if_neg h] at hl
      cases hl

/-- Witness of C2: registry `{A, B}`, a fresh file and three chunks. -/
theorem C2_witness :
    (KeyOrder managerAB.nodes ["B", "A"] ∧ 1 ≤ ["B", "A"].length ∧ IsInt32 3 ∧
      managerAB.chunkMapping.lookup "f1" = none) ∧
    ∃ m' resp chunks,
      managerAB.GetNodesForChunks ["B", "A"]
        { FileId := "f1", TotalChunks := 3, FileType := "txt" } = some (m', .ok resp) ∧
      m'.chunkMapping.lookup "f1" = some chunks ∧
      (∀ j : Int, j ∈ chunks.keys ↔ 0 ≤ j ∧ j < 3) ∧
      chunks.keys.length = 3 ∧
      ∀ (j : Int) (l : List String), chunks.lookup j = some l →
        (["B", "A"].length = 1 → l.length = 1) ∧
        (["B", "A"].length ≠ 1 → l.length = 2 ∧ l.Nodup) :=
  ⟨⟨by decide, by decide, by decide, by decide⟩,
   C2_fresh_file_indices_and_replica_counts managerAB ["B", "A"]
     { FileId := "f1", TotalChunks := 3, FileType := "txt" }
     (by decide) (by decide) (by decide) (by decide)⟩

/-- C3 (the code departs from the claim): with registry `{A}` and two chunks the
response lists every chunk index twice, both times with address `A`, although the
chunk map records the single replica `[A]` for each index. -/
theorem C3_single_node_plan_lists_each_chunk_twice :
    KeyOrder managerA.nodes ["A"] ∧
    (managerA.GetNodesForChunks ["A"]
        { FileId := "f2", TotalChunks := 2, FileType := "bin" }).map (fun r => r.2) =
      some (.ok { Nodes := [{ ChunkId := 0, NodeAddress := "A" },
                            { ChunkId := 0, NodeAddress := "A" },
                            { ChunkId := 1, NodeAddress := "A" },
                            { ChunkId := 1, NodeAddress := "A" }] }) ∧
    ((stateAfter managerA (managerA.GetNodesForChunks ["A"]
        { FileId := "f2", TotalChunks := 2, FileType := "bin" })).chunkMapping.lookup
          "f2").map (fun c => [c.lookup 0, c.lookup 1]) =
      some [some ["A"], some ["A"]] :=
  ⟨by decide, by rfl, by decide⟩

/-- C4: `GetNodesForChunks` returns an error if and only if the node registry is empty
at call time; a failing call leaves the whole manager state as it was, so every later
`GetChunkLocations` answers as it would have before; with a non-empty registry the call
returns a plan. -/
theorem C4_fails_iff_registry_empty (m : ManagerNode) (N : List String)
    (req : GetNodesForChunksRequest) (hN : KeyOrder m.nodes N)
    (ht : IsInt32 req.TotalChunks) :
    ((∃ m' e, m.GetNodesForChunks N req = some (m', .error e)) ↔ m.nodes.keys = []) ∧
    (∀ m' e, m.GetNodesForChunks N req = some (m', .error e) →
      m' = m ∧ ∀ order q, m'.GetChunkLocations order q = m.GetChunkLocations order q) ∧
    (m.nodes.keys ≠ [] → ∃ m' resp, m.GetNodesForChunks N req = some (m', .ok resp)) := by
  by_cases hnil : N = []
  · subst hnil
    have hk : m.nodes.keys = [] := (keyOrder_nil_iff hN).mp rfl
    refine ⟨⟨fun _ => hk, fun _ => ⟨m, _, GetNodesForChunks_nil m req⟩⟩, ?_, ?_⟩
    · intro m' e h
      rw [GetNodesForChunks_nil] at h
      have hm : m = m' := (Prod.mk.inj (Option.some.inj h)).1
      subst hm
      exact ⟨rfl, fun _ _ => rfl⟩
    · intro h
      exact absurd hk h
  · have hk : m.nodes.keys ≠ [] := fun h => hnil ((keyOrder_nil_iff hN).mpr h)
    obtain ⟨m1, hcall, _⟩ := GetNodesForChunks_ok m hnil req ht.2
    refine ⟨⟨?_, fun h => absurd h hk⟩, ?_, fun _ => ⟨m1, _, hcall⟩⟩
    · rintro ⟨m', e, h⟩
      rw [hcall] at h
      cases h
    · intro m' e h
      rw [hcall] at h
      cases h

/-- Witness of C4 and the scenario of the specification: with an empty registry
`GetNodesForChunks("f3", 1, "txt")` fails and changes nothing. -/
theorem C4_witness :
    (KeyOrder NewManagerNode.nodes [] ∧ IsInt32 1) ∧
    (((∃ m' e, NewManagerNode.GetNodesForChunks []
          { FileId := "f3", TotalChunks := 1, FileType := "txt" } = some (m', .error e)) ↔
        NewManagerNode.nodes.keys = []) ∧
      (∀ m' e, NewManagerNode.GetNodesForChunks []
          { FileId := "f3", TotalChunks := 1, FileType := "txt" } = some (m', .error e) →
        m' = NewManagerNode ∧
          ∀ order q, m'.GetChunkLocations order q =
            NewManagerNode.GetChunkLocations order q) ∧
      (NewManagerNode.nodes.keys ≠ [] → ∃ m' resp, NewManagerNode.GetNodesForChunks []
          { FileId := "f3", TotalChunks := 1, FileType := "txt" } = some (m', .ok resp))) ∧
    NewManagerNode.GetNodesForChunks []
        { FileId := "f3", TotalChunks := 1, FileType := "txt" } =
      some (NewManagerNode, .error "no registered nodes available") :=
  ⟨⟨by decide, by decide⟩,
   C4_fails_iff_registry_empty NewManagerNode []
     { FileId := "f3", TotalChunks := 1, FileType := "txt" } (by decide) (by decide),
   rfl⟩

/-- C5: in every manager state reached from `NewManagerNode` by `RegisterNode`,
`GetNodesForChunks` and `GetChunkLocations` calls, `GetChunkLocations(fileId)` fails with
the error "file not found" if and only if no `GetNodesForChunks` call for that `fileId`
has returned a plan so far; otherwise it returns a response. -/
theorem C5_file_not_found_iff_never_assigned (es : List Event) (m : ManagerNode)
    (h : Trace es m) (order : List (Int × List String)) (fileId : String) :
    ((m.GetChunkLocations order { FileId := fileId }).2 = .error "file not found" ↔
      Event.assigned fileId ∉ es) ∧
    (Event.assigned fileId ∈ es →
      ∃ resp, (m.GetChunkLocations order { FileId := fileId }).2 = .ok resp) := by
  have hrec := trace_record_iff h fileId
  unfold ManagerNode.GetChunkLocations
  cases hl : m.chunkMapping.lookup fileId with
  | none =>
    have hno : Event.assigned fileId ∉ es := hrec.mp hl
    simp [hno]
  | some c =>
    have hyes : ¬ Event.assigned fileId ∉ es := fun hno => by
      have := hrec.mpr hno
      rw [hl] at this
      cases this
    simp [hyes]

/-- Witness of C5: after `RegisterNode(A)` and a successful
`GetNodesForChunks("f", 0, "txt")`. -/
theorem C5_witness :
    Trace [.registered "A", .assigned "f"]
      (stateAfter managerA (managerA.GetNodesForChunks ["A"]
        { FileId := "f", TotalChunks := 0, FileType := "txt" })) ∧
    (((stateAfter managerA (managerA.GetNodesForChunks ["A"]
        { FileId := "f", TotalChunks := 0, FileType := "txt" })).GetChunkLocations []
          { FileId := "g" }).2 = .error "file not found" ↔
      Event.assigned "g" ∉ [Event.registered "A", Event.assigned "f"]) ∧
    (Event.assigned "f" ∈ [Event.registered "A", Event.assigned "f"] →
      ∃ resp, ((stateAfter managerA (managerA.GetNodesForChunks ["A"]
        { FileId := "f", TotalChunks := 0, FileType := "txt" })).GetChunkLocations []
          { FileId := "f" }).2 = .ok resp) :=
  have ht : Trace [.registered "A", .assigned "f"]
      (stateAfter managerA (managerA.GetNodesForChunks ["A"]
        { FileId := "f", TotalChunks := 0, FileType := "txt" })) :=
    Trace.getNodesForChunks ["A"] { FileId := "f", TotalChunks := 0, FileType := "txt" }
      (.ok { Nodes := [] }) (Trace.registerNode { NodeAddress := "A" } Trace.init)
      (by decide) (by decide) rfl
  ⟨ht, (C5_file_not_found_iff_never_assigned _ _ ht [] "g").1,
    (C5_file_not_found_iff_never_assigned _ _ ht [] "f").2⟩

/-- C6: in every manager state in which `fileId` has a record, `GetChunkLocations(fileId)`
returns a response with exactly one entry per recorded chunk index (none missing, none
repeated, none extra), each entry carrying the recorded replica list in its recorded
order, together with the file type recorded for `fileId` (the empty string when none is
recorded); the state is unchanged. -/
theorem C6_lookup_returns_every_recorded_chunk (m : ManagerNode) (fileId : String)
    (chunks : GoMap Int (List String)) (order : List (Int × List String))
    (hrec : m.chunkMapping.lookup fileId = some chunks) (hord : EntryOrder chunks order) :
    ∃ resp, m.GetChunkLocations order { FileId := fileId } = (m, .ok resp) ∧
      (resp.Chunks.map (fun ci => ci.ChunkId)).Nodup ∧
      (∀ j : Int, j ∈ resp.Chunks.map (fun ci => ci.ChunkId) ↔ j ∈ chunks.keys) ∧
      resp.Chunks.length = chunks.keys.length ∧
      (∀ ci ∈ resp.Chunks, chunks.lookup ci.ChunkId = some ci.Nodes) ∧
      resp.FileType = (m.fileTypes.lookup fileId).getD "" ∧
      (∀ ty, m.fileTypes.lookup fileId = some ty → resp.FileType = ty) := by
  have hids : (order.map (fun e => ({ ChunkId := e.1, Nodes := e.2 } : ChunkLocationInfo))).map
      (fun ci => ci.ChunkId) = order.map Prod.fst := by
    simp [List.map_map, Function.comp_def]
  have hperm : (order.map Prod.fst).Perm chunks.keys := by
    rw [keys_eq_map_fst_pairs]
    exact List.Perm.map _ hord
  refine ⟨{ Chunks := order.map (fun e => { ChunkId := e.1, Nodes := e.2 }),
            FileType := (m.fileTypes.lookup fileId).getD "" }, ?_, ?_, ?_, ?_, ?_, rfl, ?_⟩
  · unfold ManagerNode.GetChunkLocations
    simp only [hrec]
    rw [foldl_snoc_eq_map]
    simp
  · simp only [hids]
    exact (List.Perm.nodup_iff hperm).mpr chunks.keys_nodup
  · intro j
    simp only [hids]
    exact hperm.mem_iff
  · have := hperm.length_eq
    simpa using this
  · intro ci hci
    simp only [List.mem_map] at hci
    obtain ⟨e, he, rfl⟩ := hci
    have hmem : (e.1, e.2) ∈ chunks.pairs := hord.mem_iff.mp he
    exact (mem_pairs_iff chunks e.1 e.2).mp hmem
  · intro ty hty
    simp [hty]

/-- Witness of C6 and the scenario of the specification: after registering `A` and `B`
and calling `GetNodesForChunks("f1", 3, "txt")`, `GetChunkLocations("f1")` returns three
entries, for the indices 0, 1 and 2, and the file type `txt`. -/
theorem C6_witness :
    (scenarioManager.chunkMapping.lookup "f1" = some scenarioChunks ∧
      EntryOrder scenarioChunks [(0, ["A", "B"]), (1, ["B", "A"]), (2, ["A", "B"])]) ∧
    (∃ resp, scenarioManager.GetChunkLocations
          [(0, ["A", "B"]), (1, ["B", "A"]), (2, ["A", "B"])] { FileId := "f1" } =
        (scenarioManager, .ok resp) ∧
      (resp.Chunks.map (fun ci => ci.ChunkId)).Nodup ∧
      (∀ j : Int, j ∈ resp.Chunks.map (fun ci => ci.ChunkId) ↔ j ∈ scenarioChunks.keys) ∧
      resp.Chunks.length = scenarioChunks.keys.length ∧
      (∀ ci ∈ resp.Chunks, scenarioChunks.lookup ci.ChunkId = some ci.Nodes) ∧
      resp.FileType = (scenarioManager.fileTypes.lookup "f1").getD "" ∧
      (∀ ty, scenarioManager.fileTypes.lookup "f1" = some ty → resp.FileType = ty)) ∧
    (scenarioManager.GetChunkLocations
        [(0, ["A", "B"]), (1, ["B", "A"]), (2, ["A", "B"])] { FileId := "f1" }).2 =
      .ok { Chunks := [{ ChunkId := 0, Nodes := ["A", "B"] },
                       { ChunkId := 1, Nodes := ["B", "A"] },
                       { ChunkId := 2, Nodes := ["A", "B"] }],
            FileType := "txt" } :=
  ⟨⟨rfl, by decide⟩,
   C6_lookup_returns_every_recorded_chunk scenarioManager "f1" scenarioChunks
     [(0, ["A", "B"]), (1, ["B", "A"]), (2, ["A", "B"])] rfl (by decide),
   rfl⟩

/-- C7 (the code departs from the claim): a successful `GetNodesForChunks` call with
`totalChunks = 0` records no file type.  On a fresh file, `GetNodesForChunks("f", 0,
"txt")` returns an empty plan, leaves the file-type map without an entry for `f`, and the
next `GetChunkLocations("f")` succeeds with the file type `""`; on a file recorded with
type `txt`, `GetNodesForChunks("f", 0, "bin")` returns an empty plan and the recorded
type stays `txt`. -/
theorem C7_zero_chunks_leaves_file_type_unrecorded :
    (KeyOrder managerA.nodes ["A"] ∧
      (managerA.GetNodesForChunks ["A"]
          { FileId := "f", TotalChunks := 0, FileType := "txt" }).map (fun r => r.2) =
        some (.ok { Nodes := [] }) ∧
      zeroChunkManager.fileTypes.lookup "f" = none ∧
      (zeroChunkManager.GetChunkLocations [] { FileId := "f" }).2 =
        .ok { Chunks := [], FileType := "" }) ∧
    (KeyOrder oneChunkManager.nodes ["A"] ∧
      oneChunkManager.fileTypes.lookup "f" = some "txt" ∧
      (oneChunkManager.GetNodesForChunks ["A"]
          { FileId := "f", TotalChunks := 0, FileType := "bin" }).map (fun r => r.2) =
        some (.ok { Nodes := [] }) ∧
      (stateAfter oneChunkManager (oneChunkManager.GetNodesForChunks ["A"]
          { FileId := "f", TotalChunks := 0, FileType := "bin" })).fileTypes.lookup "f" =
        some "txt" ∧
      ((stateAfter oneChunkManager (oneChunkManager.GetNodesForChunks ["A"]
          { FileId := "f", TotalChunks := 0, FileType := "bin" })).GetChunkLocations
            [(0, ["A"])] { FileId := "f" }).2 =
        .ok { Chunks := [{ ChunkId := 0, Nodes := ["A"] }], FileType := "txt" }) :=
  ⟨⟨by decide, rfl, by decide, rfl⟩, ⟨by decide, by decide, rfl, by decide, rfl⟩⟩

/-- C8 (the code departs from the claim): the state after `RegisterNode(A)` and
`GetNodesForChunks("f", 0, "txt")` is reachable, and in it `f` is a key of the chunk map
but not a key of the file-type map. -/
theorem C8_zero_chunks_breaks_key_consistency :
    Reachable zeroChunkManager ∧
    "f" ∈ zeroChunkManager.chunkMapping ∧
    "f" ∉ zeroChunkManager.fileTypes :=
  ⟨⟨[.registered "A", .assigned "f"],
      Trace.getNodesForChunks ["A"] { FileId := "f", TotalChunks := 0, FileType := "txt" }
        (.ok { Nodes := [] }) (Trace.registerNode { NodeAddress := "A" } Trace.init)
        (by decide) (by decide) rfl⟩,
    by decide, by decide⟩

/-- C9: `RegisterNode` is idempotent: registering address `a` twice leaves the same
manager state as registering it once, and both calls report success; registering an
address that is already a member leaves the registry with the same members (hence the
same size and the same possible snapshots), leaves the chunk map and the file-type map
alone, and reports success. -/
theorem C9_register_idempotent (m : ManagerNode) (a : String) :
    ((m.RegisterNode { NodeAddress := a }).1.RegisterNode { NodeAddress := a }).1 =
      (m.RegisterNode { NodeAddress := a }).1 ∧
    ((m.RegisterNode { NodeAddress := a }).1.RegisterNode { NodeAddress := a }).2 =
      .ok { Message := "Node registered successfully" } ∧
    (a ∈ m.nodes →
      (m.RegisterNode { NodeAddress := a }).1.nodes.keys.length = m.nodes.keys.length ∧
      (∀ b, b ∈ (m.RegisterNode { NodeAddress := a }).1.nodes ↔ b ∈ m.nodes) ∧
      (∀ order, KeyOrder (m.RegisterNode { NodeAddress := a }).1.nodes order ↔
        KeyOrder m.nodes order) ∧
      (m.RegisterNode { NodeAddress := a }).1.chunkMapping = m.chunkMapping ∧
      (m.RegisterNode { NodeAddress := a }).1.fileTypes = m.fileTypes ∧
      (m.RegisterNode { NodeAddress := a }).2 =
        .ok { Message := "Node registered successfully" }) := by
  refine ⟨?_, rfl, ?_⟩
  · simp [ManagerNode.RegisterNode, AList.insert_insert]
  · intro ha
    have hmem : a ∈ m.nodes.keys := AList.mem_keys.mp ha
    have hperm : (m.nodes.insert a true).keys.Perm m.nodes.keys := by
      rw [AList.keys_insert]
      exact (List.perm_cons_erase hmem).symm
    refine ⟨hperm.length_eq, ?_, ?_, rfl, rfl, rfl⟩
    · intro b
      simp only [ManagerNode.RegisterNode, AList.mem_insert]
      constructor
      · rintro (h | h)
        · exact h ▸ ha
        · exact h
      · exact Or.inr
    · intro order
      simp only [ManagerNode.RegisterNode, KeyOrder]
      exact ⟨fun h => h.trans hperm, fun h => h.trans hperm.symm⟩

/-- Witness of C9: registering `A` again in a manager whose registry is `{A, B}`. -/
theorem C9_witness :
    "A" ∈ managerAB.nodes ∧
    (managerAB.RegisterNode { NodeAddress := "A" }).1.nodes.keys.length =
      managerAB.nodes.keys.length ∧
    (∀ b, b ∈ (managerAB.RegisterNode { NodeAddress := "A" }).1.nodes ↔
      b ∈ managerAB.nodes) ∧
    (∀ order, KeyOrder (managerAB.RegisterNode { NodeAddress := "A" }).1.nodes order ↔
      KeyOrder managerAB.nodes order) ∧
    (managerAB.RegisterNode { NodeAddress := "A" }).1.chunkMapping =
      managerAB.chunkMapping ∧
    (managerAB.RegisterNode { NodeAddress := "A" }).1.fileTypes = managerAB.fileTypes ∧
    (managerAB.RegisterNode { NodeAddress := "A" }).2 =
      .ok { Message := "Node registered successfully" } :=
  ⟨by decide, (C9_register_idempotent managerAB "A").2.2 (by decide)⟩

/-- C10, as stated, fails: with registry `{A, B}` and no `RegisterNode` in between, a
first `GetNodesForChunks("f", 1, "txt")` whose loop over the registry map visits `A`
then `B` and a second, identical call whose loop visits `B` then `A` (Go may pick either
order each time) return different plans and record different replica lists for
chunk 0. -/
theorem C10_counterexample :
    KeyOrder managerAB.nodes ["A", "B"] ∧
    (managerAB.GetNodesForChunks ["A", "B"]
        { FileId := "f", TotalChunks := 1, FileType := "txt" }).map (fun r => r.2) =
      some (.ok { Nodes := [{ ChunkId := 0, NodeAddress := "A" },
                            { ChunkId := 0, NodeAddress := "B" }] }) ∧
    ((stateAfter managerAB (managerAB.GetNodesForChunks ["A", "B"]
        { FileId := "f", TotalChunks := 1, FileType := "txt" })).chunkMapping.lookup
          "f").map (fun c => c.lookup 0) = some (some ["A", "B"]) ∧
    KeyOrder (stateAfter managerAB (managerAB.GetNodesForChunks ["A", "B"]
        { FileId := "f", TotalChunks := 1, FileType := "txt" })).nodes ["B", "A"] ∧
    ((stateAfter managerAB (managerAB.GetNodesForChunks ["A", "B"]
        { FileId := "f", TotalChunks := 1, FileType := "txt" })).GetNodesForChunks
          ["B", "A"] { FileId := "f", TotalChunks := 1, FileType := "txt" }).map
        (fun r => r.2) =
      some (.ok { Nodes := [{ ChunkId := 0, NodeAddress := "B" },
                            { ChunkId := 0, NodeAddress := "A" }] }) ∧
    ((stateAfter managerAB
        ((stateAfter managerAB (managerAB.GetNodesForChunks ["A", "B"]
          { FileId := "f", TotalChunks := 1, FileType := "txt" })).GetNodesForChunks
            ["B", "A"] { FileId := "f", TotalChunks := 1, FileType := "txt" })).chunkMapping.lookup
          "f").map (fun c => c.lookup 0) = some (some ["B", "A"]) :=
  ⟨by decide, rfl, by decide, by decide, rfl, by decide⟩

/-- C10, amended: when the loops over the registry map of two `GetNodesForChunks` calls
with the same `(fileId, totalChunks)`, and no `RegisterNode` in between, visit the
addresses in the same order `N` (non-empty), both calls succeed, return identical
response lists and leave identical replica lists recorded for every chunk index of the
file. -/
theorem C10_same_order_same_placement (m : ManagerNode) (N : List String)
    (req1 req2 : GetNodesForChunksRequest) (hN : KeyOrder m.nodes N) (hne : N ≠ [])
    (ht : IsInt32 req1.TotalChunks) (hf : req2.FileId = req1.FileId)
    (htt : req2.TotalChunks = req1.TotalChunks) :
    ∃ m1 m2 resp c1 c2,
      m.GetNodesForChunks N req1 = some (m1, .ok resp) ∧
      KeyOrder m1.nodes N ∧
      m1.GetNodesForChunks N req2 = some (m2, .ok resp) ∧
      m1.chunkMapping.lookup req1.FileId = some c1 ∧
      m2.chunkMapping.lookup req1.FileId = some c2 ∧
      ∀ j : Int, c2.lookup j = c1.lookup j := by
  obtain ⟨m1, hcall1, inv1⟩ := GetNodesForChunks_ok m hne req1 ht.2
  have ht2 : req2.TotalChunks < 2 ^ 31 := htt ▸ ht.2
  obtain ⟨m2, hcall2, inv2⟩ := GetNodesForChunks_ok m1 hne req2 ht2
  obtain ⟨c1, hc1, hl1⟩ := inv1.chunk_file
  obtain ⟨c2, hc2, hl2⟩ := inv2.chunk_file
  simp only at hc1 hc2
  rw [hf] at hc2
  rw [hf, hc1] at hl2
  rw [htt] at hcall2 hl2
  refine ⟨m1, m2, _, c1, c2, hcall1, ?_, hcall2, hc1, hc2, fun j => ?_⟩
  · have hnodes : m1.nodes = m.nodes := inv1.nodes_eq
    rw [hnodes]
    exact hN
  · rw [hl2 j]
    by_cases hj : 0 ≤ j ∧ j < ((req1.TotalChunks.toNat : Nat) : Int)
    · rw [if_pos hj, hl1 j, if_pos hj]
    · rw [if_neg hj]
      simp

/-- Witness of the amended C10: registry `{A, B}` visited as `[A, B]` on both calls. -/
theorem C10_witness :
    (KeyOrder managerAB.nodes ["A", "B"] ∧ ["A", "B"] ≠ [] ∧ IsInt32 3) ∧
    ∃ m1 m2 resp c1 c2,
      managerAB.GetNodesForChunks ["A", "B"]
        { FileId := "f", TotalChunks := 3, FileType := "txt" } = some (m1, .ok resp) ∧
      KeyOrder m1.nodes ["A", "B"] ∧
      m1.GetNodesForChunks ["A", "B"]
        { FileId := "f", TotalChunks := 3, FileType := "bin" } = some (m2, .ok resp) ∧
      m1.chunkMapping.lookup "f" = some c1 ∧
      m2.chunkMapping.lookup "f" = some c2 ∧
      ∀ j : Int, c2.lookup j = c1.lookup j :=
  ⟨⟨by decide, by decide, by decide⟩,
   C10_same_order_same_placement managerAB ["A", "B"]
     { FileId := "f", TotalChunks := 3, FileType := "txt" }
     { FileId := "f", TotalChunks := 3, FileType := "bin" }
     (by decide) (by decide) (by decide) rfl rfl⟩

/-- C11: a successful `GetNodesForChunks(f, t, ty)` merges into the chunk map and never
drops: the records of every other file are untouched, the entries of `f` with an index
outside `[0, t)` keep their previous replica lists, the indices in `[0, t)` of `f` hold
the newly computed lists, and every `(fileId, chunkIndex)` entry present before the call
is present after it. -/
theorem C11_assignment_merges_never_drops (m : ManagerNode) (N : List String)
    (req : GetNodesForChunksRequest) (hN : KeyOrder m.nodes N) (hne : N ≠ [])
    (ht : IsInt32 req.TotalChunks) :
    ∃ m' resp chunks, m.GetNodesForChunks N req = some (m', .ok resp) ∧
      m'.chunkMapping.lookup req.FileId = some chunks ∧
      (∀ g, g ≠ req.FileId → m'.chunkMapping.lookup g = m.chunkMapping.lookup g) ∧
      (∀ j : Int, ¬ (0 ≤ j ∧ j < req.TotalChunks) →
        chunks.lookup j = (m.chunkMapping.lookup req.FileId).bind (fun c => c.lookup j)) ∧
      (∀ i : Nat, (i : Int) < req.TotalChunks →
        ∃ l, chunks.lookup (i : Int) = some l ∧
          (1 < N.length → l.map some = [N[i % N.length]?, N[(i + 1) % N.length]?]) ∧
          (N.length = 1 → l.map some = [N[0]?])) ∧
      (∀ g c0 j l, m.chunkMapping.lookup g = some c0 → c0.lookup j = some l →
        ∃ c1 l1, m'.chunkMapping.lookup g = some c1 ∧ c1.lookup j = some l1) := by
  obtain ⟨m', hcall, inv⟩ := GetNodesForChunks_ok m hne req ht.2
  obtain ⟨c, hc, hlook⟩ := inv.chunk_file
  simp only at hc
  have hrange : ∀ j : Int, (0 ≤ j ∧ j < ((req.TotalChunks.toNat : Nat) : Int)) ↔
      (0 ≤ j ∧ j < req.TotalChunks) := by
    intro j
    constructor <;> intro h <;> constructor <;> omega
  have hout : ∀ j : Int, ¬ (0 ≤ j ∧ j < req.TotalChunks) →
      c.lookup j = (m.chunkMapping.lookup req.FileId).bind (fun c => c.lookup j) := by
    intro j hj
    rw [hlook j, if_neg (fun h => hj ((hrange j).mp h))]
    cases m.chunkMapping.lookup req.FileId <;> simp
  have hin : ∀ j : Int, 0 ≤ j ∧ j < req.TotalChunks →
      c.lookup j = some (replicasAt N j.toNat) := by
    intro j hj
    rw [hlook j, if_pos ((hrange j).mpr hj)]
  refine ⟨m', _, c, hcall, hc, inv.chunk_other, hout, ?_, ?_⟩
  · intro i hi
    refine ⟨replicasAt N i, ?_, ?_, ?_⟩
    · rw [hin (i : Int) ⟨by omega, hi⟩]
      simp
    · intro h1
      rw [(replicasAt_many (keyOrder_nodup hN) h1 i).1, getElem?_mod_eq hne i,
        getElem?_mod_eq hne (i + 1)]
      simp
    · intro h1
      have h0 := getElem?_mod_eq hne 0
      rw [h1, Nat.mod_one] at h0
      rw [replicasAt_one h1, h0]
      simp
  · intro g c0 j l hg hl
    by_cases hgf : g = req.FileId
    · subst hgf
      refine ⟨c, ?_⟩
      by_cases hj : 0 ≤ j ∧ j < req.TotalChunks
      · exact ⟨_, hc, hin j hj⟩
      · refine ⟨l, hc, ?_⟩
        rw [hout j hj, hg]
        simpa using hl
    · refine ⟨c0, l, ?_, hl⟩
      have := inv.chunk_other g hgf
      simp only at this
      rw [this, hg]

/-- Witness of C11: with registry `{A}`, file `f` recorded with one chunk, a second call
for three chunks. -/
theorem C11_witness :
    (KeyOrder oneChunkManager.nodes ["A"] ∧ ["A"] ≠ [] ∧ IsInt32 3) ∧
    ∃ m' resp chunks,
      oneChunkManager.GetNodesForChunks ["A"]
        { FileId := "f", TotalChunks := 3, FileType := "bin" } = some (m', .ok resp) ∧
      m'.chunkMapping.lookup "f" = some chunks ∧
      (∀ g, g ≠ "f" → m'.chunkMapping.lookup g = oneChunkManager.chunkMapping.lookup g) ∧
      (∀ j : Int, ¬ (0 ≤ j ∧ j < 3) →
        chunks.lookup j =
          (oneChunkManager.chunkMapping.lookup "f").bind (fun c => c.lookup j)) ∧
      (∀ i : Nat, (i : Int) < 3 →
        ∃ l, chunks.lookup (i : Int) = some l ∧
          (1 < ["A"].length → l.map some = [["A"][i % 1]?, ["A"][(i + 1) % 1]?]) ∧
          (["A"].length = 1 → l.map some = [["A"][0]?])) ∧
      (∀ g c0 j l, oneChunkManager.chunkMapping.lookup g = some c0 → c0.lookup j = some l →
        ∃ c1 l1, m'.chunkMapping.lookup g = some c1 ∧ c1.lookup j = some l1) :=
  ⟨⟨by decide, by decide, by decide⟩,
   C11_assignment_merges_never_drops oneChunkManager ["A"]
     { FileId := "f", TotalChunks := 3, FileType := "bin" }
     (by decide) (by decide) (by decide)⟩

/-- C19: placement depends only on the registry snapshot and the chunk count: two
`GetNodesForChunks` calls whose loops over the registry yield the same non-empty address
list `N`, with the same chunk count, made in any two manager states for any two file
identifiers and file types, return the same list of `(chunkIndex, nodeAddress)` pairs
and record the same replica list for every chunk index in `[0, t)`. -/
theorem C19_placement_depends_on_snapshot_and_count (m1 m2 : ManagerNode)
    (N : List String) (req1 req2 : GetNodesForChunksRequest) (hne : N ≠ [])
    (ht : IsInt32 req1.TotalChunks) (htt : req2.TotalChunks = req1.TotalChunks) :
    ∃ m1' m2' resp c1 c2,
      m1.GetNodesForChunks N req1 = some (m1', .ok resp) ∧
      m2.GetNodesForChunks N req2 = some (m2', .ok resp) ∧
      m1'.chunkMapping.lookup req1.FileId = some c1 ∧
      m2'.chunkMapping.lookup req2.FileId = some c2 ∧
      ∀ j : Int, 0 ≤ j → j < req1.TotalChunks →
        c1.lookup j = c2.lookup j ∧ (c1.lookup j).isSome := by
  obtain ⟨m1', hcall1, inv1⟩ := GetNodesForChunks_ok m1 hne req1 ht.2
  obtain ⟨m2', hcall2, inv2⟩ := GetNodesForChunks_ok m2 hne req2 (htt ▸ ht.2)
  obtain ⟨c1, hc1, hl1⟩ := inv1.chunk_file
  obtain ⟨c2, hc2, hl2⟩ := inv2.chunk_file
  rw [htt] at hcall2 hl2
  refine ⟨m1', m2', _, c1, c2, hcall1, hcall2, hc1, hc2, fun j h0 hj => ?_⟩
  have hcond : 0 ≤ j ∧ j < ((req1.TotalChunks.toNat : Nat) : Int) := by
    constructor <;> omega
  rw [hl1 j, hl2 j, if_pos hcond, if_pos hcond]
  exact ⟨rfl, rfl⟩

/-- Witness of C19: registries `{A}` in two different states, files `f` and `g`. -/
theorem C19_witness :
    (KeyOrder managerA.nodes ["A"] ∧ KeyOrder oneChunkManager.nodes ["A"] ∧
      ["A"] ≠ [] ∧ IsInt32 2) ∧
    ∃ m1' m2' resp c1 c2,
      managerA.GetNodesForChunks ["A"]
        { FileId := "g", TotalChunks := 2, FileType := "bin" } = some (m1', .ok resp) ∧
      oneChunkManager.GetNodesForChunks ["A"]
        { FileId := "f", TotalChunks := 2, FileType := "txt" } = some (m2', .ok resp) ∧
      m1'.chunkMapping.lookup "g" = some c1 ∧
      m2'.chunkMapping.lookup "f" = some c2 ∧
      ∀ j : Int, 0 ≤ j → j < 2 → c1.lookup j = c2.lookup j ∧ (c1.lookup j).isSome :=
  ⟨⟨by decide, by decide, by decide, by decide⟩,
   C19_placement_depends_on_snapshot_and_count managerA oneChunkManager ["A"]
     { FileId := "g", TotalChunks := 2, FileType := "bin" }
     { FileId := "f", TotalChunks := 2, FileType := "txt" }
     (by decide) (by decide) rfl⟩

/-- C20: `RegisterNode` always succeeds and only grows the registry: it returns the
confirmation message and no error, afterwards the members of the registry are exactly
the previous members and the new address, and the chunk map and the file-type map are
unchanged. -/
theorem C20_register_succeeds_and_only_grows (m : ManagerNode) (a : String) :
    (m.RegisterNode { NodeAddress := a }).2 =
      .ok { Message := "Node registered successfully" } ∧
    (∀ b, b ∈ (m.RegisterNode { NodeAddress := a }).1.nodes ↔ b = a ∨ b ∈ m.nodes) ∧
    (∀ b, b ∈ m.nodes → b ∈ (m.RegisterNode { NodeAddress := a }).1.nodes) ∧
    (m.RegisterNode { NodeAddress := a }).1.chunkMapping = m.chunkMapping ∧
    (m.RegisterNode { NodeAddress := a }).1.fileTypes = m.fileTypes := by
  refine ⟨rfl, ?_, ?_, rfl, rfl⟩
  · intro b
    simp [ManagerNode.RegisterNode, AList.mem_insert]
  · intro b hb
    simp [ManagerNode.RegisterNode, AList.mem_insert, hb]

/-! ## The chunk count of `UploadFile` -/

theorem wrapInt_of_range {x : Int} (h0 : -(2 ^ 63) ≤ x) (h1 : x < 2 ^ 63) :
    wrapInt x = x := by
  unfold wrapInt
  omega

/-- Without overflow the chunk count is the quotient `(S + C - 1) / C`. -/
theorem totalChunksOf_eq {S C : Int} (hS : 0 ≤ S) (hC : 1 ≤ C) (hb : S + C - 1 < 2 ^ 63) :
    totalChunksOf S C = (S + C - 1) / C := by
  have h1 : wrapInt (wrapInt (S + C) - 1) = S + C - 1 := by
    unfold wrapInt
    omega
  have hq0 : 0 ≤ (S + C - 1) / C := Int.ediv_nonneg (by omega) (by omega)
  have hqle : (S + C - 1) / C ≤ S + C - 1 := Int.ediv_le_self _ (by omega)
  unfold totalChunksOf
  rw [h1, Int.tdiv_eq_ediv (by omega) (by omega)]
  exact wrapInt_of_range (by omega) (by omega)

/-- The quotient `(S + C - 1) / C` is the ceiling of `S / C`. -/
theorem ceil_div_props {S C : Int} (hS : 0 ≤ S) (hC : 1 ≤ C) :
    S ≤ (S + C - 1) / C * C ∧ (∀ k : Int, S ≤ k * C → (S + C - 1) / C ≤ k) ∧
    ((S + C - 1) / C = 0 ↔ S = 0) ∧
    (0 < S → 1 ≤ S - ((S + C - 1) / C - 1) * C ∧ S - ((S + C - 1) / C - 1) * C ≤ C) := by
  have hdm := Int.ediv_add_emod (S + C - 1) C
  have hm0 := Int.emod_nonneg (S + C - 1) (show C ≠ 0 by omega)
  have hm1 := Int.emod_lt_of_pos (S + C - 1) (show 0 < C by omega)
  set q := (S + C - 1) / C with hq
  set r := (S + C - 1) % C with hr
  have hle : S ≤ q * C := by nlinarith
  refine ⟨hle, ?_, ?_, ?_⟩
  · intro k hk
    by_contra hlt
    have : k ≤ q - 1 := by omega
    nlinarith
  · constructor
    · intro h0
      rw [h0] at hle
      omega
    · intro h0
      subst h0
      by_contra hne
      have hq0 : 0 ≤ q := Int.ediv_nonneg (by omega) (by omega)
      have : 1 ≤ q := by omega
      nlinarith
  · intro hpos
    constructor <;> nlinarith

/-- C15, as stated, fails: for the file size `S = 2` and the chunk size
`C = 2^63 - 1`, both values of Go's 64-bit `int`, the sum `S + C - 1` overflows and the
computed chunk count is `-1`, which is not a `k` with `k * C ≥ S` (the ceiling of `S / C`
is 1). -/
theorem C15_counterexample :
    ((0 : Int) ≤ 2 ∧ (2 : Int) < 2 ^ 63 ∧
      (1 : Int) ≤ 9223372036854775807 ∧ (9223372036854775807 : Int) < 2 ^ 63) ∧
    totalChunksOf 2 9223372036854775807 = -1 ∧
    ¬ ((2 : Int) ≤ totalChunksOf 2 9223372036854775807 * 9223372036854775807) ∧
    (2 : Int) ≤ 1 * 9223372036854775807 :=
  ⟨by decide, by decide, by decide, by decide⟩

/-- C15, amended: for every file size `S ≥ 0` and chunk size `C ≥ 1` whose sum
`S + C - 1` fits Go's 64-bit `int`, the chunk count `UploadFile` computes is the
quotient `(S + C - 1) / C` and equals the ceiling of `S / C`: it is the least integer
`k` with `k * C ≥ S`, it is 0 exactly when `S = 0`, and the last chunk has between 1 and
`C` bytes. -/
theorem C15_chunk_count_is_ceiling (S C : Int) (hS : 0 ≤ S) (hC : 1 ≤ C)
    (hb : S + C - 1 < 2 ^ 63) :
    totalChunksOf S C = (S + C - 1) / C ∧
    S ≤ totalChunksOf S C * C ∧
    (∀ k : Int, S ≤ k * C → totalChunksOf S C ≤ k) ∧
    (totalChunksOf S C = 0 ↔ S = 0) ∧
    (0 < S → 1 ≤ S - (totalChunksOf S C - 1) * C ∧
      S - (totalChunksOf S C - 1) * C ≤ C) := by
  rw [totalChunksOf_eq hS hC hb]
  exact ⟨rfl, ceil_div_props hS hC⟩

/-- Witness of the amended C15: 5 bytes in chunks of 2 bytes are 3 chunks, the last of
1 byte. -/
theorem C15_witness :
    ((0 : Int) ≤ 5 ∧ (1 : Int) ≤ 2 ∧ (5 : Int) + 2 - 1 < 2 ^ 63) ∧
    (totalChunksOf 5 2 = (5 + 2 - 1) / 2 ∧
      (5 : Int) ≤ totalChunksOf 5 2 * 2 ∧
      (∀ k : Int, 5 ≤ k * 2 → totalChunksOf 5 2 ≤ k) ∧
      (totalChunksOf 5 2 = 0 ↔ (5 : Int) = 0) ∧
      ((0 : Int) < 5 → 1 ≤ 5 - (totalChunksOf 5 2 - 1) * 2 ∧
        5 - (totalChunksOf 5 2 - 1) * 2 ≤ 2)) ∧
    totalChunksOf 5 2 = 3 :=
  ⟨⟨by decide, by decide, by decide⟩,
   C15_chunk_count_is_ceiling 5 2 (by decide) (by decide) (by decide),
   by decide⟩

/-! ## Reading a chunk from its replicas -/

theorem tryReplicas_skip {σ : Type} (P : Payload σ) (s : σ) (fileID : String)
    (chunkId : Int) (pre rest : List String)
    (hpre : ∀ b ∈ pre, getBody (P.get s b fileID (toString chunkId)) = none) :
    tryReplicas P s fileID chunkId (pre ++ rest) =
      (pre.map (getRecordOf fileID chunkId) ++ (tryReplicas P s fileID chunkId rest).1,
        (tryReplicas P s fileID chunkId rest).2) := by
  induction pre with
  | nil => simp
  | cons b pre ih =>
    have hb : getBody (P.get s b fileID (toString chunkId)) = none :=
      hpre b (List.mem_cons_self _ _)
    have ih' := ih (fun c hc => hpre c (List.mem_cons_of_mem _ hc))
    show tryReplicas P s fileID chunkId (b :: (pre ++ rest)) = _
    simp only [tryReplicas, hb]
    rw [ih']
    rfl

/-- C13: read fallback in listed order: when the replica list of a chunk is
`pre ++ a :: post`, every replica in `pre` fails (a transport error, a status other than
200 or an unreadable body) and `a` answers with status 200 and the bytes `data`, then
`downloadChunkFromAvailableNodes` returns `data`; it has asked exactly the replicas of
`pre` and then `a`, in list order, and none after `a`. -/
theorem C13_first_answering_replica_supplies_chunk {σ : Type} (P : Payload σ) (s : σ)
    (fileID : String) (chunkInfo : ChunkLocationInfo) (pre : List String) (a : String)
    (post : List String) (data : Bytes)
    (hnodes : chunkInfo.Nodes = pre ++ a :: post)
    (hpre : ∀ b ∈ pre, getBody (P.get s b fileID (toString chunkInfo.ChunkId)) = none)
    (ha : getBody (P.get s a fileID (toString chunkInfo.ChunkId)) = some data) :
    (downloadChunkFromAvailableNodes P s fileID chunkInfo).2 = .ok data ∧
    (downloadChunkFromAvailableNodes P s fileID chunkInfo).1 =
      (pre ++ [a]).map (getRecordOf fileID chunkInfo.ChunkId) ∧
    (∀ err, getBody (.transportError err) = none) ∧
    (∀ code body, code ≠ 200 → getBody (.status code body) = none) ∧
    (∀ code, getBody (.status code none) = none) := by
  unfold downloadChunkFromAvailableNodes
  rw [hnodes, tryReplicas_skip P s fileID chunkInfo.ChunkId pre (a :: post) hpre]
  refine ⟨?_, ?_, fun _ => rfl, ?_, ?_⟩
  · simp [tryReplicas, ha]
  · simp [tryReplicas, ha, getRecordOf]
  · intro code body hcode
    simp [getBody, hcode]
  · intro code
    simp [getBody]

/-- Witness of C13 and the fallback scenario of the specification: the primary `A` does
not hold the chunk, the secondary `B` does, and the download yields the bytes of `B`. -/
theorem C13_witness :
    (({ ChunkId := 0, Nodes := ["A", "B"] } : ChunkLocationInfo).Nodes = ["A"] ++ "B" :: [] ∧
      (∀ b ∈ ["A"], getBody (idealNodes.get storeOnlyB b "f" (toString (0 : Int))) = none) ∧
      getBody (idealNodes.get storeOnlyB "B" "f" (toString (0 : Int))) = some [7, 8]) ∧
    ((downloadChunkFromAvailableNodes idealNodes storeOnlyB "f"
        { ChunkId := 0, Nodes := ["A", "B"] }).2 = .ok [7, 8] ∧
      (downloadChunkFromAvailableNodes idealNodes storeOnlyB "f"
        { ChunkId := 0, Nodes := ["A", "B"] }).1 =
        (["A"] ++ ["B"]).map (getRecordOf "f" 0) ∧
      (∀ err, getBody (.transportError err) = none) ∧
      (∀ code body, code ≠ 200 → getBody (.status code body) = none) ∧
      (∀ code, getBody (.status code none) = none)) :=
  ⟨⟨rfl, by decide, by decide⟩,
   C13_first_answering_replica_supplies_chunk idealNodes storeOnlyB "f"
     { ChunkId := 0, Nodes := ["A", "B"] } ["A"] "B" [] [7, 8] rfl (by decide) (by decide)⟩

/-! ## The chunk loop of `DownloadFile` -/

theorem GetChunkLocations_ok (m : ManagerNode) (order : List (Int × List String))
    (fileID : String) (c : GoMap Int (List String))
    (hrec : m.chunkMapping.lookup fileID = some c) :
    (m.GetChunkLocations order { FileId := fileID }).2 =
      .ok { Chunks := order.map chunkInfoOf,
            FileType := (m.fileTypes.lookup fileID).getD "" } := by
  unfold ManagerNode.GetChunkLocations
  simp only [hrec]
  rw [foldl_snoc_eq_map]
  simp [chunkInfoOf]

/-- For a file with a record, `DownloadFile` creates the output file and runs the chunk
loop over the entries in the order the manager returned them. -/
theorem DownloadFile_of_record {σ : Type} (P : Payload σ) (w : Cluster σ)
    (order : List (Int × List String)) (fileID : String) (chunkSize : Int)
    (c : GoMap Int (List String)) (hrec : w.manager.chunkMapping.lookup fileID = some c) :
    DownloadFile P w order fileID chunkSize =
      { outFile := some ("output." ++ (w.manager.fileTypes.lookup fileID).getD "",
          (downloadLoop P w.nodes fileID chunkSize (order.map chunkInfoOf) []).1),
        gets := (downloadLoop P w.nodes fileID chunkSize (order.map chunkInfoOf) []).2.1,
        err := (downloadLoop P w.nodes fileID chunkSize (order.map chunkInfoOf) []).2.2 } := by
  unfold DownloadFile
  rw [GetChunkLocations_ok w.manager order fileID c hrec]

theorem downloadLoop_cons_ok {σ : Type} (P : Payload σ) (s : σ) (fileID : String)
    (chunkSize : Int) (ci : ChunkLocationInfo) (rest : List ChunkLocationInfo)
    (out : Bytes) (gets : List GetRecord) (data : Bytes)
    (hd : downloadChunkFromAvailableNodes P s fileID ci = (gets, .ok data))
    (hoff : ¬ wrapInt (ci.ChunkId * chunkSize) < 0) :
    downloadLoop P s fileID chunkSize (ci :: rest) out =
      ((downloadLoop P s fileID chunkSize rest
          (writeAt out (wrapInt (ci.ChunkId * chunkSize)).toNat data)).1,
        gets ++ (downloadLoop P s fileID chunkSize rest
          (writeAt out (wrapInt (ci.ChunkId * chunkSize)).toNat data)).2.1,
        (downloadLoop P s fileID chunkSize rest
          (writeAt out (wrapInt (ci.ChunkId * chunkSize)).toNat data)).2.2) := by
  simp only [downloadLoop, hd, hoff, if_false]

theorem PushRun.nil {σ : Type} (P : Payload σ) (s : σ) : PushRun P s [] s none where
  replay := rfl
  all_ok := fun _ p hp => by cases hp
  faithful := fun pre p post h => by simp at h
  abort := fun pre p post h => by simp at h

theorem UploadChunk_cons_fail {σ : Type} (P : Payload σ) (chunk : Bytes)
    (fileID chunkID : String) (a : String) (rest : List String) (s : σ) (e : String)
    (hp : postError (P.post s a fileID chunkID chunk).2 = some e) :
    UploadChunk P chunk fileID chunkID (a :: rest) s =
      ((P.post s a fileID chunkID chunk).1,
        [{ nodeAddress := a, fileID := fileID, chunkID := chunkID, chunk := chunk,
           ok := false }], some e) := by
  simp only [UploadChunk, hp]

theorem UploadChunk_cons_ok {σ : Type} (P : Payload σ) (chunk : Bytes)
    (fileID chunkID : String) (a : String) (rest : List String) (s : σ)
    (hp : postError (P.post s a fileID chunkID chunk).2 = none) :
    UploadChunk P chunk fileID chunkID (a :: rest) s =
      ((UploadChunk P chunk fileID chunkID rest (P.post s a fileID chunkID chunk).1).1,
        { nodeAddress := a, fileID := fileID, chunkID := chunkID, chunk := chunk,
          ok := true } ::
          (UploadChunk P chunk fileID chunkID rest (P.post s a fileID chunkID chunk).1).2.1,
        (UploadChunk P chunk fileID chunkID rest (P.post s a fileID chunkID chunk).1).2.2) := by
  simp only [UploadChunk, hp]

/-- With no fault of the call and messages within the receive limit, the client gets the
plan the manager returns. -/
theorem Client.GetNodesForChunks_of_plan (m m1 : ManagerNode) (order : List String)
    (fileID fileType : String) (totalChunks : Int) (resp : GetNodesForChunksResponse)
    (hreq : GetNodesForChunksRequest.wireSize ⟨fileID, toInt32 totalChunks, fileType⟩ ≤
      maxReceiveMessageSize)
    (hcall : m.GetNodesForChunks order
      { FileId := fileID, TotalChunks := toInt32 totalChunks, FileType := fileType } =
      some (m1, .ok resp))
    (hresp : resp.wireSize ≤ maxReceiveMessageSize) :
    Client.GetNodesForChunks m order none fileID totalChunks fileType =
      some (m1, .ok resp.Nodes) := by
  unfold Client.GetNodesForChunks
  simp only [hcall, Nat.not_lt.mpr hreq, Nat.not_lt.mpr hresp, if_false]

theorem writeAt_nil (out : Bytes) (off : Nat) : writeAt out off [] = out := by
  simp [writeAt]

theorem length_writeAt (out : Bytes) (off : Nat) (data : Bytes) (hd : data.length ≠ 0) :
    (writeAt out off data).length = max out.length (off + data.length) := by
  simp only [writeAt, hd, if_false, List.length_append, List.length_take, List.length_replicate,
    List.length_drop]
  omega

theorem getElem?_writeAt (out : Bytes) (off : Nat) (data : Bytes) (hd : data.length ≠ 0)
    (k : Nat) :
    (writeAt out off data)[k]? =
      if off ≤ k ∧ k < off + data.length then data[k - off]?
      else if k < out.length then out[k]?
      else if k < off then some 0 else none := by
  simp only [writeAt, hd, if_false]
  have hlen1 : ((out ++ List.replicate (off - out.length) 0).take off).length = off := by
    simp only [List.length_take, List.length_append, List.length_replicate]
    omega
  by_cases h1 : k < off
  · have hc : ¬ (off ≤ k ∧ k < off + data.length) := by omega
    rw [if_neg hc, List.append_assoc, List.getElem?_append_left (by omega), List.getElem?_take,
      if_pos h1, List.getElem?_append]
    by_cases h2 : k < out.length
    · simp [h2]
    · rw [if_neg h2, if_neg h2, List.getElem?_replicate]
      have : k - out.length < off - out.length := by omega
      simp [this, h1]
  · by_cases h2 : k < off + data.length
    · have hc : off ≤ k ∧ k < off + data.length := by omega
      rw [if_pos hc, List.append_assoc, List.getElem?_append_right (by omega), hlen1,
        List.getElem?_append_left (by omega)]
    · have hc : ¬ (off ≤ k ∧ k < off + data.length) := by omega
      rw [if_neg hc, List.getElem?_append_right (by simp only [List.length_append, hlen1]; omega)]
      simp only [List.length_append, hlen1, List.getElem?_drop]
      have : off + data.length + (k - (off + data.length)) = k := by omega
      rw [this]
      by_cases h3 : k < out.length
      · simp [h3]
      · simp only [h3, if_false, h1]
        exact List.getElem?_eq_none (by omega)

theorem writeAt_comm (out : Bytes) (o1 : Nat) (d1 : Bytes) (o2 : Nat) (d2 : Bytes)
    (hdisj : o1 + d1.length ≤ o2 ∨ o2 + d2.length ≤ o1) :
    writeAt (writeAt out o1 d1) o2 d2 = writeAt (writeAt out o2 d2) o1 d1 := by
  by_cases h1 : d1.length = 0
  · have : d1 = [] := List.length_eq_zero.mp h1
    subst this
    simp [writeAt_nil]
  by_cases h2 : d2.length = 0
  · have : d2 = [] := List.length_eq_zero.mp h2
    subst this
    simp [writeAt_nil]
  apply List.ext_getElem?
  intro k
  rw [getElem?_writeAt _ _ _ h2, getElem?_writeAt _ _ _ h1, getElem?_writeAt _ _ _ h1,
    getElem?_writeAt _ _ _ h2, length_writeAt _ _ _ h1, length_writeAt _ _ _ h2]
  by_cases c1 : o1 ≤ k ∧ k < o1 + d1.length
  · have c2 : ¬ (o2 ≤ k ∧ k < o2 + d2.length) := by omega
    have c3 : k < max out.length (o1 + d1.length) := by omega
    simp only [c1, c2, c3, and_self, if_true, if_false]
  · by_cases c2 : o2 ≤ k ∧ k < o2 + d2.length
    · have c3 : k < max out.length (o2 + d2.length) := by omega
      simp only [c1, c2, c3, and_self, if_true, if_false]
    · simp only [c1, c2, if_false]
      by_cases c3 : k < out.length
      · have c4 : k < max out.length (o1 + d1.length) := by omega
        have c5 : k < max out.length (o2 + d2.length) := by omega
        simp only [c3, c4, c5, if_true]
      · simp only [c3, if_false]
        by_cases c4 : k < max out.length (o1 + d1.length)
        · by_cases c5 : k < max out.length (o2 + d2.length)
          · simp only [c4, c5, if_true]
            have : k < o1 := by omega
            have : k < o2 := by omega
            simp [*]
          · simp only [c4, c5, if_true, if_false]
        · by_cases c5 : k < max out.length (o2 + d2.length)
          · simp only [c4, c5, if_true, if_false]
          · simp only [c4, c5, if_false]
            have : ¬ k < o1 := by omega
            have : ¬ k < o2 := by omega
            simp [*]

theorem writeAll_perm (out : Bytes) (ws1 ws2 : List (Nat × Bytes)) (hperm : ws1.Perm ws2)
    (hdisj : ∀ x ∈ ws1, ∀ y ∈ ws1, x ≠ y → DisjointWrites x y) :
    writeAll out ws1 = writeAll out ws2 := by
  unfold writeAll
  refine List.Perm.foldl_eq' hperm ?_ out
  intro x hx y hy z
  by_cases hxy : x = y
  · subst hxy
    rfl
  · exact writeAt_comm z x.1 x.2 y.1 y.2 (hdisj x hx y hy hxy)

theorem writeAll_append (out : Bytes) (ws1 ws2 : List (Nat × Bytes)) :
    writeAll out (ws1 ++ ws2) = writeAll (writeAll out ws1) ws2 := by
  simp [writeAll, List.foldl_append]

/-- When every fetch succeeds and no offset is negative, the chunk loop of `DownloadFile`
performs the positional writes of its entries in order and returns no error. -/
theorem downloadLoop_writes {σ : Type} (P : Payload σ) (s : σ) (fileID : String)
    (chunkSize : Int) (L : List (Int × List String)) (out : Bytes)
    (hfetch : ∀ e ∈ L, ∃ d,
      (downloadChunkFromAvailableNodes P s fileID (chunkInfoOf e)).2 = .ok d)
    (hoff : ∀ e ∈ L, ¬ wrapInt (e.1 * chunkSize) < 0) :
    (downloadLoop P s fileID chunkSize (L.map chunkInfoOf) out).1 =
      writeAll out (L.map (writeOf P s fileID chunkSize)) ∧
    (downloadLoop P s fileID chunkSize (L.map chunkInfoOf) out).2.2 = none := by
  induction L generalizing out with
  | nil => exact ⟨rfl, rfl⟩
  | cons e L ih =>
    obtain ⟨d, hd⟩ := hfetch e (List.mem_cons_self _ _)
    have hd2 : downloadChunkFromAvailableNodes P s fileID (chunkInfoOf e) =
        ((downloadChunkFromAvailableNodes P s fileID (chunkInfoOf e)).1, .ok d) := by
      rw [← hd]
    have ho := hoff e (List.mem_cons_self _ _)
    have ih' := ih (writeAt out (wrapInt (e.1 * chunkSize)).toNat d)
      (fun x hx => hfetch x (List.mem_cons_of_mem _ hx))
      (fun x hx => hoff x (List.mem_cons_of_mem _ hx))
    rw [List.map_cons, downloadLoop_cons_ok P s fileID chunkSize (chunkInfoOf e) _ out _ d
      hd2 ho]
    have hw : writeOf P s fileID chunkSize e = ((wrapInt (e.1 * chunkSize)).toNat, d) := by
      simp [writeOf, fetchedData, hd]
    refine ⟨?_, ih'.2⟩
    rw [List.map_cons, hw]
    exact ih'.1

/-- Entries with distinct non-negative chunk indices whose offsets do not overflow and
whose data have at most `chunkSize` bytes are written to disjoint byte ranges. -/
theorem writes_disjoint {σ : Type} (P : Payload σ) (s : σ) (fileID : String)
    (chunkSize : Int) (L : List (Int × List String))
    (hdistinct : (L.map Prod.fst).Nodup) (hC : 1 ≤ chunkSize)
    (hidx : ∀ e ∈ L, 0 ≤ e.1 ∧ e.1 * chunkSize < 2 ^ 63)
    (hlen : ∀ e ∈ L, ((fetchedData P s fileID e).length : Int) ≤ chunkSize) :
    ∀ x ∈ L.map (writeOf P s fileID chunkSize), ∀ y ∈ L.map (writeOf P s fileID chunkSize),
      x ≠ y → DisjointWrites x y := by
  intro x hx y hy hxy
  obtain ⟨e1, he1, rfl⟩ := List.mem_map.mp hx
  obtain ⟨e2, he2, rfl⟩ := List.mem_map.mp hy
  have hne : e1.1 ≠ e2.1 := by
    intro h
    have : e1 = e2 := List.inj_on_of_nodup_map hdistinct he1 he2 h
    exact hxy (by rw [this])
  obtain ⟨h10, h1b⟩ := hidx e1 he1
  obtain ⟨h20, h2b⟩ := hidx e2 he2
  have hl1 := hlen e1 he1
  have hl2 := hlen e2 he2
  have hp1 : 0 ≤ e1.1 * chunkSize := Int.mul_nonneg h10 (by omega)
  have hp2 : 0 ≤ e2.1 * chunkSize := Int.mul_nonneg h20 (by omega)
  have hw1 : wrapInt (e1.1 * chunkSize) = e1.1 * chunkSize :=
    wrapInt_of_range (by omega) h1b
  have hw2 : wrapInt (e2.1 * chunkSize) = e2.1 * chunkSize :=
    wrapInt_of_range (by omega) h2b
  unfold DisjointWrites writeOf
  simp only [hw1, hw2]
  rcases lt_or_gt_of_ne hne with hlt | hgt
  · left
    have : e1.1 * chunkSize + chunkSize ≤ e2.1 * chunkSize := by nlinarith
    omega
  · right
    have : e2.1 * chunkSize + chunkSize ≤ e1.1 * chunkSize := by nlinarith
    omega

theorem digitVal_digitChar {k : Nat} (h : k < 10) : digitVal (Nat.digitChar k) = k := by
  interval_cases k <;> rfl

/-- The digits `Nat.toDigitsCore` puts in front of `ds` denote `n`. -/
theorem toDigitsCore_eq (fuel n : Nat) (ds : List Char) (h : n < fuel) :
    ∃ front, Nat.toDigitsCore 10 fuel n ds = front ++ ds ∧ decodeDigits front = n := by
  induction fuel generalizing n ds with
  | zero => omega
  | succ fuel ih =>
    simp only [Nat.toDigitsCore]
    by_cases h0 : n / 10 = 0
    · simp only [h0, if_true]
      refine ⟨[Nat.digitChar (n % 10)], rfl, ?_⟩
      have hlt : n % 10 < 10 := Nat.mod_lt _ (by decide)
      simp only [decodeDigits, List.foldl_cons, List.foldl_nil, digitVal_digitChar hlt]
      omega
    · simp only [h0, if_false]
      obtain ⟨front, hf, hd⟩ := ih (n / 10) (Nat.digitChar (n % 10) :: ds) (by omega)
      refine ⟨front ++ [Nat.digitChar (n % 10)], by simp [hf], ?_⟩
      have hlt : n % 10 < 10 := Nat.mod_lt _ (by decide)
      simp only [decodeDigits, List.foldl_append, List.foldl_cons, List.foldl_nil] at hd ⊢
      rw [hd, digitVal_digitChar hlt]
      omega

theorem decode_repr (n : Nat) : decodeDigits (Nat.repr n).data = n := by
  obtain ⟨front, hf, hd⟩ := toDigitsCore_eq (n + 1) n [] (by omega)
  simp only [Nat.repr, Nat.toDigits, List.asString, hf, List.append_nil]
  exact hd

/-- The decimal string of a chunk index determines the index. -/
theorem toString_nat_injective {a b : Nat} (h : toString a = toString b) : a = b := by
  have h1 : Nat.repr a = Nat.repr b := h
  rw [← decode_repr a, ← decode_repr b, h1]

/-! ## The pushes of a successful upload -/

theorem mem_planOf {N : List String} {k : Nat} {node : ChunkNodeInfo}
    (h : node ∈ planOf N k) : ∃ j, j < k ∧ node.ChunkId = (j : Int) := by
  unfold planOf at h
  obtain ⟨j, hj, hnode⟩ := List.mem_flatMap.mp h
  refine ⟨j, List.mem_range.mp hj, ?_⟩
  simp only [List.mem_cons, List.mem_singleton, List.not_mem_nil, or_false] at hnode
  rcases hnode with rfl | rfl <;> rfl

theorem chunkAt_length (content : Bytes) (chunkSize i : Nat) :
    (chunkAt content chunkSize i).length = min chunkSize (content.length - i * chunkSize) := by
  simp [chunkAt]

theorem chunkAt_drop (content : Bytes) (chunkSize j : Nat) :
    chunkAt (content.drop chunkSize) chunkSize j = chunkAt content chunkSize (j + 1) := by
  simp only [chunkAt, List.drop_drop]
  congr 2
  ring

theorem uploadLoop_break {σ : Type} (P : Payload σ) (plan : List ChunkNodeInfo)
    (fileID : String) (chunkSize : Nat) (k i : Nat) (rest : Bytes) (s : σ)
    (hn : (rest.take chunkSize).length = 0) :
    uploadLoop P plan fileID chunkSize (k + 1) i rest s = (s, [], none) := by
  simp only [uploadLoop, hn, if_true]

theorem uploadLoop_fail {σ : Type} (P : Payload σ) (plan : List ChunkNodeInfo)
    (fileID : String) (chunkSize : Nat) (k i : Nat) (rest : Bytes) (s : σ) (e : String)
    (hn : (rest.take chunkSize).length ≠ 0)
    (hu : (UploadChunk P (rest.take chunkSize) fileID (toString i)
      ((plan.filter (fun node => node.ChunkId = toInt32 i)).map
        (fun node => node.NodeAddress)) s).2.2 = some e) :
    (uploadLoop P plan fileID chunkSize (k + 1) i rest s).2.2 =
      some ("failed to upload chunk: " ++ e) := by
  simp only [uploadLoop, hn, if_false]
  cases hc : UploadChunk P (rest.take chunkSize) fileID (toString i)
      ((plan.filter (fun node => node.ChunkId = toInt32 i)).map
        (fun node => node.NodeAddress)) s with
  | mk s1 lr =>
    obtain ⟨log, r⟩ := lr
    rw [hc] at hu
    simp only at hu
    subst hu
    rfl

theorem uploadLoop_ok {σ : Type} (P : Payload σ) (plan : List ChunkNodeInfo)
    (fileID : String) (chunkSize : Nat) (k i : Nat) (rest : Bytes) (s : σ)
    (hn : (rest.take chunkSize).length ≠ 0)
    (hu : (UploadChunk P (rest.take chunkSize) fileID (toString i)
      ((plan.filter (fun node => node.ChunkId = toInt32 i)).map
        (fun node => node.NodeAddress)) s).2.2 = none) :
    uploadLoop P plan fileID chunkSize (k + 1) i rest s =
      ((uploadLoop P plan fileID chunkSize k (i + 1) (rest.drop chunkSize)
          (UploadChunk P (rest.take chunkSize) fileID (toString i)
            ((plan.filter (fun node => node.ChunkId = toInt32 i)).map
              (fun node => node.NodeAddress)) s).1).1,
        (UploadChunk P (rest.take chunkSize) fileID (toString i)
            ((plan.filter (fun node => node.ChunkId = toInt32 i)).map
              (fun node => node.NodeAddress)) s).2.1 ++
          (uploadLoop P plan fileID chunkSize k (i + 1) (rest.drop chunkSize)
            (UploadChunk P (rest.take chunkSize) fileID (toString i)
              ((plan.filter (fun node => node.ChunkId = toInt32 i)).map
                (fun node => node.NodeAddress)) s).1).2.1,
        (uploadLoop P plan fileID chunkSize k (i + 1) (rest.drop chunkSize)
          (UploadChunk P (rest.take chunkSize) fileID (toString i)
            ((plan.filter (fun node => node.ChunkId = toInt32 i)).map
              (fun node => node.NodeAddress)) s).1).2.2) := by
  simp only [uploadLoop, hn, if_false]
  cases hc : UploadChunk P (rest.take chunkSize) fileID (toString i)
      ((plan.filter (fun node => node.ChunkId = toInt32 i)).map
        (fun node => node.NodeAddress)) s with
  | mk s1 lr =>
    obtain ⟨log, r⟩ := lr
    rw [hc] at hu
    simp only at hu
    subst hu
    rfl

theorem goString_append (s t : String) : goString (s ++ t) = goString s ++ goString t := by
  unfold goString
  rw [String.data_append, List.flatMap_append]

theorem cutBytes_of_not_mem (sep : Nat) (l : GoString) (h : sep ∉ l) :
    cutBytes sep l = (l, none) := by
  induction l with
  | nil => rfl
  | cons b rest ih =>
    have hb : b ≠ sep := fun hb => h (hb ▸ List.mem_cons_self _ _)
    have hrest : sep ∉ rest := fun hr => h (List.mem_cons_of_mem _ hr)
    simp only [cutBytes, hb, if_false, ih hrest]

theorem cutBytes_append {sep : Nat} {l : GoString} (r : GoString) (h : sep ∉ l) :
    cutBytes sep (l ++ sep :: r) = (l, some r) := by
  induction l with
  | nil => simp [cutBytes]
  | cons b rest ih =>
    have hb : b ≠ sep := fun hb => h (hb ▸ List.mem_cons_self _ _)
    have hrest : sep ∉ rest := fun hr => h (List.mem_cons_of_mem _ hr)
    rw [List.cons_append]
    simp only [cutBytes, hb, if_false]
    rw [ih hrest]

theorem splitBytes_of_not_mem {sep : Nat} {l : GoString} (cur : GoString) (h : sep ∉ l) :
    splitBytes sep l cur = [cur.reverse ++ l] := by
  induction l generalizing cur with
  | nil => simp [splitBytes]
  | cons b rest ih =>
    have hb : b ≠ sep := fun hb => h (hb ▸ List.mem_cons_self _ _)
    have hrest : sep ∉ rest := fun hr => h (List.mem_cons_of_mem _ hr)
    simp only [splitBytes, hb, if_false, ih (b :: cur) hrest]
    simp

theorem splitBytes_append {sep : Nat} {l : GoString} (cur r : GoString) (h : sep ∉ l) :
    splitBytes sep (l ++ sep :: r) cur = (cur.reverse ++ l) :: splitBytes sep r [] := by
  induction l generalizing cur with
  | nil => simp [splitBytes]
  | cons b rest ih =>
    have hb : b ≠ sep := fun hb => h (hb ▸ List.mem_cons_self _ _)
    have hrest : sep ∉ rest := fun hr => h (List.mem_cons_of_mem _ hr)
    rw [List.cons_append]
    simp only [splitBytes, hb, if_false]
    rw [ih (b :: cur) hrest]
    simp

theorem unescapeFrom_plain (l : GoString) (h : ∀ b ∈ l, b ≠ 37 ∧ b ≠ 43) :
    unescapeFrom 0 0 l = some l := by
  induction l with
  | nil => rfl
  | cons b rest ih =>
    have hb := h b (List.mem_cons_self _ _)
    have hrest := ih (fun c hc => h c (List.mem_cons_of_mem _ hc))
    simp only [unescapeFrom, if_true, hb.1, hb.2, if_false, hrest, Option.map_some']

theorem plainByte_spec {b : Nat} (h : plainByte b = true) :
    32 < b ∧ b ≠ 35 ∧ b ≠ 37 ∧ b ≠ 38 ∧ b ≠ 43 ∧ b ≠ 59 ∧ b ≠ 127 := by
  simp only [plainByte, Bool.and_eq_true, decide_eq_true_eq, bne_iff_ne, ne_eq] at h
  obtain ⟨⟨⟨⟨⟨⟨h1, h2⟩, h3⟩, h4⟩, h5⟩, h6⟩, h7⟩ := h
  exact ⟨h1, h2, h3, h4, h5, h6, h7⟩


theorem deliver_plain (base fileID chunkID : String)
    (hbase : ∀ b ∈ goString base, 32 < b ∧ b ≠ 35 ∧ b ≠ 127)
    (hf : (goString fileID).all plainByte = true)
    (hc : (goString chunkID).all plainByte = true)
    (hlen : (goString fileID).length + (goString chunkID).length ≤ 1048558) :
    deliver base fileID chunkID = .handled (goString fileID) (goString chunkID) := by
  have hF : ∀ b ∈ goString fileID,
      32 < b ∧ b ≠ 35 ∧ b ≠ 37 ∧ b ≠ 38 ∧ b ≠ 43 ∧ b ≠ 59 ∧ b ≠ 127 :=
    fun b hb => plainByte_spec (List.all_eq_true.mp hf b hb)
  have hC : ∀ b ∈ goString chunkID,
      32 < b ∧ b ≠ 35 ∧ b ≠ 37 ∧ b ≠ 38 ∧ b ≠ 43 ∧ b ≠ 59 ∧ b ≠ 127 :=
    fun b hb => plainByte_spec (List.all_eq_true.mp hc b hb)
  have hk0 : goString "?file_id=" = [63, 102, 105, 108, 101, 95, 105, 100, 61] := by decide
  have hk1 : goString "file_id=" = [102, 105, 108, 101, 95, 105, 100, 61] := by decide
  have hk2 : goString "&chunk_id=" = [38, 99, 104, 117, 110, 107, 95, 105, 100, 61] := by
    decide
  have hk3 : goString "file_id" = [102, 105, 108, 101, 95, 105, 100] := by decide
  have hk4 : goString "chunk_id" = [99, 104, 117, 110, 107, 95, 105, 100] := by decide
  have hU : goString (base ++ "?file_id=" ++ fileID ++ "&chunk_id=" ++ chunkID) =
      goString base ++ ([63, 102, 105, 108, 101, 95, 105, 100, 61] ++ (goString fileID ++
        ([38, 99, 104, 117, 110, 107, 95, 105, 100, 61] ++ goString chunkID))) := by
    simp only [goString_append, hk0, hk2, List.append_assoc]
  have hQ : goString ("file_id=" ++ fileID ++ "&chunk_id=" ++ chunkID) =
      ([102, 105, 108, 101, 95, 105, 100, 61] ++ goString fileID) ++
        38 :: ([99, 104, 117, 110, 107, 95, 105, 100, 61] ++ goString chunkID) := by
    simp only [goString_append, hk1, hk2, List.append_assoc, List.cons_append,
      List.nil_append]
  have hmemQ : ∀ b ∈ goString ("file_id=" ++ fileID ++ "&chunk_id=" ++ chunkID),
      32 < b ∧ b ≠ 35 ∧ b ≠ 127 := by
    intro b hb
    rw [hQ] at hb
    simp only [List.mem_append, List.mem_cons, List.not_mem_nil, or_false] at hb
    rcases hb with (hb | hb) | hb | hb | hb
    · rcases hb with rfl | rfl | rfl | rfl | rfl | rfl | rfl | rfl <;> decide
    · exact ⟨(hF b hb).1, (hF b hb).2.1, (hF b hb).2.2.2.2.2.2⟩
    · subst hb; decide
    · rcases hb with rfl | rfl | rfl | rfl | rfl | rfl | rfl | rfl | rfl <;> decide
    · exact ⟨(hC b hb).1, (hC b hb).2.1, (hC b hb).2.2.2.2.2.2⟩
  have hmemU : ∀ b ∈ goString (base ++ "?file_id=" ++ fileID ++ "&chunk_id=" ++ chunkID),
      32 < b ∧ b ≠ 35 ∧ b ≠ 127 := by
    intro b hb
    have hsplit : goString (base ++ "?file_id=" ++ fileID ++ "&chunk_id=" ++ chunkID) =
        goString base ++ 63 :: goString ("file_id=" ++ fileID ++ "&chunk_id=" ++ chunkID) := by
      rw [hU, hQ]
      simp only [List.append_assoc, List.cons_append, List.nil_append]
    rw [hsplit] at hb
    rcases List.mem_append.mp hb with hb | hb
    · exact hbase b hb
    · rcases List.mem_cons.mp hb with hb | hb
      · subst hb; decide
      · exact hmemQ b hb
  have hcutU := cutBytes_of_not_mem 35
    (goString (base ++ "?file_id=" ++ fileID ++ "&chunk_id=" ++ chunkID))
    (fun h => (hmemU 35 h).2.1 rfl)
  have hcutQ := cutBytes_of_not_mem 35
    (goString ("file_id=" ++ fileID ++ "&chunk_id=" ++ chunkID))
    (fun h => (hmemQ 35 h).2.1 rfl)
  have hctl : (goString (base ++ "?file_id=" ++ fileID ++ "&chunk_id=" ++ chunkID)).any
      (fun b => decide (b < 32 ∨ b = 127)) = false := by
    rw [List.any_eq_false]
    intro b hb
    have := hmemU b hb
    simp only [decide_eq_true_eq, not_or]
    omega
  have hlenQ : ¬ 1048576 <
      (goString ("file_id=" ++ fileID ++ "&chunk_id=" ++ chunkID)).length := by
    rw [hQ]
    simp only [List.length_append, List.length_cons, List.length_nil]
    omega
  have hsp : 32 ∉ goString ("file_id=" ++ fileID ++ "&chunk_id=" ++ chunkID) :=
    fun h => absurd (hmemQ 32 h).1 (by decide)
  have hparse : ParseQuery (goString ("file_id=" ++ fileID ++ "&chunk_id=" ++ chunkID)) =
      [(goString "file_id", goString fileID), (goString "chunk_id", goString chunkID)] := by
    have h38 : 38 ∉ [102, 105, 108, 101, 95, 105, 100, 61] ++ goString fileID := by
      intro h
      rcases List.mem_append.mp h with h | h
      · revert h; decide
      · exact (hF 38 h).2.2.2.1 rfl
    have h38c : 38 ∉ [99, 104, 117, 110, 107, 95, 105, 100, 61] ++ goString chunkID := by
      intro h
      rcases List.mem_append.mp h with h | h
      · revert h; decide
      · exact (hC 38 h).2.2.2.1 rfl
    have hpair : ∀ (key value : GoString), 59 ∉ key → 61 ∉ key → key ≠ [] →
        (∀ b ∈ key, b ≠ 37 ∧ b ≠ 43) →
        (∀ b ∈ value, b ≠ 37 ∧ b ≠ 43 ∧ b ≠ 59) →
        parsePair (key ++ 61 :: value) = some (key, value) := by
      intro key value h59 h61 hne hkey hval
      unfold parsePair
      have hno : ¬ (59 ∈ key ++ 61 :: value ∨ key ++ 61 :: value = []) := by
        rintro (h | h)
        · rcases List.mem_append.mp h with h | h
          · exact h59 h
          · rcases List.mem_cons.mp h with h | h
            · cases h
            · exact (hval 59 h).2.2 rfl
        · simp at h
      rw [if_neg hno, cutBytes_append value h61]
      simp only [Option.getD_some, QueryUnescape]
      rw [unescapeFrom_plain key hkey,
        unescapeFrom_plain value (fun b hb => ⟨(hval b hb).1, (hval b hb).2.1⟩)]
    unfold ParseQuery
    rw [hQ, splitBytes_append [] _ h38, splitBytes_of_not_mem [] h38c]
    have e1 : ([] : GoString).reverse ++ ([102, 105, 108, 101, 95, 105, 100, 61] ++
        goString fileID) = [102, 105, 108, 101, 95, 105, 100] ++ 61 :: goString fileID := rfl
    have e2 : ([] : GoString).reverse ++ ([99, 104, 117, 110, 107, 95, 105, 100, 61] ++
        goString chunkID) = [99, 104, 117, 110, 107, 95, 105, 100] ++ 61 :: goString chunkID :=
      rfl
    rw [e1, e2, hk3, hk4]
    simp only [List.filterMap_cons, List.filterMap_nil]
    rw [hpair _ _ (by decide) (by decide) (by decide) (by decide)
        (fun b hb => ⟨(hF b hb).2.2.1, (hF b hb).2.2.2.2.1, (hF b hb).2.2.2.2.2.1⟩),
      hpair _ _ (by decide) (by decide) (by decide) (by decide)
        (fun b hb => ⟨(hC b hb).2.2.1, (hC b hb).2.2.2.2.1, (hC b hb).2.2.2.2.2.1⟩)]
  unfold deliver
  rw [hcutU, hcutQ]
  have hfrag : (QueryUnescape ((none : Option GoString).getD [])).isNone = false := rfl
  have hget1 : Get [(goString "file_id", goString fileID),
      (goString "chunk_id", goString chunkID)] (goString "file_id") = goString fileID := by
    simp [Get]
  have hget2 : Get [(goString "file_id", goString fileID),
      (goString "chunk_id", goString chunkID)] (goString "chunk_id") = goString chunkID := by
    have hne : goString "file_id" ≠ goString "chunk_id" := by decide
    simp [Get, hne]
  simp only [hctl, hlenQ, hsp, hparse, hfrag, hget1, hget2, if_false, Bool.false_eq_true]



theorem digitChar_isDigit {k : Nat} (h : k < 10) : (Nat.digitChar k).isDigit = true := by
  interval_cases k <;> rfl

theorem toDigitsCore_isDigit (fuel n : Nat) (ds : List Char)
    (hds : ∀ ch ∈ ds, ch.isDigit = true) :
    ∀ ch ∈ Nat.toDigitsCore 10 fuel n ds, ch.isDigit = true := by
  induction fuel generalizing n ds with
  | zero => simpa [Nat.toDigitsCore] using hds
  | succ fuel ih =>
    have hlt : n % 10 < 10 := Nat.mod_lt _ (by decide)
    have hds2 : ∀ ch ∈ Nat.digitChar (n % 10) :: ds, ch.isDigit = true := by
      intro ch hch
      rcases List.mem_cons.mp hch with rfl | hch
      · exact digitChar_isDigit hlt
      · exact hds ch hch
    simp only [Nat.toDigitsCore]
    by_cases h0 : n / 10 = 0
    · simp only [h0, if_true]
      exact hds2
    · simp only [h0, if_false]
      exact ih (n / 10) _ hds2

/-- The decimal string of a chunk index consists of digits. -/
theorem toString_nat_isDigit (n : Nat) : ∀ ch ∈ (toString n).data, ch.isDigit = true := by
  have h := toDigitsCore_isDigit (n + 1) n [] (by simp)
  exact h

theorem isDigit_toNat {ch : Char} (h : ch.isDigit = true) : 48 ≤ ch.toNat ∧ ch.toNat ≤ 57 := by
  simp only [Char.isDigit, Bool.and_eq_true, decide_eq_true_eq] at h
  exact ⟨h.1, h.2⟩

theorem toDigitsCore_length (fuel n : Nat) (ds : List Char) (k : Nat) (hk : 1 ≤ k)
    (hn : n < 10 ^ k) : (Nat.toDigitsCore 10 fuel n ds).length ≤ ds.length + k := by
  induction fuel generalizing n ds k with
  | zero => simp [Nat.toDigitsCore]
  | succ fuel ih =>
    simp only [Nat.toDigitsCore]
    by_cases h0 : n / 10 = 0
    · simp only [h0, if_true, List.length_cons]
      omega
    · simp only [h0, if_false]
      have hk2 : 2 ≤ k := by
        by_contra hlt
        have hk1 : k = 1 := by omega
        subst hk1
        have : n / 10 = 0 := Nat.div_eq_of_lt (by simpa using hn)
        exact h0 this
      have hdiv : n / 10 < 10 ^ (k - 1) := by
        apply Nat.div_lt_of_lt_mul
        have : 10 ^ k = 10 * 10 ^ (k - 1) := by
          rw [← Nat.pow_succ']
          congr 1
          omega
        omega
      have := ih (n / 10) (Nat.digitChar (n % 10) :: ds) (k - 1) (by omega) hdiv
      simp only [List.length_cons] at this
      omega

/-- The decimal string of a chunk index is made of the bytes of its digits. -/
theorem goString_decimal (n : Nat) :
    goString (toString n) = (toString n).data.map Char.toNat := by
  unfold goString
  have h := toString_nat_isDigit n
  generalize (toString n).data = l at h
  induction l with
  | nil => rfl
  | cons ch rest ih =>
    have hd := isDigit_toNat (h ch (List.mem_cons_self _ _))
    have hu : utf8 ch = [ch.toNat] := by
      unfold utf8
      rw [if_pos (by omega)]
    rw [List.flatMap_cons, hu, List.map_cons, ih (fun c hc => h c (List.mem_cons_of_mem _ hc))]
    rfl

theorem goString_decimal_plain (n : Nat) : (goString (toString n)).all plainByte = true := by
  rw [goString_decimal, List.all_eq_true]
  intro b hb
  obtain ⟨ch, hch, rfl⟩ := List.mem_map.mp hb
  have hd := isDigit_toNat (toString_nat_isDigit n ch hch)
  have h1 : 48 ≤ ch.toNat := hd.1
  have h2 : ch.toNat ≤ 57 := hd.2
  generalize ch.toNat = x at h1 h2
  interval_cases x <;> rfl

theorem goString_decimal_length (n k : Nat) (hk : 1 ≤ k) (hn : n < 10 ^ k) :
    (goString (toString n)).length ≤ k := by
  rw [goString_decimal, List.length_map]
  have := toDigitsCore_length (n + 1) n [] k hk hn
  simpa using this

theorem goString_decimal_injective {a b : Nat}
    (h : goString (toString a) = goString (toString b)) : a = b := by
  rw [goString_decimal, goString_decimal] at h
  have hinj : Function.Injective Char.toNat := by
    intro x y hxy
    have := congrArg Char.ofNat hxy
    simpa [Char.ofNat_toNat] using this
  have hdata := List.map_injective_iff.mpr hinj h
  apply toString_nat_injective
  exact String.ext hdata


theorem cutBytes_cover (sep : Nat) (l : GoString) :
    ∀ b ∈ l, b ∈ (cutBytes sep l).1 ∨ b = sep ∨ b ∈ (cutBytes sep l).2.getD [] := by
  induction l with
  | nil => intro b hb; cases hb
  | cons c rest ih =>
    intro b hb
    by_cases hc : c = sep
    · simp only [cutBytes, hc, if_true, Option.getD_some]
      rcases List.mem_cons.mp hb with h | h
      · exact Or.inr (Or.inl (h.trans hc))
      · exact Or.inr (Or.inr h)
    · simp only [cutBytes, hc, if_false]
      rcases List.mem_cons.mp hb with h | h
      · exact Or.inl (h ▸ List.mem_cons_self _ _)
      · rcases ih b h with h1 | h1 | h1
        · exact Or.inl (List.mem_cons_of_mem _ h1)
        · exact Or.inr (Or.inl h1)
        · exact Or.inr (Or.inr h1)

theorem plainAddr_bytes {a : String} (ha : PlainAddr a) :
    ∀ b ∈ goString a, 32 < b ∧ b ≠ 35 ∧ b ≠ 127 := by
  intro b hb
  obtain ⟨_, hhost, hport⟩ := ha
  rcases cutBytes_cover 58 (goString a) b hb with h | h | h
  · have := List.all_eq_true.mp hhost b h
    simp only [hostByte, Bool.or_eq_true, Bool.and_eq_true, decide_eq_true_eq,
      beq_iff_eq] at this
    omega
  · subst h
    decide
  · have := List.all_eq_true.mp hport b h
    simp only [Bool.and_eq_true, decide_eq_true_eq] at this
    omega

theorem uploadURL_bytes {a : String} (ha : PlainAddr a) :
    ∀ b ∈ goString ("http://" ++ a ++ "/upload"), 32 < b ∧ b ≠ 35 ∧ b ≠ 127 := by
  intro b hb
  rw [goString_append, goString_append] at hb
  rcases List.mem_append.mp hb with hb | hb
  · rcases List.mem_append.mp hb with hb | hb
    · have : ∀ c ∈ goString "http://", 32 < c ∧ c ≠ 35 ∧ c ≠ 127 := by decide
      exact this b hb
    · exact plainAddr_bytes ha b hb
  · have : ∀ c ∈ goString "/upload", 32 < c ∧ c ≠ 35 ∧ c ≠ 127 := by decide
    exact this b hb

theorem downloadURL_bytes {a : String} (ha : PlainAddr a) :
    ∀ b ∈ goString ("http://" ++ a ++ "/download"), 32 < b ∧ b ≠ 35 ∧ b ≠ 127 := by
  intro b hb
  rw [goString_append, goString_append] at hb
  rcases List.mem_append.mp hb with hb | hb
  · rcases List.mem_append.mp hb with hb | hb
    · have : ∀ c ∈ goString "http://", 32 < c ∧ c ≠ 35 ∧ c ≠ 127 := by decide
      exact this b hb
    · exact plainAddr_bytes ha b hb
  · have : ∀ c ∈ goString "/download", 32 < c ∧ c ≠ 35 ∧ c ≠ 127 := by decide
    exact this b hb

/-- A push with a plain address and plain identifiers reaches its node, which stores the
chunk under the bytes of the identifiers. -/
theorem idealNodes_post_plain (s : Store) (a fileID chunkID : String) (chunk : Bytes)
    (ha : PlainAddr a) (hf : PlainId fileID)
    (hc : (goString chunkID).all plainByte = true) (hlen : (goString chunkID).length ≤ 20) :
    idealNodes.post s a fileID chunkID chunk =
      (fun a1 f1 c1 =>
          if a1 = a ∧ f1 = goString fileID ∧ c1 = goString chunkID then some chunk
          else s a1 f1 c1,
        .status 200 "stored") := by
  have hd := deliver_plain ("http://" ++ a ++ "/upload") fileID chunkID (uploadURL_bytes ha)
    hf.1 hc (by have := hf.2; omega)
  simp only [idealNodes, hd]

/-- A fetch with a plain address and plain identifiers reaches its node, which serves what
it holds under the bytes of the identifiers. -/
theorem idealNodes_get_plain (s : Store) (a fileID chunkID : String)
    (ha : PlainAddr a) (hf : PlainId fileID)
    (hc : (goString chunkID).all plainByte = true) (hlen : (goString chunkID).length ≤ 20)
    (chunk : Bytes) (h : s a (goString fileID) (goString chunkID) = some chunk) :
    idealNodes.get s a fileID chunkID = .status 200 (some chunk) := by
  have hd := deliver_plain ("http://" ++ a ++ "/download") fileID chunkID
    (downloadURL_bytes ha) hf.1 hc (by have := hf.2; omega)
  simp only [idealNodes, hd, h]

/-- With nodes that store verbatim, plain addresses and plain identifiers, `UploadChunk`
returns no error and leaves the chunk stored under the bytes of `(fileID, chunkID)` on
every address, the rest of the store unchanged. -/
theorem UploadChunk_ideal (chunk : Bytes) (fileID chunkID : String) (nodes : List String)
    (s : Store) (ha : ∀ a ∈ nodes, PlainAddr a) (hf : PlainId fileID)
    (hc : (goString chunkID).all plainByte = true) (hlen : (goString chunkID).length ≤ 20) :
    (UploadChunk idealNodes chunk fileID chunkID nodes s).2.2 = none ∧
    ∀ a f c, (UploadChunk idealNodes chunk fileID chunkID nodes s).1 a f c =
      if a ∈ nodes ∧ f = goString fileID ∧ c = goString chunkID then some chunk
      else s a f c := by
  induction nodes generalizing s with
  | nil => exact ⟨rfl, fun a f c => by simp [UploadChunk]⟩
  | cons b rest ih =>
    have hpost := idealNodes_post_plain s b fileID chunkID chunk
      (ha b (List.mem_cons_self _ _)) hf hc hlen
    have hp : postError (idealNodes.post s b fileID chunkID chunk).2 = none := by
      rw [hpost]
      rfl
    rw [UploadChunk_cons_ok idealNodes chunk fileID chunkID b rest s hp]
    obtain ⟨h1, h2⟩ := ih (idealNodes.post s b fileID chunkID chunk).1
      (fun a h => ha a (List.mem_cons_of_mem _ h))
    refine ⟨h1, fun a f c => ?_⟩
    simp only
    rw [h2 a f c, hpost]
    by_cases hr : a ∈ rest ∧ f = goString fileID ∧ c = goString chunkID
    · have : a ∈ b :: rest ∧ f = goString fileID ∧ c = goString chunkID :=
        ⟨List.mem_cons_of_mem _ hr.1, hr.2⟩
      rw [if_pos hr, if_pos this]
    · rw [if_neg hr]
      by_cases hb : a = b ∧ f = goString fileID ∧ c = goString chunkID
      · have : a ∈ b :: rest ∧ f = goString fileID ∧ c = goString chunkID :=
          ⟨hb.1 ▸ List.mem_cons_self _ _, hb.2⟩
        rw [if_pos this]
        simp only
        rw [if_pos hb]
      · have : ¬ (a ∈ b :: rest ∧ f = goString fileID ∧ c = goString chunkID) := by
          rintro ⟨hmem, hf, hc⟩
          rcases List.mem_cons.mp hmem with h | h
          · exact hb ⟨h, hf, hc⟩
          · exact hr ⟨h, hf, hc⟩
        rw [if_neg this]
        simp only
        rw [if_neg hb]

/-- With nodes that store verbatim, plain addresses and a plain file identifier, the chunk
loop of `UploadFile` returns no error, changes the store only under the file identifier
and the decimal strings of its loop counters, and leaves every non-empty chunk stored on
every node the plan lists for its counter. -/
theorem uploadLoop_ideal (plan : List ChunkNodeInfo) (fileID : String) (chunkSize : Nat)
    (k i : Nat) (rest : Bytes) (s : Store)
    (ha : ∀ node ∈ plan, PlainAddr node.NodeAddress) (hf : PlainId fileID)
    (hk : i + k ≤ 10 ^ 20) :
    (uploadLoop idealNodes plan fileID chunkSize k i rest s).2.2 = none ∧
    (∀ a f c, (f ≠ goString fileID ∨ ∀ j, j < k → c ≠ goString (toString (i + j))) →
      (uploadLoop idealNodes plan fileID chunkSize k i rest s).1 a f c = s a f c) ∧
    (∀ j, j < k → (chunkAt rest chunkSize j).length ≠ 0 →
      ∀ a ∈ (plan.filter (fun node => node.ChunkId = toInt32 ((i + j : Nat) : Int))).map
          (fun node => node.NodeAddress),
        (uploadLoop idealNodes plan fileID chunkSize k i rest s).1 a (goString fileID)
          (goString (toString (i + j))) = some (chunkAt rest chunkSize j)) := by
  induction k generalizing i rest s with
  | zero =>
    refine ⟨rfl, fun _ _ _ _ => rfl, fun j hj => ?_⟩
    omega
  | succ k ih =>
    by_cases hn : (rest.take chunkSize).length = 0
    · rw [uploadLoop_break idealNodes plan fileID chunkSize k i rest s hn]
      refine ⟨rfl, fun _ _ _ _ => rfl, fun j _ hne => ?_⟩
      exfalso
      apply hne
      rw [chunkAt_length]
      simp only [List.length_take] at hn
      omega
    · have haddr : ∀ a ∈ (plan.filter (fun node => node.ChunkId = toInt32 i)).map
          (fun node => node.NodeAddress), PlainAddr a := by
        intro a hmem
        obtain ⟨node, hnode, rfl⟩ := List.mem_map.mp hmem
        exact ha node (List.mem_filter.mp hnode).1
      obtain ⟨hu, hstore⟩ := UploadChunk_ideal (rest.take chunkSize) fileID (toString i)
        ((plan.filter (fun node => node.ChunkId = toInt32 i)).map
          (fun node => node.NodeAddress)) s haddr hf (goString_decimal_plain i)
        (goString_decimal_length i 20 (by decide) (by omega))
      rw [uploadLoop_ok idealNodes plan fileID chunkSize k i rest s hn hu]
      obtain ⟨ih1, ih2, ih3⟩ := ih (i + 1) (rest.drop chunkSize)
        (UploadChunk idealNodes (rest.take chunkSize) fileID (toString i)
          ((plan.filter (fun node => node.ChunkId = toInt32 i)).map
            (fun node => node.NodeAddress)) s).1 (by omega)
      refine ⟨ih1, ?_, ?_⟩
      · intro a f c hcond
        simp only
        have hcond2 : f ≠ goString fileID ∨
            ∀ j, j < k → c ≠ goString (toString (i + 1 + j)) := by
          rcases hcond with h | h
          · exact Or.inl h
          · refine Or.inr fun j hj => ?_
            have := h (j + 1) (by omega)
            rwa [show i + (j + 1) = i + 1 + j by omega] at this
        rw [ih2 a f c hcond2, hstore a f c]
        have hnot : ¬ (a ∈ (plan.filter (fun node => node.ChunkId = toInt32 i)).map
            (fun node => node.NodeAddress) ∧ f = goString fileID ∧
            c = goString (toString i)) := by
          rintro ⟨_, hf, hc⟩
          rcases hcond with h | h
          · exact h hf
          · exact h 0 (by omega) (by simpa using hc)
        rw [if_neg hnot]
      · intro j hj hne a ha
        simp only
        cases j with
        | zero =>
          have hcond2 : goString fileID ≠ goString fileID ∨
              ∀ j, j < k → goString (toString (i + 0)) ≠ goString (toString (i + 1 + j)) := by
            refine Or.inr fun j _ h => ?_
            have := goString_decimal_injective h
            omega
          rw [ih2 a (goString fileID) (goString (toString (i + 0))) hcond2,
            hstore a (goString fileID) (goString (toString (i + 0)))]
          have hpos : a ∈ (plan.filter (fun node => node.ChunkId = toInt32 i)).map
              (fun node => node.NodeAddress) ∧ goString fileID = goString fileID ∧
              goString (toString (i + 0)) = goString (toString i) :=
            ⟨by simpa using ha, rfl, rfl⟩
          rw [if_pos hpos]
          simp [chunkAt]
        | succ j =>
          have hne2 : (chunkAt (rest.drop chunkSize) chunkSize j).length ≠ 0 := by
            rw [chunkAt_drop]
            exact hne
          have ha2 : a ∈ (plan.filter
              (fun node => node.ChunkId = toInt32 ((i + 1 + j : Nat) : Int))).map
              (fun node => node.NodeAddress) := by
            rw [show i + 1 + j = i + (j + 1) by omega]
            exact ha
          have := ih3 j (by omega) hne2 a ha2
          rw [chunkAt_drop, show i + 1 + j = i + (j + 1) by omega] at this
          exact this

/-! ## What a successful upload has pushed -/

theorem readSize_of_le {chunkSize : Int} (hcap : chunkSize ≤ 2 ^ 30) :
    readSize chunkSize.toNat = chunkSize.toNat := by
  unfold readSize
  apply Nat.min_eq_left
  omega

/-- `UploadFile` on a readable file, with a chunk size of at least 1 for which a buffer can
be allocated, when the placement call returns a plan: the chunk loop runs over the plan. -/
theorem UploadFile_of_plan {σ : Type} (P : Payload σ) (w : Cluster σ) (order : List String)
    (env : UploadEnv) (content : Bytes) (filePath fileID : String) (chunkSize : Int)
    (hC : 1 ≤ chunkSize) (halloc : chunkSize ≤ (env.maxAlloc : Int))
    (m1 : ManagerNode) (plan : List ChunkNodeInfo)
    (hcall : Client.GetNodesForChunks w.manager order env.rpc fileID
      (totalChunksOf content.length chunkSize) (fileTypeOf filePath) =
      some (m1, .ok plan)) :
    UploadFile P w order env (.ok content) filePath fileID chunkSize =
      some ({ manager := m1,
              nodes := (uploadLoop P plan fileID (readSize chunkSize.toNat)
                (totalChunksOf content.length chunkSize).toNat 0 content w.nodes).1 },
        (uploadLoop P plan fileID (readSize chunkSize.toNat)
          (totalChunksOf content.length chunkSize).toNat 0 content w.nodes).2.1,
        (uploadLoop P plan fileID (readSize chunkSize.toNat)
          (totalChunksOf content.length chunkSize).toNat 0 content w.nodes).2.2) := by
  have h0 : chunkSize ≠ 0 := by omega
  have hneg : ¬ (chunkSize < 0 ∨ (env.maxAlloc : Int) < chunkSize) := by omega
  simp only [UploadFile, h0, if_false, hcall, hneg]

/-- The nodes the plan of the manager lists for a chunk index below the chunk count. -/
theorem filter_planOf (N : List String) (k i : Nat) (hi : i < k) :
    ((planOf N k).filter (fun node => node.ChunkId = (i : Int))).map
        (fun node => node.NodeAddress) = [firstNodeAt N i, secondNodeAt N i] := by
  induction k with
  | zero => omega
  | succ k ih =>
    rw [planOf_succ, List.filter_append, List.map_append]
    by_cases hik : i < k
    · rw [ih hik]
      have hne : ¬ ((k : Int) = (i : Int)) := by omega
      simp [hne]
    · have hk : i = k := by omega
      subst hk
      have hnil : (planOf N i).filter (fun node => node.ChunkId = (i : Int)) = [] := by
        rw [List.filter_eq_nil_iff]
        intro node hnode
        obtain ⟨j, hj, hid⟩ := mem_planOf hnode
        simp only [decide_eq_true_eq]
        omega
      rw [hnil]
      simp

/-! ## The replicas an upload addresses -/

/-- C21: when the manager has no record for the file identifier, `GetChunkLocations` fails
with "file not found" and `DownloadFile` returns that error without having created (or
truncated) an output file and without having sent a request to any storage node. -/
theorem C21_unknown_file_download_fails_cleanly {σ : Type} (P : Payload σ) (w : Cluster σ)
    (order : List (Int × List String)) (fileID : String) (chunkSize : Int)
    (hno : w.manager.chunkMapping.lookup fileID = none) :
    (w.manager.GetChunkLocations order { FileId := fileID }).2 = .error "file not found" ∧
    (DownloadFile P w order fileID chunkSize).err =
      some ("failed to get chunk locations: failed to get chunk locations: " ++
        "rpc error: code = Unknown desc = " ++ "file not found") ∧
    (DownloadFile P w order fileID chunkSize).outFile = none ∧
    (DownloadFile P w order fileID chunkSize).gets = [] := by
  have hloc : (w.manager.GetChunkLocations order { FileId := fileID }).2 =
      .error "file not found" := by
    unfold ManagerNode.GetChunkLocations
    simp only [hno]
  refine ⟨hloc, ?_, ?_, ?_⟩ <;>
  · unfold DownloadFile
    rw [hloc]

/-- Witness of C21: the file `g` is unknown to a manager that only knows node `A`. -/
theorem C21_witness :
    managerA.chunkMapping.lookup "g" = none ∧
    ((managerA.GetChunkLocations [] { FileId := "g" }).2 = .error "file not found" ∧
    (DownloadFile idealNodes { manager := managerA, nodes := storeChunk0 } [] "g" 4).err =
      some ("failed to get chunk locations: failed to get chunk locations: " ++
        "rpc error: code = Unknown desc = " ++ "file not found") ∧
    (DownloadFile idealNodes { manager := managerA, nodes := storeChunk0 } [] "g" 4).outFile =
      none ∧
    (DownloadFile idealNodes { manager := managerA, nodes := storeChunk0 } [] "g" 4).gets =
      []) :=
  ⟨by decide,
    C21_unknown_file_download_fails_cleanly idealNodes
      { manager := managerA, nodes := storeChunk0 } [] "g" 4 (by decide)⟩

/-! ## The plan and the record of one placement call -/

theorem mem_replicasAt (N : List String) (i : Nat) (a : String) :
    a ∈ replicasAt N i ↔ a = firstNodeAt N i ∨ a = secondNodeAt N i := by
  unfold replicasAt
  by_cases h : firstNodeAt N i ≠ secondNodeAt N i
  · rw [if_pos h]
    simp
  · rw [if_neg h]
    have heq : firstNodeAt N i = secondNodeAt N i := not_not.mp h
    simp [← heq]

theorem mem_planOf_iff (N : List String) (k : Nat) (node : ChunkNodeInfo) :
    node ∈ planOf N k ↔
      ∃ j, j < k ∧ node.ChunkId = (j : Int) ∧
        (node.NodeAddress = firstNodeAt N j ∨ node.NodeAddress = secondNodeAt N j) := by
  unfold planOf
  rw [List.mem_flatMap]
  constructor
  · rintro ⟨j, hj, hnode⟩
    refine ⟨j, List.mem_range.mp hj, ?_⟩
    simp only [List.mem_cons, List.mem_singleton, List.not_mem_nil, or_false] at hnode
    rcases hnode with rfl | rfl
    · exact ⟨rfl, Or.inl rfl⟩
    · exact ⟨rfl, Or.inr rfl⟩
  · rintro ⟨j, hj, hid, haddr⟩
    refine ⟨j, List.mem_range.mpr hj, ?_⟩
    obtain ⟨cid, addr⟩ := node
    simp only at hid haddr
    subst hid
    rcases haddr with rfl | rfl <;> simp

/-- The replica list recorded for a chunk and the addresses the plan tags with its index
are the same set. -/
theorem replicas_eq_plan_targets (N : List String) (k i : Nat) (hi : i < k) (a : String) :
    a ∈ replicasAt N i ↔
      ({ ChunkId := (i : Int), NodeAddress := a } : ChunkNodeInfo) ∈ planOf N k := by
  rw [mem_replicasAt, mem_planOf_iff]
  constructor
  · intro h
    exact ⟨i, hi, rfl, h⟩
  · rintro ⟨j, _, hid, haddr⟩
    simp only at hid haddr
    have : i = j := by omega
    subst this
    exact haddr

/-- C22: write targets equal read candidates.  For a non-empty registry snapshot and an
`int32` chunk count `t`, `GetNodesForChunks` succeeds, and for every chunk index `i` in
`[0, t)` the addresses of the replica list recorded for `(fileId, i)` are exactly the
addresses the returned list tags with `i`, which are exactly the addresses `UploadFile`
selects for chunk `i`; so every replica a following `GetChunkLocations` names for such a
chunk is a node the plan told the writer to push that chunk to. -/
theorem C22_write_targets_equal_read_candidates (m : ManagerNode) (order : List String)
    (req : GetNodesForChunksRequest) (hN : order ≠ []) (ht : IsInt32 req.TotalChunks) :
    ∃ m1 resp c, m.GetNodesForChunks order req = some (m1, .ok resp) ∧
      m1.chunkMapping.lookup req.FileId = some c ∧
      (∀ i : Int, 0 ≤ i → i < req.TotalChunks →
        ∃ l, c.lookup i = some l ∧
          (∀ a, a ∈ l ↔
            ({ ChunkId := i, NodeAddress := a } : ChunkNodeInfo) ∈ resp.Nodes) ∧
          (∀ a, a ∈ l ↔
            a ∈ (resp.Nodes.filter (fun node => node.ChunkId = toInt32 i)).map
              (fun node => node.NodeAddress))) ∧
      (∀ eorder, EntryOrder c eorder →
        ∃ resp2, (m1.GetChunkLocations eorder { FileId := req.FileId }).2 = .ok resp2 ∧
          ∀ ci ∈ resp2.Chunks, 0 ≤ ci.ChunkId → ci.ChunkId < req.TotalChunks →
            ∀ a ∈ ci.Nodes,
              ({ ChunkId := ci.ChunkId, NodeAddress := a } : ChunkNodeInfo) ∈ resp.Nodes) := by
  obtain ⟨m1, hcall, inv⟩ := GetNodesForChunks_ok m hN req ht.2
  obtain ⟨c, hc, hlook⟩ := inv.chunk_file
  simp only at hc
  have hrec : ∀ i : Int, 0 ≤ i → i < req.TotalChunks →
      c.lookup i = some (replicasAt order i.toNat) ∧ i.toNat < req.TotalChunks.toNat ∧
        ((i.toNat : Nat) : Int) = i := by
    intro i h0 hlt
    have hcond : 0 ≤ i ∧ i < ((req.TotalChunks.toNat : Nat) : Int) := by omega
    rw [hlook i, if_pos hcond]
    exact ⟨rfl, by omega, by omega⟩
  refine ⟨m1, _, c, hcall, hc, ?_, ?_⟩
  · intro i h0 hlt
    obtain ⟨hl, hi, hcast⟩ := hrec i h0 hlt
    refine ⟨_, hl, ?_, ?_⟩
    · intro a
      have := replicas_eq_plan_targets order req.TotalChunks.toNat i.toNat hi a
      rw [hcast] at this
      exact this
    · intro a
      have h32 : toInt32 i = ((i.toNat : Nat) : Int) := by
        rw [hcast]
        unfold toInt32
        have := ht.2
        omega
      rw [h32, filter_planOf order _ _ hi, mem_replicasAt]
      simp
  · intro eorder hord
    have hloc := GetChunkLocations_ok m1 eorder req.FileId c hc
    refine ⟨_, hloc, ?_⟩
    intro ci hci h0 hlt a ha
    simp only [List.mem_map] at hci
    obtain ⟨e, he, rfl⟩ := hci
    have hin : (e.1, e.2) ∈ c.pairs := hord.mem_iff.mp he
    have hl := (mem_pairs_iff c e.1 e.2).mp hin
    obtain ⟨hl2, hi, hcast⟩ := hrec e.1 h0 hlt
    rw [hl2] at hl
    have hnodes : e.2 = replicasAt order e.1.toNat := (Option.some.inj hl).symm
    have := (replicas_eq_plan_targets order req.TotalChunks.toNat e.1.toNat hi a).mp
      (by rw [← hnodes]; exact ha)
    rw [hcast] at this
    exact this

/-- Witness of C22: the scenario of the specification, registry snapshot `[A, B]` and
three chunks. -/
theorem C22_witness :
    (["A", "B"] ≠ [] ∧ IsInt32 3) ∧
    ∃ m1 resp c, managerAB.GetNodesForChunks ["A", "B"]
        { FileId := "f1", TotalChunks := 3, FileType := "txt" } = some (m1, .ok resp) ∧
      m1.chunkMapping.lookup "f1" = some c ∧
      (∀ i : Int, 0 ≤ i → i < 3 →
        ∃ l, c.lookup i = some l ∧
          (∀ a, a ∈ l ↔
            ({ ChunkId := i, NodeAddress := a } : ChunkNodeInfo) ∈ resp.Nodes) ∧
          (∀ a, a ∈ l ↔
            a ∈ (resp.Nodes.filter (fun node => node.ChunkId = toInt32 i)).map
              (fun node => node.NodeAddress))) ∧
      (∀ eorder, EntryOrder c eorder →
        ∃ resp2, (m1.GetChunkLocations eorder { FileId := "f1" }).2 = .ok resp2 ∧
          ∀ ci ∈ resp2.Chunks, 0 ≤ ci.ChunkId → ci.ChunkId < 3 →
            ∀ a ∈ ci.Nodes,
              ({ ChunkId := ci.ChunkId, NodeAddress := a } : ChunkNodeInfo) ∈ resp.Nodes) :=
  ⟨⟨by decide, by decide⟩,
   C22_write_targets_equal_read_candidates managerAB ["A", "B"]
     { FileId := "f1", TotalChunks := 3, FileType := "txt" } (by decide) (by decide)⟩

/-! ## Well-formed replica lists along every run -/

theorem firstNodeAt_mem {N : List String} (hN : N ≠ []) (i : Nat) : firstNodeAt N i ∈ N := by
  have hpos : 0 < N.length := List.length_pos.mpr hN
  have hlt : i % N.length < N.length := Nat.mod_lt _ hpos
  unfold firstNodeAt
  rw [getD_eq_getElem hlt]
  exact List.getElem_mem hlt

theorem secondNodeAt_mem {N : List String} (hN : N ≠ []) (i : Nat) :
    secondNodeAt N i ∈ N := by
  have hpos : 0 < N.length := List.length_pos.mpr hN
  have hlt : (i + 1) % N.length < N.length := Nat.mod_lt _ hpos
  unfold secondNodeAt
  by_cases h1 : N.length > 1
  · rw [if_pos h1, getD_eq_getElem hlt]
    exact List.getElem_mem hlt
  · rw [if_neg h1]
    exact firstNodeAt_mem hN i

/-- Every replica list the placement loop writes is non-empty, has at most two entries,
repeats no address and names addresses of the snapshot only. -/
theorem replicasAt_wellformed {N : List String} (hN : N ≠ []) (i : Nat) :
    replicasAt N i ≠ [] ∧ (replicasAt N i).length ≤ 2 ∧ (replicasAt N i).Nodup ∧
      ∀ a ∈ replicasAt N i, a ∈ N := by
  have hmem : ∀ a ∈ replicasAt N i, a ∈ N := by
    intro a ha
    rcases (mem_replicasAt N i a).mp ha with rfl | rfl
    · exact firstNodeAt_mem hN i
    · exact secondNodeAt_mem hN i
  unfold replicasAt at hmem ⊢
  by_cases h : firstNodeAt N i ≠ secondNodeAt N i
  · rw [if_pos h] at hmem ⊢
    refine ⟨by simp, by simp, ?_, hmem⟩
    simp [h]
  · rw [if_neg h] at hmem ⊢
    exact ⟨by simp, by simp, by simp, hmem⟩

theorem wellFormed_init : WellFormedRecords NewManagerNode := by
  refine ⟨?_, ?_⟩
  · intro a ha
    simp [NewManagerNode] at ha
  · intro f c hf
    simp [NewManagerNode] at hf

theorem wellFormed_registerNode {m : ManagerNode} (h : WellFormedRecords m)
    (req : RegisterNodeRequest) : WellFormedRecords (m.RegisterNode req).1 := by
  obtain ⟨hreg, hrec⟩ := h
  refine ⟨?_, ?_⟩
  · intro a ha
    simp only [ManagerNode.RegisterNode] at ha ⊢
    by_cases hEq : a = req.NodeAddress
    · subst hEq
      exact AList.lookup_insert _
    · rw [AList.lookup_insert_ne hEq]
      rw [AList.mem_insert] at ha
      rcases ha with ha | ha
      · exact absurd ha hEq
      · exact hreg a ha
  · intro f c hf i l hl
    obtain ⟨h1, h2, h3, h4⟩ := hrec f c hf i l hl
    refine ⟨h1, h2, h3, fun a ha => ?_⟩
    simp only [ManagerNode.RegisterNode]
    rw [AList.mem_insert]
    exact Or.inr (h4 a ha)

theorem wellFormed_getNodesForChunks {m m' : ManagerNode} (h : WellFormedRecords m)
    {order : List String} {req : GetNodesForChunksRequest}
    {res : Except String GetNodesForChunksResponse} (hord : KeyOrder m.nodes order)
    (ht : IsInt32 req.TotalChunks) (hcall : m.GetNodesForChunks order req = some (m', res)) :
    WellFormedRecords m' := by
  by_cases hnil : order = []
  · subst hnil
    rw [GetNodesForChunks_nil] at hcall
    obtain ⟨hm, _⟩ := Prod.mk.inj (Option.some.inj hcall)
    subst hm
    exact h
  · obtain ⟨hreg, hrec⟩ := h
    obtain ⟨m1, hcall1, inv⟩ := GetNodesForChunks_ok m hnil req ht.2
    rw [hcall1] at hcall
    obtain ⟨hm, _⟩ := Prod.mk.inj (Option.some.inj hcall)
    subst hm
    have hnodes : m1.nodes = m.nodes := inv.nodes_eq
    have hsnap : ∀ a, a ∈ order → a ∈ m.nodes := by
      intro a ha
      exact AList.mem_keys.mpr (hord.mem_iff.mp ha)
    refine ⟨?_, ?_⟩
    · rw [hnodes]
      exact hreg
    · intro f c hf i l hl
      rw [hnodes]
      by_cases hfile : f = req.FileId
      · subst hfile
        obtain ⟨c1, hc1, hlook⟩ := inv.chunk_file
        simp only at hc1
        rw [hc1] at hf
        obtain rfl := Option.some.inj hf
        rw [hlook i] at hl
        by_cases hcond : 0 ≤ i ∧ i < ((req.TotalChunks.toNat : Nat) : Int)
        · rw [if_pos hcond] at hl
          obtain rfl := Option.some.inj hl
          obtain ⟨h1, h2, h3, h4⟩ := replicasAt_wellformed hnil i.toNat
          exact ⟨h1, h2, h3, fun a ha => hsnap a (h4 a ha)⟩
        · rw [if_neg hcond] at hl
          cases hold : m.chunkMapping.lookup req.FileId with
          | none =>
            rw [hold] at hl
            simp at hl
          | some c0 =>
            rw [hold] at hl
            exact hrec req.FileId c0 hold i l hl
      · have := inv.chunk_other f hfile
        simp only at this
        rw [this] at hf
        exact hrec f c hf i l hl

theorem wellFormed_of_trace {es : List Event} {m : ManagerNode} (h : Trace es m) :
    WellFormedRecords m := by
  induction h with
  | init => exact wellFormed_init
  | registerNode req _ ih => exact wellFormed_registerNode ih req
  | getNodesForChunks order req res _ hord ht hcall ih =>
    exact wellFormed_getNodesForChunks ih hord ht hcall
  | getChunkLocations order req _ _ ih =>
    rw [GetChunkLocations_state]
    exact ih

/-- C23: in every manager state reachable from `NewManagerNode` through `RegisterNode`,
`GetNodesForChunks` and `GetChunkLocations` calls, every recorded replica list is
non-empty, has at most 2 entries, repeats no address, and every address in it is a
member of the node registry. -/
theorem C23_recorded_replica_lists_wellformed (m : ManagerNode) (hreach : Reachable m)
    (fileId : String) (chunks : GoMap Int (List String)) (i : Int) (l : List String)
    (hrec : m.chunkMapping.lookup fileId = some chunks) (hl : chunks.lookup i = some l) :
    l ≠ [] ∧ l.length ≤ 2 ∧ l.Nodup ∧
      (∀ a ∈ l, a ∈ m.nodes ∧ m.nodes.lookup a = some true) := by
  obtain ⟨es, htrace⟩ := hreach
  obtain ⟨hreg, hall⟩ := wellFormed_of_trace htrace
  obtain ⟨h1, h2, h3, h4⟩ := hall fileId chunks hrec i l hl
  exact ⟨h1, h2, h3, fun a ha => ⟨h4 a ha, hreg a (h4 a ha)⟩⟩

/-- Witness of C23: the replica list `[B, A]` of chunk 1 of `f1` in the scenario of the
specification. -/
theorem C23_witness :
    (Reachable scenarioManager ∧
      scenarioManager.chunkMapping.lookup "f1" = some scenarioChunks ∧
      scenarioChunks.lookup 1 = some ["B", "A"]) ∧
    (["B", "A"] ≠ [] ∧ ["B", "A"].length ≤ 2 ∧ ["B", "A"].Nodup ∧
      (∀ a ∈ ["B", "A"], a ∈ scenarioManager.nodes ∧
        scenarioManager.nodes.lookup a = some true)) :=
  have hreach : Reachable scenarioManager :=
    ⟨_, Trace.getNodesForChunks ["A", "B"]
      { FileId := "f1", TotalChunks := 3, FileType := "txt" }
      (.ok { Nodes := planOf ["A", "B"] 3 })
      (Trace.registerNode { NodeAddress := "B" }
        (Trace.registerNode { NodeAddress := "A" } Trace.init))
      (by decide) (by decide) rfl⟩
  ⟨⟨hreach, rfl, by decide⟩,
   C23_recorded_replica_lists_wellformed scenarioManager hreach "f1" scenarioChunks 1
     ["B", "A"] rfl (by decide)⟩

/-! ## The lookup leaves the state alone -/

/-- C24: `GetChunkLocations` is read-only: whether it returns a response or the error
"file not found", the registry, the chunk map and the file-type map (the whole manager
state) after the call are those before it; a file without a record has none afterwards
either. -/
theorem C24_lookup_is_read_only (m : ManagerNode) (order : List (Int × List String))
    (req : GetChunkLocationsRequest) :
    (m.GetChunkLocations order req).1.nodes = m.nodes ∧
    (m.GetChunkLocations order req).1.chunkMapping = m.chunkMapping ∧
    (m.GetChunkLocations order req).1.fileTypes = m.fileTypes ∧
    (m.GetChunkLocations order req).1 = m ∧
    ((m.GetChunkLocations order req).1.chunkMapping.lookup req.FileId).isNone =
      (m.chunkMapping.lookup req.FileId).isNone ∧
    (((m.GetChunkLocations order req).2 = .error "file not found") ∨
      ∃ resp, (m.GetChunkLocations order req).2 = .ok resp) := by
  have hst := GetChunkLocations_state m order req
  refine ⟨by rw [hst], by rw [hst], by rw [hst], hst, by rw [hst], ?_⟩
  unfold ManagerNode.GetChunkLocations
  cases m.chunkMapping.lookup req.FileId with
  | none => exact Or.inl rfl
  | some c => exact Or.inr ⟨_, rfl⟩
/-! ## Indexing the address list -/

/-- C25: placement indexing is always in bounds.  For a registry of size `n ≥ 1`, any
snapshot of it and any `int32` chunk count `t`: the snapshot has `n` entries; for every
loop counter `i` in `[0, t)` the indices `i % n` and `(i + 1) % n` lie in `[0, n)`, the
two reads of the address list succeed and `int32(i)` is `i`; no pass of the loop panics;
and the call returns a plan.  For `t ≤ 0` the plan is empty and no chunk is assigned. -/
theorem C25_placement_indexing_in_bounds (m : ManagerNode) (order : List String)
    (req : GetNodesForChunksRequest) (hord : KeyOrder m.nodes order)
    (hn : 1 ≤ m.nodes.keys.length) (ht : IsInt32 req.TotalChunks) :
    order.length = m.nodes.keys.length ∧
    (∀ i : Nat, (i : Int) < req.TotalChunks →
      i % order.length < order.length ∧ (i + 1) % order.length < order.length ∧
      order[i % order.length]? = some (firstNodeAt order i) ∧
      order[(i + 1) % order.length]? = some (order.getD ((i + 1) % order.length) "") ∧
      toInt32 i = i) ∧
    (∀ (st : ManagerNode × List ChunkNodeInfo) (i : Nat),
      (st.1.chunkMapping.lookup req.FileId).isSome → (assignChunk order req st i).isSome) ∧
    (∃ m1 resp, m.GetNodesForChunks order req = some (m1, .ok resp) ∧
      (req.TotalChunks ≤ 0 → resp.Nodes = [] ∧
        ∃ c, m1.chunkMapping.lookup req.FileId = some c ∧
          ∀ j, c.lookup j = ((m.chunkMapping.lookup req.FileId).getD ∅).lookup j)) := by
  have hlen : order.length = m.nodes.keys.length := hord.length_eq
  have hpos : 0 < order.length := by omega
  have hne : order ≠ [] := List.length_pos.mp hpos
  refine ⟨hlen, ?_, ?_, ?_⟩
  · intro i hi
    refine ⟨Nat.mod_lt _ hpos, Nat.mod_lt _ hpos, getElem?_mod_eq hne i,
      getElem?_mod_eq hne (i + 1), toInt32_natCast (by have := ht.2; omega)⟩
  · intro st i hsome
    obtain ⟨c, hc⟩ := Option.isSome_iff_exists.mp hsome
    rw [assignChunk_eq hne req st i c hc]
    rfl
  · obtain ⟨m1, hcall, inv⟩ := GetNodesForChunks_ok m hne req ht.2
    refine ⟨m1, _, hcall, fun hle => ?_⟩
    have h0 : req.TotalChunks.toNat = 0 := by omega
    refine ⟨by rw [h0]; rfl, ?_⟩
    obtain ⟨c, hc, hlook⟩ := inv.chunk_file
    refine ⟨c, hc, fun j => ?_⟩
    rw [hlook j, h0]
    have : ¬ (0 ≤ j ∧ j < ((0 : Nat) : Int)) := by omega
    rw [if_neg this]

/-- Witness of C25: registry `{A, B}` visited as `[B, A]`, three chunks; and the call with
the negative count `-5` returns an empty plan. -/
theorem C25_witness :
    (KeyOrder managerAB.nodes ["B", "A"] ∧ 1 ≤ managerAB.nodes.keys.length ∧
      IsInt32 3) ∧
    (["B", "A"].length = managerAB.nodes.keys.length ∧
    (∀ i : Nat, (i : Int) < 3 →
      i % ["B", "A"].length < ["B", "A"].length ∧
      (i + 1) % ["B", "A"].length < ["B", "A"].length ∧
      ["B", "A"][i % ["B", "A"].length]? = some (firstNodeAt ["B", "A"] i) ∧
      ["B", "A"][(i + 1) % ["B", "A"].length]? =
        some (["B", "A"].getD ((i + 1) % ["B", "A"].length) "") ∧
      toInt32 i = i) ∧
    (∀ (st : ManagerNode × List ChunkNodeInfo) (i : Nat),
      (st.1.chunkMapping.lookup "f").isSome →
        (assignChunk ["B", "A"] { FileId := "f", TotalChunks := 3, FileType := "txt" }
          st i).isSome) ∧
    (∃ m1 resp, managerAB.GetNodesForChunks ["B", "A"]
        { FileId := "f", TotalChunks := 3, FileType := "txt" } = some (m1, .ok resp) ∧
      ((3 : Int) ≤ 0 → resp.Nodes = [] ∧
        ∃ c, m1.chunkMapping.lookup "f" = some c ∧
          ∀ j, c.lookup j = ((managerAB.chunkMapping.lookup "f").getD ∅).lookup j))) ∧
    (managerAB.GetNodesForChunks ["B", "A"]
        { FileId := "f", TotalChunks := -5, FileType := "txt" }).map (fun r => r.2) =
      some (.ok { Nodes := [] }) :=
  ⟨⟨by decide, by decide, by decide⟩,
   C25_placement_indexing_in_bounds managerAB ["B", "A"]
     { FileId := "f", TotalChunks := 3, FileType := "txt" }
     (by decide) (by decide) (by decide),
   rfl⟩

/-! ## The round trip -/

theorem writeAt_end (out : Bytes) (off : Nat) (data : Bytes) (h : out.length = off) :
    writeAt out off data = out ++ data := by
  unfold writeAt
  by_cases hd : data.length = 0
  · have : data = [] := List.length_eq_zero.mp hd
    simp [this]
  · rw [if_neg hd]
    subst h
    simp

theorem writeAll_chunks (content : Bytes) (chunkSize n : Nat) :
    writeAll [] ((List.range n).map (fun i => (i * chunkSize, chunkAt content chunkSize i))) =
      content.take (n * chunkSize) := by
  induction n with
  | zero => simp [writeAll]
  | succ n ih =>
    rw [List.range_succ, List.map_append, writeAll_append, ih]
    simp only [List.map_cons, List.map_nil, writeAll, List.foldl_cons, List.foldl_nil]
    by_cases hle : n * chunkSize ≤ content.length
    · rw [writeAt_end _ _ _ (by simp [hle])]
      unfold chunkAt
      rw [show (n + 1) * chunkSize = n * chunkSize + chunkSize by ring, List.take_add]
    · have hnil : chunkAt content chunkSize n = [] := by
        unfold chunkAt
        rw [List.drop_of_length_le (by omega)]
        simp
      rw [hnil]
      have h1 : content.take (n * chunkSize) = content := List.take_of_length_le (by omega)
      have h2 : content.take ((n + 1) * chunkSize) = content :=
        List.take_of_length_le (by nlinarith)
      rw [h1, h2]
      simp [writeAt]

theorem replicasAt_head (N : List String) (i : Nat) :
    ∃ tl, replicasAt N i = firstNodeAt N i :: tl := by
  unfold replicasAt
  split <;> exact ⟨_, rfl⟩

theorem tryReplicas_ideal_head (s : Store) (fileID : String) (i : Nat) (a : String)
    (rest : List String) (chunk : Bytes) (ha : PlainAddr a) (hf : PlainId fileID)
    (hi : i < 10 ^ 20) (h : s a (goString fileID) (goString (toString i)) = some chunk) :
    (tryReplicas idealNodes s fileID (i : Int) (a :: rest)).2 = .ok chunk := by
  have hkey : toString ((i : Nat) : Int) = toString i := rfl
  have hget := idealNodes_get_plain s a fileID (toString i) ha hf (goString_decimal_plain i)
    (goString_decimal_length i 20 (by decide) hi) chunk h
  simp only [tryReplicas, hkey, hget, getBody, if_true]

/-- The record of a fresh file after the manager assigned `t` chunks over the address
list `N`, and what a range over it can yield. -/
theorem fresh_record_entries {N : List String} {req : GetNodesForChunksRequest}
    {m m1 : ManagerNode} {plan : List ChunkNodeInfo} {t : Nat}
    (inv : LoopInv N req m ((m.chunkMapping.lookup req.FileId).getD ∅) t (m1, plan))
    (hnew : m.chunkMapping.lookup req.FileId = none) :
    ∃ c, m1.chunkMapping.lookup req.FileId = some c ∧
      ∀ order, EntryOrder c order →
        (order.map Prod.fst).Perm ((List.range t).map Int.ofNat) ∧
        ∀ e ∈ order, 0 ≤ e.1 ∧ e.1 < (t : Int) ∧ e.2 = replicasAt N e.1.toNat := by
  obtain ⟨c, hc, hlook⟩ := inv.chunk_file
  rw [hnew] at hlook
  have hlook1 : ∀ j : Int, c.lookup j =
      if 0 ≤ j ∧ j < (t : Int) then some (replicasAt N j.toNat) else none := by
    intro j
    rw [hlook j]
    simp
  have hmem : ∀ j : Int, j ∈ c.keys ↔ 0 ≤ j ∧ j < (t : Int) := by
    intro j
    rw [← AList.mem_keys, ← AList.lookup_isSome, hlook1 j]
    by_cases h : 0 ≤ j ∧ j < (t : Int) <;> simp [h]
  have hkeys : c.keys.Perm ((List.range t).map Int.ofNat) := by
    refine (List.perm_ext_iff_of_nodup c.keys_nodup ?_).mpr ?_
    · exact (List.nodup_range _).map (fun a b h => Int.ofNat.inj h)
    · intro j
      rw [hmem j]
      simp only [List.mem_map, List.mem_range]
      constructor
      · intro h
        exact ⟨j.toNat, by omega, by simp [Int.toNat_of_nonneg h.1]⟩
      · rintro ⟨k, hk, rfl⟩
        constructor
        · exact Int.ofNat_nonneg k
        · have : ((k : Nat) : Int) < (t : Int) := by omega
          exact this
  refine ⟨c, hc, fun order hord => ⟨?_, fun e he => ?_⟩⟩
  · have h1 : (order.map Prod.fst).Perm (c.pairs.map Prod.fst) := List.Perm.map _ hord
    rw [← keys_eq_map_fst_pairs] at h1
    exact h1.trans hkeys
  · have hin : (e.1, e.2) ∈ c.pairs := hord.mem_iff.mp he
    have hl := (mem_pairs_iff c e.1 e.2).mp hin
    rw [hlook1 e.1] at hl
    by_cases hcond : 0 ≤ e.1 ∧ e.1 < (t : Int)
    · rw [if_pos hcond] at hl
      exact ⟨hcond.1, hcond.2, (Option.some.inj hl).symm⟩
    · rw [if_neg hcond] at hl
      cases hl

theorem uploadLoop_empty_plan {σ : Type} (P : Payload σ) (fileID : String) (chunkSize : Nat)
    (k i : Nat) (rest : Bytes) (s : σ) :
    uploadLoop P [] fileID chunkSize k i rest s = (s, [], none) := by
  induction k generalizing i rest with
  | zero => rfl
  | succ k ih =>
    by_cases hn : (rest.take chunkSize).length = 0
    · exact uploadLoop_break P [] fileID chunkSize k i rest s hn
    · have hu : (UploadChunk P (rest.take chunkSize) fileID (toString i)
          (([] : List ChunkNodeInfo).filter (fun node => node.ChunkId = toInt32 i) |>.map
            (fun node => node.NodeAddress)) s).2.2 = none := rfl
      rw [uploadLoop_ok P [] fileID chunkSize k i rest s hn hu]
      have hs : (UploadChunk P (rest.take chunkSize) fileID (toString i)
          (([] : List ChunkNodeInfo).filter (fun node => node.ChunkId = toInt32 i) |>.map
            (fun node => node.NodeAddress)) s) = (s, [], none) := rfl
      rw [hs, ih]
      rfl

/-- C12, amended: round trip within the limits of the implementation.  For a file of
size `S ≥ 0` and a chunk size `C` with `1 ≤ C ≤ 2^30` for which the buffer can be
allocated, such that the chunk count `ceil(S / C)` is within `int32` (the type of
`TotalChunks`) and the request and the plan of the placement call together stay within
the 4 MiB a gRPC peer accepts, a non-empty registry snapshot of `host:port` addresses, a
file identifier with no prior record whose bytes pass through a URL query unchanged, a
placement call that is answered, and storage nodes that store pushed bytes verbatim
under `(fileId, chunkId)` and serve them back (whatever they held before): `UploadFile`
succeeds, and then `DownloadFile` with the same chunk size succeeds, for every order in
which the manager returns the chunk entries, with an output file whose bytes are exactly
the bytes of the original file. -/
theorem C12_round_trip (m : ManagerNode) (s0 : Store) (N : List String) (env : UploadEnv)
    (content : Bytes) (filePath fileID : String) (chunkSize : Int)
    (hne : N ≠ []) (haddr : ∀ a ∈ N, PlainAddr a) (hid : PlainId fileID)
    (hnew : m.chunkMapping.lookup fileID = none) (hC : 1 ≤ chunkSize)
    (hcap : chunkSize ≤ 2 ^ 30) (halloc : chunkSize ≤ (env.maxAlloc : Int))
    (hrpc : env.rpc = none)
    (h31 : ((content.length : Int) + chunkSize - 1) / chunkSize < 2 ^ 31)
    (hmsg : GetNodesForChunksRequest.wireSize
        ⟨fileID, ((content.length : Int) + chunkSize - 1) / chunkSize, fileTypeOf filePath⟩ +
      GetNodesForChunksResponse.wireSize
        ⟨planOf N (((content.length : Int) + chunkSize - 1) / chunkSize).toNat⟩ ≤
      maxReceiveMessageSize) :
    ∃ w1 log,
      UploadFile idealNodes { manager := m, nodes := s0 } N env (.ok content) filePath fileID
        chunkSize = some (w1, log, none) ∧
      ∀ order, (∀ c, w1.manager.chunkMapping.lookup fileID = some c → EntryOrder c order) →
        ∃ name gets, DownloadFile idealNodes w1 order fileID chunkSize =
          { outFile := some (name, content), gets := gets, err := none } := by
  have hS : (0 : Int) ≤ (content.length : Int) := Int.ofNat_nonneg _
  obtain ⟨hle, _, hzero, hlast⟩ := ceil_div_props hS hC
  have hb : (content.length : Int) + chunkSize - 1 < 2 ^ 63 := by
    have h1 : (content.length : Int) ≤
        ((content.length : Int) + chunkSize - 1) / chunkSize * chunkSize := hle
    have h2 : ((content.length : Int) + chunkSize - 1) / chunkSize * chunkSize ≤
        2 ^ 31 * 2 ^ 30 := by
      have hq0 : 0 ≤ ((content.length : Int) + chunkSize - 1) / chunkSize :=
        Int.ediv_nonneg (by omega) (by omega)
      nlinarith
    omega
  have htc := totalChunksOf_eq hS hC hb
  generalize hq : ((content.length : Int) + chunkSize - 1) / chunkSize = q at *
  have hq0 : 0 ≤ q := by
    rw [← hq]
    exact Int.ediv_nonneg (by omega) (by omega)
  have hq32 : toInt32 q = q := by
    unfold toInt32
    omega
  obtain ⟨t, ht⟩ : ∃ t : Nat, (t : Int) = q := ⟨q.toNat, Int.toNat_of_nonneg hq0⟩
  obtain ⟨Cn, hCn⟩ : ∃ Cn : Nat, (Cn : Int) = chunkSize :=
    ⟨chunkSize.toNat, Int.toNat_of_nonneg (by omega)⟩
  have hqt : q.toNat = t := by omega
  have hCt : chunkSize.toNat = Cn := by omega
  have hchunk : ∀ i, i < t → i * Cn < content.length := by
    intro i hi
    have hiq : (i : Int) < q := by omega
    have hpos : (0 : Int) < (content.length : Int) := by
      by_contra hnp
      have h0 : (content.length : Int) = 0 := by omega
      have := hzero.mpr h0
      omega
    have h1 := (hlast hpos).1
    have h2 : (i : Int) * chunkSize < (content.length : Int) := by nlinarith
    have h3 : ((i * Cn : Nat) : Int) < (content.length : Int) := by
      push_cast
      rw [hCn]
      exact h2
    exact Int.ofNat_lt.mp h3
  have hcover : content.length ≤ t * Cn := by
    have h3 : (content.length : Int) ≤ ((t * Cn : Nat) : Int) := by
      push_cast
      rw [ht, hCn]
      exact hle
    exact Int.ofNat_le.mp h3
  obtain ⟨m1, hcall, inv⟩ := GetNodesForChunks_ok m hne
    { FileId := fileID, TotalChunks := q, FileType := fileTypeOf filePath } h31
  simp only [hqt] at hcall inv hmsg
  have hreq : m.GetNodesForChunks N
      { FileId := fileID,
        TotalChunks := toInt32 (totalChunksOf content.length chunkSize),
        FileType := fileTypeOf filePath } = some (m1, .ok { Nodes := planOf N t }) := by
    rw [htc, hq32]
    exact hcall
  have hclient : Client.GetNodesForChunks m N env.rpc fileID
      (totalChunksOf content.length chunkSize) (fileTypeOf filePath) =
      some (m1, .ok (planOf N t)) := by
    rw [hrpc]
    exact Client.GetNodesForChunks_of_plan m m1 N fileID (fileTypeOf filePath)
      (totalChunksOf content.length chunkSize) { Nodes := planOf N t }
      (by rw [htc, hq32]; omega) hreq (by omega)
  have hup := UploadFile_of_plan idealNodes { manager := m, nodes := s0 } N env content
    filePath fileID chunkSize hC halloc m1 (planOf N t) hclient
  rw [readSize_of_le hcap, htc, hqt, hCt] at hup
  have hplanaddr : ∀ node ∈ planOf N t, PlainAddr node.NodeAddress := by
    intro node hnode
    obtain ⟨j, _, _, hj⟩ := (mem_planOf_iff N t node).mp hnode
    rcases hj with hj | hj
    · rw [hj]
      exact haddr _ (firstNodeAt_mem hne j)
    · rw [hj]
      exact haddr _ (secondNodeAt_mem hne j)
  have ht20 : t < 10 ^ 20 := by
    have : (t : Int) < 2 ^ 31 := by omega
    have h2 : t < 2 ^ 31 := by exact_mod_cast this
    have h3 : (2 : Nat) ^ 31 < 10 ^ 20 := by decide
    omega
  obtain ⟨hl1, _, hl3⟩ := uploadLoop_ideal (planOf N t) fileID Cn t 0 content s0 hplanaddr hid
    (by omega)
  rw [hl1] at hup
  refine ⟨_, _, hup, fun order hord => ?_⟩
  obtain ⟨c, hc, hentries⟩ := fresh_record_entries inv hnew
  obtain ⟨hkeys, hentry⟩ := hentries order (hord c hc)
  -- every fetch yields the chunk of the entry
  have hdata : ∀ e ∈ order,
      (downloadChunkFromAvailableNodes idealNodes
        (uploadLoop idealNodes (planOf N t) fileID Cn t 0 content s0).1 fileID
        (chunkInfoOf e)).2 = .ok (chunkAt content Cn e.1.toNat) := by
    intro e he
    obtain ⟨h0, hlt, hrep⟩ := hentry e he
    obtain ⟨i, hie⟩ : ∃ i : Nat, e.1 = (i : Int) :=
      ⟨e.1.toNat, (Int.toNat_of_nonneg h0).symm⟩
    have hin : e.1.toNat = i := by omega
    rw [hin] at hrep ⊢
    obtain ⟨tl, htl⟩ := replicasAt_head N i
    have hi : i < t := by omega
    have hi31 : ((i : Nat) : Int) < 2 ^ 31 := by omega
    have hmem : firstNodeAt N i ∈
        ((planOf N t).filter
          (fun node => node.ChunkId = toInt32 ((0 + i : Nat) : Int))).map
          (fun node => node.NodeAddress) := by
      rw [Nat.zero_add, toInt32_natCast hi31, filter_planOf N t _ hi]
      exact List.mem_cons_self _ _
    have hne0 : (chunkAt content Cn i).length ≠ 0 := by
      rw [chunkAt_length]
      have := hchunk _ hi
      have : 1 ≤ Cn := by omega
      omega
    have hstore := hl3 i hi hne0 _ hmem
    rw [Nat.zero_add] at hstore
    unfold downloadChunkFromAvailableNodes chunkInfoOf
    simp only
    rw [hrep, htl, hie]
    exact tryReplicas_ideal_head _ _ _ _ _ _ (haddr _ (firstNodeAt_mem hne _)) hid
      (by omega) hstore
  have hidx : ∀ e ∈ order, 0 ≤ e.1 ∧ e.1 * chunkSize < 2 ^ 63 := by
    intro e he
    obtain ⟨h0, hlt, _⟩ := hentry e he
    refine ⟨h0, ?_⟩
    have hi : e.1.toNat < t := by omega
    have h1 := hchunk _ hi
    have h2 : ((e.1.toNat * Cn : Nat) : Int) < (content.length : Int) := Int.ofNat_lt.mpr h1
    push_cast at h2
    rw [Int.toNat_of_nonneg h0, hCn] at h2
    omega
  have hoff : ∀ e ∈ order, ¬ wrapInt (e.1 * chunkSize) < 0 := by
    intro e he
    obtain ⟨h0, hb2⟩ := hidx e he
    have hp : 0 ≤ e.1 * chunkSize := Int.mul_nonneg h0 (by omega)
    rw [wrapInt_of_range (by omega) hb2]
    omega
  have hwrite : ∀ e ∈ order,
      writeOf idealNodes (uploadLoop idealNodes (planOf N t) fileID Cn t 0 content s0).1
        fileID chunkSize e = (e.1.toNat * Cn, chunkAt content Cn e.1.toNat) := by
    intro e he
    obtain ⟨h0, hb2⟩ := hidx e he
    have hp : 0 ≤ e.1 * chunkSize := Int.mul_nonneg h0 (by omega)
    have hprod : e.1 * chunkSize = ((e.1.toNat * Cn : Nat) : Int) := by
      push_cast
      rw [Int.toNat_of_nonneg h0, hCn]
    unfold writeOf fetchedData
    rw [hdata e he, wrapInt_of_range (by omega) hb2, hprod, Int.toNat_natCast]
  have hlen : ∀ e ∈ order,
      ((fetchedData idealNodes (uploadLoop idealNodes (planOf N t) fileID Cn t 0 content s0).1
        fileID e).length : Int) ≤ chunkSize := by
    intro e he
    unfold fetchedData
    rw [hdata e he]
    simp only
    rw [chunkAt_length, ← hCn]
    exact Int.ofNat_le.mpr (Nat.min_le_left _ _)
  have hnodup : (order.map Prod.fst).Nodup :=
    (List.Perm.nodup_iff hkeys).mpr
      ((List.nodup_range _).map (fun a b h => Int.ofNat.inj h))
  have hdisj := writes_disjoint idealNodes
    (uploadLoop idealNodes (planOf N t) fileID Cn t 0 content s0).1 fileID chunkSize order
    hnodup hC hidx hlen
  have hmap : order.map (writeOf idealNodes
      (uploadLoop idealNodes (planOf N t) fileID Cn t 0 content s0).1 fileID chunkSize) =
      (order.map Prod.fst).map (fun j : Int => (j.toNat * Cn, chunkAt content Cn j.toNat)) := by
    rw [List.map_map]
    exact List.map_congr_left hwrite
  have hperm : (order.map (writeOf idealNodes
      (uploadLoop idealNodes (planOf N t) fileID Cn t 0 content s0).1 fileID chunkSize)).Perm
      ((List.range t).map (fun i => (i * Cn, chunkAt content Cn i))) := by
    rw [hmap]
    have h2 : ((List.range t).map Int.ofNat).map
        (fun j : Int => (j.toNat * Cn, chunkAt content Cn j.toNat)) =
        (List.range t).map (fun i => (i * Cn, chunkAt content Cn i)) := by
      rw [List.map_map]
      apply List.map_congr_left
      intro i _
      simp
    rw [← h2]
    exact hkeys.map _
  obtain ⟨hw, herr⟩ := downloadLoop_writes idealNodes
    (uploadLoop idealNodes (planOf N t) fileID Cn t 0 content s0).1 fileID chunkSize order []
    (fun e he => ⟨_, hdata e he⟩) hoff
  have hout : (downloadLoop idealNodes
      (uploadLoop idealNodes (planOf N t) fileID Cn t 0 content s0).1 fileID chunkSize
      (order.map chunkInfoOf) []).1 = content := by
    rw [hw, writeAll_perm [] _ _ hperm hdisj, writeAll_chunks]
    exact List.take_of_length_le hcover
  refine ⟨"output." ++ (m1.fileTypes.lookup fileID).getD "",
    (downloadLoop idealNodes (uploadLoop idealNodes (planOf N t) fileID Cn t 0 content s0).1
      fileID chunkSize (order.map chunkInfoOf) []).2.1, ?_⟩
  rw [DownloadFile_of_record idealNodes _ order fileID chunkSize c hc]
  simp only [DownloadResult.mk.injEq, Option.some.injEq, Prod.mk.injEq, true_and]
  exact ⟨hout, herr⟩

theorem varintSize_pos (n : Nat) : 1 ≤ varintSize n := by
  unfold varintSize
  split_ifs <;> omega

/-- A plan for `t` chunks takes at least `4 * t` bytes on the wire. -/
theorem wireSize_planOf_ge (N : List String) (t : Nat) :
    4 * t ≤ GetNodesForChunksResponse.wireSize ⟨planOf N t⟩ := by
  induction t with
  | zero => exact Nat.zero_le _
  | succ t ih =>
    unfold GetNodesForChunksResponse.wireSize at ih ⊢
    simp only at ih ⊢
    rw [planOf_succ, List.map_append, List.sum_append]
    simp only [List.map_cons, List.map_nil, List.sum_cons, List.sum_nil]
    have h1 := varintSize_pos (ChunkNodeInfo.wireSize
      { ChunkId := (t : Int), NodeAddress := firstNodeAt N t })
    have h2 := varintSize_pos (ChunkNodeInfo.wireSize
      { ChunkId := (t : Int), NodeAddress := secondNodeAt N t })
    omega

/-- With no fault of the call and a request within the receive limit, a plan above the
limit reaches the client as an error. -/
theorem Client.GetNodesForChunks_too_large (m m1 : ManagerNode) (order : List String)
    (fileID fileType : String) (totalChunks : Int) (resp : GetNodesForChunksResponse)
    (hreq : GetNodesForChunksRequest.wireSize ⟨fileID, toInt32 totalChunks, fileType⟩ ≤
      maxReceiveMessageSize)
    (hcall : m.GetNodesForChunks order
      { FileId := fileID, TotalChunks := toInt32 totalChunks, FileType := fileType } =
      some (m1, .ok resp))
    (hresp : maxReceiveMessageSize < resp.wireSize) :
    Client.GetNodesForChunks m order none fileID totalChunks fileType =
      some (m1, .error ("failed to get nodes for chunks: " ++
        resourceExhausted resp.wireSize)) := by
  unfold Client.GetNodesForChunks
  simp only [hcall, Nat.not_lt.mpr hreq, hresp, if_false, if_true]

/-- `UploadFile` on a readable file, when the placement call fails: the error is returned
and nothing is pushed. -/
theorem UploadFile_of_error {σ : Type} (P : Payload σ) (w : Cluster σ) (order : List String)
    (env : UploadEnv) (content : Bytes) (filePath fileID : String) (chunkSize : Int)
    (hC : chunkSize ≠ 0) (m1 : ManagerNode) (e : String)
    (hcall : Client.GetNodesForChunks w.manager order env.rpc fileID
      (totalChunksOf content.length chunkSize) (fileTypeOf filePath) =
      some (m1, .error e)) :
    UploadFile P w order env (.ok content) filePath fileID chunkSize =
      some ({ manager := m1, nodes := w.nodes }, [],
        some ("failed to get nodes for chunks: " ++ e)) := by
  simp only [UploadFile, hC, if_false, hcall]


theorem goString_replicate (n : Nat) :
    goString (String.mk (List.replicate n 'a')) = List.replicate n 97 := by
  unfold goString
  induction n with
  | zero => rfl
  | succ n ih =>
    rw [List.replicate_succ, List.replicate_succ, List.flatMap_cons, ih]
    rfl

/-- A request whose query is longer than the head of a request may be is refused. -/
theorem deliver_too_long (base fileID chunkID : String)
    (hU : ∀ b ∈ goString (base ++ "?file_id=" ++ fileID ++ "&chunk_id=" ++ chunkID),
      32 ≤ b ∧ b ≠ 35 ∧ b ≠ 127)
    (hQ : 35 ∉ goString ("file_id=" ++ fileID ++ "&chunk_id=" ++ chunkID))
    (hlen : 1048576 < (goString ("file_id=" ++ fileID ++ "&chunk_id=" ++ chunkID)).length) :
    deliver base fileID chunkID = .refused 431 "431 Request Header Fields Too Large" := by
  have hcutU := cutBytes_of_not_mem 35
    (goString (base ++ "?file_id=" ++ fileID ++ "&chunk_id=" ++ chunkID))
    (fun h => (hU 35 h).2.1 rfl)
  have hcutQ := cutBytes_of_not_mem 35 _ hQ
  have hctl : (goString (base ++ "?file_id=" ++ fileID ++ "&chunk_id=" ++ chunkID)).any
      (fun b => decide (b < 32 ∨ b = 127)) = false := by
    rw [List.any_eq_false]
    intro b hb
    have := hU b hb
    simp only [decide_eq_true_eq, not_or]
    omega
  have hfrag : (QueryUnescape ((none : Option GoString).getD [])).isNone = false := rfl
  unfold deliver
  rw [hcutU, hcutQ]
  simp only [hctl, hfrag, hlen, if_true, if_false, Bool.false_eq_true]

set_option maxRecDepth 100000 in
/-- A file identifier of more than 1 MiB (and at most 4000000 bytes) of the letter `a`
makes the first push of an upload fail. -/
theorem long_id_upload_fails (fileID : String)
    (hF1 : 1048576 < (goString fileID).length) (hF2 : (goString fileID).length ≤ 4000000)
    (hFb : ∀ b ∈ goString fileID, b = 97) :
    ∃ w1 log e,
      UploadFile idealNodes { manager := managerA, nodes := emptyStore } ["A"] calmEnv
          (.ok [1]) "x.txt" fileID 1 = some (w1, log, some e) := by
  have htc : toInt32 (totalChunksOf (([1] : Bytes).length : Int) 1) = 1 := by decide
  obtain ⟨m1, hcall, _⟩ := GetNodesForChunks_ok managerA (N := ["A"]) (by decide)
    { FileId := fileID, TotalChunks := 1, FileType := fileTypeOf "x.txt" }
    (by show (1 : Int) < 2 ^ 31; decide)
  have hnat : (1 : Int).toNat = 1 := by rfl
  simp only [hnat] at hcall
  have hreq : managerA.GetNodesForChunks ["A"]
      { FileId := fileID,
        TotalChunks := toInt32 (totalChunksOf (([1] : Bytes).length : Int) 1),
        FileType := fileTypeOf "x.txt" } =
      some (m1, .ok { Nodes := planOf ["A"] 1 }) := by
    rw [htc]
    exact hcall
  have hsize : GetNodesForChunksRequest.wireSize
      ⟨fileID, toInt32 (totalChunksOf (([1] : Bytes).length : Int) 1), fileTypeOf "x.txt"⟩ ≤
      maxReceiveMessageSize := by
    rw [htc]
    have h1 : int32FieldSize 1 = 2 := by decide
    have h2 : stringFieldSize (fileTypeOf "x.txt") = 5 := by decide
    have h3 : varintSize (goString fileID).length ≤ 10 := by
      unfold varintSize
      split_ifs <;> omega
    unfold GetNodesForChunksRequest.wireSize
    simp only
    rw [h1, h2]
    unfold stringFieldSize maxReceiveMessageSize
    split_ifs <;> omega
  have hclient := Client.GetNodesForChunks_of_plan managerA m1 ["A"] fileID
    (fileTypeOf "x.txt") (totalChunksOf (([1] : Bytes).length : Int) 1)
    { Nodes := planOf ["A"] 1 } hsize hreq (by decide)
  have hup := UploadFile_of_plan idealNodes { manager := managerA, nodes := emptyStore }
    ["A"] calmEnv [1] "x.txt" fileID 1 (by decide) (by decide) m1 (planOf ["A"] 1) hclient
  have hk : (totalChunksOf (([1] : Bytes).length : Int) 1).toNat = 1 := by decide
  have hrs : readSize (1 : Int).toNat = 1 := by decide
  rw [hk, hrs] at hup
  have hnodes : ((planOf ["A"] 1).filter
      (fun node => node.ChunkId = toInt32 ((0 : Nat) : Int))).map
      (fun node => node.NodeAddress) = ["A", "A"] := by decide
  have hU : ∀ b ∈ goString ("http://A/upload" ++ "?file_id=" ++ fileID ++ "&chunk_id=" ++
      toString 0), 32 ≤ b ∧ b ≠ 35 ∧ b ≠ 127 := by
    intro b hb
    simp only [goString_append, List.mem_append] at hb
    have hconst : ∀ s : String, s ∈ ["http://A/upload", "?file_id=", "&chunk_id=",
        toString 0] → ∀ c ∈ goString s, 32 ≤ c ∧ c ≠ 35 ∧ c ≠ 127 := by decide
    rcases hb with ((hb | hb) | hb) | hb
    · rcases hb with hb | hb
      · exact hconst _ (by decide) b hb
      · exact hconst _ (by decide) b hb
    · rw [hFb b hb]
      decide
    · exact hconst _ (by decide) b hb
    · exact hconst _ (by decide) b hb
  have hQ : 35 ∉ goString ("file_id=" ++ fileID ++ "&chunk_id=" ++ toString 0) := by
    intro hb
    simp only [goString_append, List.mem_append] at hb
    rcases hb with ((hb | hb) | hb) | hb
    · revert hb
      decide
    · have := hFb 35 hb
      revert this
      decide
    · revert hb
      decide
    · revert hb
      decide
  have hlen : 1048576 <
      (goString ("file_id=" ++ fileID ++ "&chunk_id=" ++ toString 0)).length := by
    simp only [goString_append, List.length_append]
    omega
  have hd := deliver_too_long "http://A/upload" fileID (toString 0) hU hQ hlen
  have hpost : postError (idealNodes.post emptyStore "A" fileID (toString 0)
      (([1] : Bytes).take 1)).2 =
      some ("error response from server: " ++ "431 Request Header Fields Too Large") := by
    have hbase : "http://" ++ "A" ++ "/upload" = "http://A/upload" := by decide
    simp only [idealNodes, hbase, hd]
    rfl
  have hfail := UploadChunk_cons_fail idealNodes (([1] : Bytes).take 1) fileID (toString 0)
    "A" ["A"] emptyStore _ hpost
  have hloop := uploadLoop_fail idealNodes (planOf ["A"] 1) fileID 1 0 0 [1] emptyStore _
    (by decide) (by rw [hnodes, hfail])
  rw [hloop] at hup
  exact ⟨_, _, _, hup⟩

set_option maxRecDepth 100000 in
/-- C12, as stated, fails; each of these uploads is to storage nodes that store and serve
verbatim.  (a) A file of `2^31` bytes uploaded with chunk size 1 has `2^31` chunks; the
client sends `int32(2^31) = -2^31` to the manager, which records an empty chunk map and
returns an empty plan, so `UploadFile` succeeds without a push and `DownloadFile` leaves
an empty output file.  (b) The file identifier `a#b`: the URL of every push and fetch
ends at the `#`, so every node reads the file identifier `a` and no chunk identifier;
the three chunks of a 5-byte file overwrite each other, both calls succeed, and the
output is `[5, 0, 5, 0, 5]`.  (c) Chunk size `2^30 + 1` for a file of that size: the one
`file.Read` returns `2^30` bytes, both calls succeed, and the output lacks the last
byte.  (d) A file of `2^21` chunks: the plan is larger than the 4 MiB a gRPC client
accepts, and `UploadFile` fails.  (e) Chunk size `2^62`: `make([]byte, chunkSize)`
panics on every machine that cannot allocate `2^62` bytes.  (f) A registered address
with a tab character: `http.NewRequest` rejects the URL, and `UploadFile` fails.  (g) A
file identifier of 2000000 bytes: the node refuses the request head, and `UploadFile`
fails. -/
theorem C12_counterexample :
    ((KeyOrder managerA.nodes ["A"] ∧ managerA.chunkMapping.lookup "big" = none ∧
       (1 : Int) ≤ 1) ∧
     ∃ w1,
       UploadFile idealNodes { manager := managerA, nodes := emptyStore } ["A"] calmEnv
           (.ok (List.replicate 2147483648 (0 : UInt8))) "big.bin" "big" 1 =
         some (w1, [], none) ∧
       (∀ order, (∀ c, w1.manager.chunkMapping.lookup "big" = some c → EntryOrder c order) →
         DownloadFile idealNodes w1 order "big" 1 =
           { outFile := some ("output.", []), gets := [], err := none }) ∧
       List.replicate 2147483648 (0 : UInt8) ≠ []) ∧
    (UploadFile idealNodes { manager := managerAB, nodes := emptyStore } ["A", "B"] calmEnv
         (.ok [1, 2, 3, 4, 5]) "dir/a#b.txt" "a#b" 2 = some mangledUpload ∧
       mangledUpload.2.2 = none ∧
       mangledUpload.1.manager.chunkMapping.lookup "a#b" = some mangledRecord ∧
       EntryOrder mangledRecord [(0, ["A", "B"]), (1, ["B", "A"]), (2, ["A", "B"])] ∧
       (DownloadFile idealNodes mangledUpload.1
         [(0, ["A", "B"]), (1, ["B", "A"]), (2, ["A", "B"])] "a#b" 2).outFile =
         some ("output.txt", [5, 0, 5, 0, 5]) ∧
       (DownloadFile idealNodes mangledUpload.1
         [(0, ["A", "B"]), (1, ["B", "A"]), (2, ["A", "B"])] "a#b" 2).err = none) ∧
    (∃ w1 log,
       UploadFile idealNodes { manager := managerAB, nodes := emptyStore } ["A", "B"]
           roomyEnv (.ok (List.replicate 1073741825 (0 : UInt8))) "big.bin" "big"
           1073741825 = some (w1, log, none) ∧
       (∀ order, (∀ c, w1.manager.chunkMapping.lookup "big" = some c → EntryOrder c order) →
         ∃ name gets, DownloadFile idealNodes w1 order "big" 1073741825 =
           { outFile := some (name, List.replicate 1073741824 0), gets := gets,
             err := none }) ∧
       List.replicate 1073741824 (0 : UInt8) ≠ List.replicate 1073741825 0) ∧
    (∃ w1 e,
       UploadFile idealNodes { manager := managerA, nodes := emptyStore } ["A"] calmEnv
           (.ok (List.replicate 2097152 (0 : UInt8))) "big.bin" "big" 1 =
         some (w1, [], some e)) ∧
    (∀ env : UploadEnv, env.rpc = none → env.maxAlloc < 2 ^ 62 →
       UploadFile idealNodes { manager := managerA, nodes := emptyStore } ["A"] env
         (.ok [1]) "x.txt" "f" 4611686018427387904 = none) ∧
    (UploadFile idealNodes { manager := tabManager, nodes := emptyStore } ["A\tB"] calmEnv
         (.ok [1]) "x.txt" "f" 1 = some tabUpload ∧
       tabUpload.2.1 =
         [{ nodeAddress := "A\tB", fileID := "f", chunkID := "0", chunk := [1], ok := false }] ∧
       tabUpload.2.2.isSome = true ∧ KeyOrder tabManager.nodes ["A\tB"]) ∧
    (∃ w1 log e,
       UploadFile idealNodes { manager := managerA, nodes := emptyStore } ["A"] calmEnv
           (.ok [1]) "x.txt" (String.mk (List.replicate 2000000 'a')) 1 =
         some (w1, log, some e)) := by
  refine ⟨?_, ?_, ?_, ?_, ?_, ?_, ?_⟩
  · have hlen0 : (List.replicate 2147483648 (0 : UInt8)).length = 2147483648 :=
      List.length_replicate _ _
    generalize List.replicate 2147483648 (0 : UInt8) = content at hlen0 ⊢
    have hlen : (content.length : Int) = 2147483648 := by
      rw [hlen0]
      rfl
    have htc : totalChunksOf 2147483648 1 = 2147483648 := by decide
    have ht32 : toInt32 2147483648 = -2147483648 := by decide
    have hnew : managerA.chunkMapping.lookup "big" = none := by decide
    obtain ⟨m1, hcall, inv⟩ := GetNodesForChunks_ok managerA (N := ["A"]) (by decide)
      { FileId := "big", TotalChunks := -2147483648, FileType := fileTypeOf "big.bin" }
      (by decide)
    have hnat : (-2147483648 : Int).toNat = 0 := by decide
    simp only [hnat] at hcall inv
    have hplan : planOf ["A"] 0 = [] := rfl
    rw [hplan] at hcall inv
    have hreq : managerA.GetNodesForChunks ["A"]
        { FileId := "big",
          TotalChunks := toInt32 (totalChunksOf (content.length : Int) 1),
          FileType := fileTypeOf "big.bin" } = some (m1, .ok { Nodes := [] }) := by
      rw [hlen, htc, ht32]
      exact hcall
    have hclient := Client.GetNodesForChunks_of_plan managerA m1 ["A"] "big"
      (fileTypeOf "big.bin") (totalChunksOf (content.length : Int) 1) { Nodes := [] }
      (by rw [hlen, htc]; decide) hreq (by decide)
    have hup := UploadFile_of_plan idealNodes { manager := managerA, nodes := emptyStore }
      ["A"] calmEnv content "big.bin" "big" 1 (by decide) (by decide) m1 [] hclient
    rw [uploadLoop_empty_plan] at hup
    refine ⟨⟨by decide, hnew, by decide⟩, _, hup, fun order hord => ?_, ?_⟩
    · obtain ⟨c, hc, hentries⟩ := fresh_record_entries inv hnew
      obtain ⟨hkeys, _⟩ := hentries order (hord c hc)
      have hnil : order = [] := by
        have h1 : order.map Prod.fst = [] := List.perm_nil.mp (by simpa using hkeys)
        exact List.map_eq_nil_iff.mp h1
      subst hnil
      have hty : m1.fileTypes.lookup "big" = none := by
        have := inv.type_file
        simpa using this
      rw [DownloadFile_of_record idealNodes _ [] "big" 1 c hc]
      simp only [hty]
      rfl
    · intro h
      have := congrArg List.length h
      rw [hlen0, List.length_nil] at this
      omega
  · exact
      ⟨rfl, by decide, rfl, by decide, by rfl, by rfl⟩
  · have htake : (List.replicate 1073741825 (0 : UInt8)).take 1073741824 =
        List.replicate 1073741824 0 := by
      rw [List.take_replicate]
      rfl
    have hlen0 : (List.replicate 1073741825 (0 : UInt8)).length = 1073741825 :=
      List.length_replicate _ _
    have hlen1 : (List.replicate 1073741824 (0 : UInt8)).length = 1073741824 :=
      List.length_replicate _ _
    generalize List.replicate 1073741825 (0 : UInt8) = content at htake hlen0 ⊢
    generalize List.replicate 1073741824 (0 : UInt8) = chunk at htake hlen1 ⊢
    have hlen : (content.length : Int) = 1073741825 := by
      rw [hlen0]
      rfl
    have htc : totalChunksOf 1073741825 1073741825 = 1 := by decide
    have ht32 : toInt32 1 = 1 := by decide
    have hnew : managerAB.chunkMapping.lookup "big" = none := by decide
    obtain ⟨m1, hcall, inv⟩ := GetNodesForChunks_ok managerAB (N := ["A", "B"]) (by decide)
      { FileId := "big", TotalChunks := 1, FileType := fileTypeOf "big.bin" } (by decide)
    have hnat : (1 : Int).toNat = 1 := by rfl
    simp only [hnat] at hcall inv
    have hreq : managerAB.GetNodesForChunks ["A", "B"]
        { FileId := "big",
          TotalChunks := toInt32 (totalChunksOf (content.length : Int) 1073741825),
          FileType := fileTypeOf "big.bin" } =
        some (m1, .ok { Nodes := planOf ["A", "B"] 1 }) := by
      rw [hlen, htc, ht32]
      exact hcall
    have hclient := Client.GetNodesForChunks_of_plan managerAB m1 ["A", "B"] "big"
      (fileTypeOf "big.bin") (totalChunksOf (content.length : Int) 1073741825)
      { Nodes := planOf ["A", "B"] 1 }
      (by rw [hlen, htc]; decide) hreq (by decide)
    have hup := UploadFile_of_plan idealNodes { manager := managerAB, nodes := emptyStore }
      ["A", "B"] roomyEnv content "big.bin" "big"
      1073741825 (by decide) (by decide) m1 (planOf ["A", "B"] 1) hclient
    have hk : (totalChunksOf (content.length : Int) 1073741825).toNat = 1 := by
      rw [hlen, htc]
      rfl
    have hrs : readSize (1073741825 : Int).toNat = 1073741824 := by decide
    rw [hk, hrs] at hup
    have hn : (content.take 1073741824).length ≠ 0 := by
      rw [htake, hlen1]
      decide
    have hnodes : ((planOf ["A", "B"] 1).filter
        (fun node => node.ChunkId = toInt32 ((0 : Nat) : Int))).map
        (fun node => node.NodeAddress) = ["A", "B"] := by decide
    obtain ⟨hu, hstore⟩ := UploadChunk_ideal (content.take 1073741824) "big" (toString 0)
      ["A", "B"] emptyStore (by decide) (by decide) (by decide) (by decide)
    have hA0 := hstore "A" (goString "big") (goString (toString 0))
    rw [if_pos ⟨by decide, rfl, rfl⟩] at hA0
    have hA := hA0.trans (congrArg some htake)
    rw [← hnodes] at hu hA
    rw [uploadLoop_ok idealNodes (planOf ["A", "B"] 1) "big" 1073741824 0 0 content
      emptyStore hn hu] at hup
    simp only [uploadLoop, List.append_nil] at hup
    obtain ⟨s1, hs1⟩ : ∃ s1, s1 = (UploadChunk idealNodes (content.take 1073741824) "big"
        (toString 0) (((planOf ["A", "B"] 1).filter
          (fun node => node.ChunkId = toInt32 ((0 : Nat) : Int))).map
          (fun node => node.NodeAddress)) emptyStore).1 := ⟨_, rfl⟩
    rw [← hs1] at hA hup
    refine ⟨_, _, hup, fun order hord => ?_, ?_⟩
    · obtain ⟨c, hc, hentries⟩ := fresh_record_entries inv hnew
      obtain ⟨hkeys, hentry⟩ := hentries order (hord c hc)
      have hfst : order.map Prod.fst = [0] := by
        have : (order.map Prod.fst).Perm [0] := hkeys
        exact List.perm_singleton.mp this
      obtain ⟨e, he⟩ : ∃ e, order = [e] := by
        cases order with
        | nil => simp at hfst
        | cons e rest =>
          cases rest with
          | nil => exact ⟨e, rfl⟩
          | cons e2 rest2 => simp at hfst
      subst he
      have he1 : e.1 = 0 := by simpa using hfst
      have he2 : e.2 = ["A", "B"] := by
        have := (hentry e (List.mem_singleton.mpr rfl)).2.2
        rw [he1] at this
        rw [this]
        decide
      have hfetch : (downloadChunkFromAvailableNodes idealNodes s1 "big" (chunkInfoOf e)).2 =
          .ok chunk := by
        unfold downloadChunkFromAvailableNodes chunkInfoOf
        simp only
        rw [he1, he2]
        exact tryReplicas_ideal_head s1 "big" 0 "A" ["B"] chunk (by decide) (by decide)
          (by decide) hA
      have hoff0 : wrapInt (e.1 * 1073741825) = 0 := by
        rw [he1]
        decide
      have hoff : ∀ e1 ∈ [e], ¬ wrapInt (e1.1 * 1073741825) < 0 := by
        intro e1 h1
        rw [List.mem_singleton.mp h1, hoff0]
        decide
      obtain ⟨hw, herr⟩ := downloadLoop_writes idealNodes s1 "big" 1073741825 [e] []
        (fun e1 h1 => ⟨chunk, by rw [List.mem_singleton.mp h1]; exact hfetch⟩) hoff
      have hfd : fetchedData idealNodes s1 "big" e = chunk := by
        unfold fetchedData
        rw [hfetch]
      have hout : writeAll [] ([e].map (writeOf idealNodes s1 "big" 1073741825)) = chunk := by
        show writeAt [] (wrapInt (e.1 * 1073741825)).toNat (fetchedData idealNodes s1 "big" e) =
          chunk
        rw [hfd, hoff0]
        exact writeAt_end [] 0 chunk rfl
      rw [hout] at hw
      rw [DownloadFile_of_record idealNodes _ [e] "big" 1073741825 c hc, hw, herr]
      exact ⟨_, _, rfl⟩
    · intro h
      have := congrArg List.length h
      rw [hlen0, hlen1] at this
      revert this
      decide
  · have hlen0 : (List.replicate 2097152 (0 : UInt8)).length = 2097152 :=
      List.length_replicate _ _
    generalize List.replicate 2097152 (0 : UInt8) = content at hlen0 ⊢
    have hlen : (content.length : Int) = 2097152 := by
      rw [hlen0]
      rfl
    have htc : totalChunksOf 2097152 1 = 2097152 := by decide
    have ht32 : toInt32 2097152 = 2097152 := by decide
    obtain ⟨m1, hcall, _⟩ := GetNodesForChunks_ok managerA (N := ["A"]) (by decide)
      { FileId := "big", TotalChunks := 2097152, FileType := fileTypeOf "big.bin" }
      (by decide)
    have hnat : (2097152 : Int).toNat = 2097152 := by rfl
    simp only [hnat] at hcall
    have hreq : managerA.GetNodesForChunks ["A"]
        { FileId := "big",
          TotalChunks := toInt32 (totalChunksOf (content.length : Int) 1),
          FileType := fileTypeOf "big.bin" } =
        some (m1, .ok { Nodes := planOf ["A"] 2097152 }) := by
      rw [hlen, htc, ht32]
      exact hcall
    have hresp : maxReceiveMessageSize <
        GetNodesForChunksResponse.wireSize { Nodes := planOf ["A"] 2097152 } := by
      have := wireSize_planOf_ge ["A"] 2097152
      unfold maxReceiveMessageSize
      omega
    have hclient := Client.GetNodesForChunks_too_large managerA m1 ["A"] "big"
      (fileTypeOf "big.bin") (totalChunksOf (content.length : Int) 1)
      { Nodes := planOf ["A"] 2097152 } (by rw [hlen, htc]; decide) hreq hresp
    have hfinal := UploadFile_of_error idealNodes
      { manager := managerA, nodes := emptyStore } ["A"] calmEnv content "big.bin" "big" 1
      (by decide) m1 _ hclient
    exact ⟨_, _, hfinal⟩
  · intro env hrpc halloc
    have hclient : Client.GetNodesForChunks managerA ["A"] none "f"
        (totalChunksOf (([1] : Bytes).length : Int) 4611686018427387904) (fileTypeOf "x.txt") =
        some (oneChunkManager, .ok (planOf ["A"] 1)) := by
      apply Client.GetNodesForChunks_of_plan managerA oneChunkManager ["A"] "f"
        (fileTypeOf "x.txt") _ { Nodes := planOf ["A"] 1 } (by decide) (by rfl) (by decide)
    have hbig : (env.maxAlloc : Int) < 4611686018427387904 := by
      have : (env.maxAlloc : Int) < ((2 ^ 62 : Nat) : Int) := Int.ofNat_lt.mpr halloc
      simpa using this
    have h0 : (4611686018427387904 : Int) ≠ 0 := by decide
    simp only [UploadFile, hrpc, hclient, hbig, h0, or_true, if_true, if_false]
  · exact
      ⟨rfl, by decide, by decide, by decide⟩
  · exact
      long_id_upload_fails _
        (by rw [goString_replicate, List.length_replicate]; decide)
        (by rw [goString_replicate, List.length_replicate]; decide)
        (by rw [goString_replicate]; exact fun b hb => List.eq_of_mem_replicate hb)

set_option maxRecDepth 100000 in
/-- Witness of the amended C12: the 5 bytes of `dir/hello.txt`, uploaded in chunks of
2 bytes to the registry `{A, B}` and downloaded again. -/
theorem C12_witness :
    (["A", "B"] ≠ [] ∧ (∀ a ∈ ["A", "B"], PlainAddr a) ∧ PlainId "hello" ∧
      managerAB.chunkMapping.lookup "hello" = none ∧ (1 : Int) ≤ 2 ∧ (2 : Int) ≤ 2 ^ 30 ∧
      (2 : Int) ≤ (calmEnv.maxAlloc : Int) ∧ calmEnv.rpc = none ∧
      ((([1, 2, 3, 4, 5] : Bytes).length : Int) + 2 - 1) / 2 < 2 ^ 31 ∧
      GetNodesForChunksRequest.wireSize
          ⟨"hello", ((([1, 2, 3, 4, 5] : Bytes).length : Int) + 2 - 1) / 2,
            fileTypeOf "dir/hello.txt"⟩ +
        GetNodesForChunksResponse.wireSize
          ⟨planOf ["A", "B"] (((([1, 2, 3, 4, 5] : Bytes).length : Int) + 2 - 1) / 2).toNat⟩ ≤
        maxReceiveMessageSize) ∧
    (∃ w1 log,
      UploadFile idealNodes { manager := managerAB, nodes := emptyStore } ["A", "B"] calmEnv
        (.ok [1, 2, 3, 4, 5]) "dir/hello.txt" "hello" 2 = some (w1, log, none) ∧
      ∀ order, (∀ c, w1.manager.chunkMapping.lookup "hello" = some c → EntryOrder c order) →
        ∃ name gets, DownloadFile idealNodes w1 order "hello" 2 =
          { outFile := some (name, [1, 2, 3, 4, 5]), gets := gets, err := none }) ∧
    (DownloadFile idealNodes smallUpload.1
        [(2, ["A", "B"]), (0, ["A", "B"]), (1, ["B", "A"])] "hello" 2).outFile =
      some ("output.txt", [1, 2, 3, 4, 5]) :=
  ⟨⟨by decide, by decide, by decide, by decide, by decide, by decide, by decide, rfl,
      by decide, by decide⟩,
   C12_round_trip managerAB emptyStore ["A", "B"] calmEnv [1, 2, 3, 4, 5] "dir/hello.txt"
     "hello" 2 (by decide) (by decide) (by decide) (by decide) (by decide) (by decide)
     (by decide) rfl (by decide) (by decide),
   by rfl⟩

/-! ## The chunk files of a storage node -/

end BreezeFS
